import Mathlib

/-!
Verification development for `src/hooking.c`.

A shallow embedding of the hooking engine: the trampoline builder
(`hook_create_stub`), the monitor call-context detector (`hook_in_monitor`),
the closeby page allocator (`_hook_alloc_closeby`), the hook installer
(`hook_create_jump`), the start-of-function resolver (`_hook_determine_start`),
the missing-hook worker and registry (`_hook_missing_hooks_worker`,
`hook_missing_hooks`) and the stub builders (`hook_insn`,
`hook_hotpatch_guardpage`).

Conventions.  Memory is one flat byte-addressed store, so source bytes and
trampoline bytes live in the same address space and may alias exactly as in C.
Pointers are natural numbers; a pointer that is *computed* from a displacement
found in code (`addr + rel + 5`) is reduced modulo the pointer width, a pointer
that merely steps through a buffer (`addr += 5`, `tramp++`) is not.  Collaborators
whose code is not part of the file (decoder, assembly emitters, memory
primitives) are parameters.
-/

namespace Hooking

/-! ## Memory -/

/-- Flat memory: the value stored at each address.  Reads see one byte. -/
abbrev Mem := Nat → Nat

/-- Read of one byte, `*(uint8_t *) a`. -/
def rd (m : Mem) (a : Nat) : Nat := m a % 256

/-- Store of one byte, `*(uint8_t *) a = b`. -/
def wr (m : Mem) (a : Nat) (b : Nat) : Mem :=
  fun x => if x = a then b % 256 else m x

/-- Store of a run of bytes starting at `a`, lowest address first. -/
def wrBytes (m : Mem) (a : Nat) : List Nat → Mem
  | [] => m
  | b :: bs => wrBytes (wr m a b) (a + 1) bs

/-- The `n` little-endian bytes of `v`. -/
def leBytes : Nat → Nat → List Nat
  | 0, _ => []
  | n + 1, v => (v % 256) :: leBytes n (v / 256)

/-- Little-endian read of `n` bytes, `*(uintN_t *) a`. -/
def rdLE (m : Mem) (a : Nat) : Nat → Nat
  | 0 => 0
  | n + 1 => rd m a + 256 * rdLE m (a + 1) n

/-- Read `*(uint32_t *) a`. -/
def rd32 (m : Mem) (a : Nat) : Nat := rdLE m a 4

/-- Value of a byte read through `int8_t *`. -/
def sext8 (b : Nat) : Int := if b < 128 then (b : Int) else (b : Int) - 256

/-- Value of a 32-bit word read through `int32_t *`. -/
def sext32 (v : Nat) : Int :=
  if v < 2147483648 then (v : Int) else (v : Int) - 4294967296

/-- Pointer plus signed displacement, reduced to `bits` bits. -/
def ptrAdd (bits : Nat) (a : Nat) (d : Int) : Nat :=
  (((a : Int) + d) % ((2 ^ bits : Nat) : Int)).toNat

/-- Conversion of a signed difference to `uint32_t`. -/
def toU32 (d : Int) : Nat := (d % ((4294967296 : Nat) : Int)).toNat

/-- The loop `while (length-- != 0) *tramp++ = *addr++;`: returns the memory after
`n` single-byte copies (each read sees the earlier writes). -/
def copyInsn (m : Mem) (tramp addr : Nat) : Nat → Mem
  | 0 => m
  | n + 1 => copyInsn (wr m tramp (rd m addr)) (tramp + 1) (addr + 1) n

/-! ## Collaborators of the trampoline builder -/

/-- The external pieces used by the code builders.

* `x64` selects the `#if __x86_64__` branches;
* `lde` is the decoder: the length it reports for the instruction at an address
  (0 on failure); it may inspect memory;
* `asm_jump`, `asm_call`, `asm_jump_32bit`, `asm_pushv` are the emitters of
  `assembly.h`: the bytes they store at their first argument (the value they
  return in C is the number of those bytes). -/
structure Env where
  x64 : Bool
  lde : Mem → Nat → Nat
  asm_jump : Nat → Nat → List Nat
  asm_call : Nat → Nat → List Nat
  asm_jump_32bit : Nat → Nat → List Nat
  asm_pushv : Nat → Nat → List Nat

/-- Pointer width of the build. -/
def Env.bits (E : Env) : Nat := if E.x64 then 64 else 32

/-- Which emitter was invoked. -/
inductive EmitKind
  | jump
  | call
  deriving DecidableEq, Repr

/-- One invocation of an emitter: kind, where it wrote, the absolute target. -/
structure Emit where
  kind : EmitKind
  at_ : Nat
  target : Nat
  deriving DecidableEq, Repr

/-! ## `hook_create_stub` -/

/-- Local variables of `hook_create_stub` at the head of its loop, the memory,
and two ghost logs: the lengths the decoder reported for the instructions walked
so far and the emitter invocations made so far. -/
structure StubState where
  mem : Mem
  tramp : Nat
  addr : Nat
  len : Int
  walked : List Nat
  calls : List Emit

/-- Bookkeeping shared by every pass that does not return: `len -= length`, the
ghost log of decoder lengths, and the new memory and pointers. -/
def StubState.next (s : StubState) (length : Nat) (m : Mem) (tramp addr : Nat)
    (calls : List Emit) : StubState :=
  { mem := m, tramp := tramp, addr := addr, len := s.len - (length : Int),
    walked := s.walked ++ [length], calls := calls }

/-- Branches `*addr == 0xe9` (`L = 5`, 32-bit displacement) and `*addr == 0xeb`
(`L = 2`, 8-bit displacement):
`target = addr + disp + L; tramp += asm_jump(tramp, target); addr += L;`. -/
def relocJump (E : Env) (s : StubState) (length L : Nat) (disp : Int) : StubState :=
  let target := ptrAdd E.bits s.addr (disp + (L : Int))
  let code := E.asm_jump s.tramp target
  s.next length (wrBytes s.mem s.tramp code) (s.tramp + code.length) (s.addr + L)
    (s.calls ++ [⟨EmitKind.jump, s.tramp, target⟩])

/-- Branch `*addr == 0xe8`:
`target = addr + *(int32_t *)(addr + 1) + 5; tramp += asm_call(tramp, target);
addr += 5;`. -/
def relocCall (E : Env) (s : StubState) (length : Nat) : StubState :=
  let target := ptrAdd E.bits s.addr (sext32 (rd32 s.mem (s.addr + 1)) + 5)
  let code := E.asm_call s.tramp target
  s.next length (wrBytes s.mem s.tramp code) (s.tramp + code.length) (s.addr + 5)
    (s.calls ++ [⟨EmitKind.call, s.tramp, target⟩])

/-- Branch `*addr == 0x0f && addr[1] >= 0x80 && addr[1] < 0x90`: the two opcode
bytes are copied, then `*(uint32_t *) tramp = target - tramp - 4` with
`target = addr + *(int32_t *)(addr + 2) + 6`. -/
def relocJcc32 (E : Env) (s : StubState) (length : Nat) : StubState :=
  let m1 := wr s.mem s.tramp (rd s.mem s.addr)
  let m2 := wr m1 (s.tramp + 1) (rd m1 (s.addr + 1))
  let target := ptrAdd E.bits s.addr (sext32 (rd32 m2 (s.addr + 2)) + 6)
  let m3 := wrBytes m2 (s.tramp + 2)
    (leBytes 4 (toU32 ((target : Int) - ((s.tramp + 2 : Nat) : Int) - 4)))
  s.next length m3 (s.tramp + 6) (s.addr + 6) s.calls

/-- Branch `*addr >= 0x70 && *addr < 0x80`: `0f`, `addr[0] + 0x10`, then
`*(uint32_t *) tramp = (uint32_t)(target - tramp - 4)` with
`target = addr + *(int8_t *)(addr + 1) + 2`. -/
def relocJcc8 (E : Env) (s : StubState) (length : Nat) : StubState :=
  let m1 := wr s.mem s.tramp 0x0f
  let m2 := wr m1 (s.tramp + 1) (rd m1 s.addr + 0x10)
  let target := ptrAdd E.bits s.addr (sext8 (rd m2 (s.addr + 1)) + 2)
  let m3 := wrBytes m2 (s.tramp + 2)
    (leBytes 4 (toU32 ((target : Int) - ((s.tramp + 2 : Nat) : Int) - 4)))
  s.next length m3 (s.tramp + 6) (s.addr + 2) s.calls

/-- Branch for RIP-relative `mov`/`lea` (64-bit build only): `mov reg64, target`
in 10 bytes and, when the original was a `mov`, `mov reg64, qword [reg64]` in 3. -/
def relocRip (E : Env) (s : StubState) (length : Nat) : StubState :=
  let reg := ((rd s.mem (s.addr + 2) >>> 3) &&& 7)
    + (if rd s.mem s.addr = 0x4c then 8 else 0)
  let target := ptrAdd E.bits s.addr (sext32 (rd32 s.mem (s.addr + 3)) + 7)
  let m1 := wr s.mem s.tramp (0x48 + (if 8 ≤ reg then 1 else 0))
  let m2 := wr m1 (s.tramp + 1) (0xb8 + (reg &&& 7))
  let m3 := wrBytes m2 (s.tramp + 2) (leBytes 8 target)
  if rd m3 (s.addr + 1) = 0x8b then
    let m4 := wr m3 (s.tramp + 10) (if reg < 8 then 0x48 else 0x4d)
    let m5 := wr m4 (s.tramp + 11) 0x8b
    let m6 := wr m5 (s.tramp + 12) ((reg &&& 7) ||| ((reg &&& 7) <<< 3))
    s.next length m6 (s.tramp + 13) (s.addr + 7) s.calls
  else
    s.next length m3 (s.tramp + 10) (s.addr + 7) s.calls

/-- Final `else`: a regular instruction is copied byte by byte. -/
def copyRegular (s : StubState) (length : Nat) : StubState :=
  s.next length (copyInsn s.mem s.tramp s.addr length) (s.tramp + length)
    (s.addr + length) s.calls

/-- One pass through the body of `while (len > 0) { ... }` of
`hook_create_stub`; `none` is `return -1`.  The tests are those of the C
`if`/`else if` chain, in its order; `E.lde s.mem s.addr` is the local `length`
and `s.len - length` the value of `len` after `len -= length`. -/
def stubStep (E : Env) (s : StubState) : Option StubState :=
  if E.lde s.mem s.addr = 0 then none
  else if rd s.mem s.addr = 0xe9 then
    some (relocJump E s (E.lde s.mem s.addr) 5 (sext32 (rd32 s.mem (s.addr + 1))))
  else if rd s.mem s.addr = 0xe8 then
    some (relocCall E s (E.lde s.mem s.addr))
  else if rd s.mem s.addr = 0x0f ∧ 0x80 ≤ rd s.mem (s.addr + 1)
      ∧ rd s.mem (s.addr + 1) < 0x90 then
    some (relocJcc32 E s (E.lde s.mem s.addr))
  else if rd s.mem s.addr = 0xeb then
    some (relocJump E s (E.lde s.mem s.addr) 2 (sext8 (rd s.mem (s.addr + 1))))
  else if 0x70 ≤ rd s.mem s.addr ∧ rd s.mem s.addr < 0x80 then
    some (relocJcc8 E s (E.lde s.mem s.addr))
  else if E.x64 = true ∧ (rd s.mem s.addr = 0x48 ∨ rd s.mem s.addr = 0x4c)
      ∧ (rd s.mem (s.addr + 1) = 0x8b ∨ rd s.mem (s.addr + 1) = 0x8d)
      ∧ rd s.mem (s.addr + 2) &&& 0xc7 = 0x05 then
    some (relocRip E s (E.lde s.mem s.addr))
  else if (rd s.mem s.addr = 0xc3 ∨ rd s.mem s.addr = 0xc2)
      ∧ 0 < s.len - (E.lde s.mem s.addr : Int) then
    none
  else
    some (copyRegular s (E.lde s.mem s.addr))

/-- Outcome of the instruction walk. -/
inductive Walk
  | fail (s : StubState)
  | done (s : StubState)
  | stuck (s : StubState)

/-- The loop `while (len > 0) { ... }` run for at most `fuel` passes.
`fail s` is `return -1` taken in the pass that started in state `s`; `done s` is
loop exit in state `s`; `stuck` means the fuel was used up with `len` still
positive. -/
def stubLoop (E : Env) : Nat → StubState → Walk
  | 0, s => if 0 < s.len then Walk.stuck s else Walk.done s
  | fuel + 1, s =>
    if 0 < s.len then
      match stubStep E s with
      | none => Walk.fail s
      | some s' => stubLoop E fuel s'
    else Walk.done s

/-- Result of `hook_create_stub`. -/
inductive StubResult
  | fail (s : StubState)
  | ok (n : Nat) (s : StubState)
  | stuck

/-- Entry state of `hook_create_stub(tramp, addr, len)`. -/
def stubInit (m : Mem) (tramp addr : Nat) (len : Int) : StubState :=
  { mem := m, tramp := tramp, addr := addr, len := len, walked := [], calls := [] }

/-- The function `hook_create_stub(tramp, addr, len)`.  Every pass lowers `len`
by at least one, so `len` passes are enough.  After the loop the jump back to
`addr` is emitted and `addr - base_addr` is returned. -/
def hook_create_stub (E : Env) (m : Mem) (tramp addr : Nat) (len : Int) : StubResult :=
  match stubLoop E len.toNat (stubInit m tramp addr len) with
  | Walk.fail s => StubResult.fail s
  | Walk.stuck _ => StubResult.stuck
  | Walk.done s =>
    let code := E.asm_jump s.tramp s.addr
    StubResult.ok (s.addr - addr)
      { s with mem := wrBytes s.mem s.tramp code, tramp := s.tramp + code.length,
               calls := s.calls ++ [⟨EmitKind.jump, s.tramp, s.addr⟩] }

/-- The C return value: `-1`, or the consumed byte count. -/
def StubResult.ret : StubResult → Option Int
  | StubResult.fail _ => some (-1)
  | StubResult.ok n _ => some (n : Int)
  | StubResult.stuck => none

/-- State in which `hook_create_stub` returned. -/
def StubResult.state : StubResult → Option StubState
  | StubResult.fail s => some s
  | StubResult.ok _ s => some s
  | StubResult.stuck => none

/-- Lengths the decoder reported during the call, in walk order. -/
def StubResult.walked (r : StubResult) : List Nat :=
  match r.state with
  | some s => s.walked
  | none => []

/-- State at the head of the loop after `k` complete passes, when the walk gets
that far. -/
def stubIter (E : Env) : Nat → StubState → Option StubState
  | 0, s => some s
  | k + 1, s => if 0 < s.len then (stubStep E s).bind (stubIter E k) else none

/-- The number of source bytes `hook_create_stub` steps over for the shapes it
rewrites (the constants in `addr += 5`, `addr += 6`, `addr += 2`, `addr += 7`);
`none` for an instruction it copies or a return. -/
def fixedLen (x64 : Bool) (m : Mem) (a : Nat) : Option Nat :=
  if rd m a = 0xe9 then some 5
  else if rd m a = 0xe8 then some 5
  else if rd m a = 0x0f ∧ 0x80 ≤ rd m (a + 1) ∧ rd m (a + 1) < 0x90 then some 6
  else if rd m a = 0xeb then some 2
  else if 0x70 ≤ rd m a ∧ rd m a < 0x80 then some 2
  else if x64 = true ∧ (rd m a = 0x48 ∨ rd m a = 0x4c)
      ∧ (rd m (a + 1) = 0x8b ∨ rd m (a + 1) = 0x8d)
      ∧ rd m (a + 2) &&& 0xc7 = 0x05 then some 7
  else none

/-- The decoder reports, for every shape the builder rewrites, the length the
builder steps over. -/
def ldeAgrees (E : Env) : Prop :=
  ∀ m a L, fixedLen E.x64 m a = some L → E.lde m a = L

/-- Source bytes stepped over in the pass that starts at `(m, a)`. -/
def advance (E : Env) (m : Mem) (a : Nat) : Nat :=
  (fixedLen E.x64 m a).getD (E.lde m a)

/-- The call `memset(a, v, n)`. -/
def memset (m : Mem) (a v n : Nat) : Mem := wrBytes m a (List.replicate n v)

/-! ## `hook_in_monitor` -/

/-- Globals read by `hook_in_monitor`, and the capacity `RETADDRCNT` of the
return-address buffer (a constant of `hooking.h`). -/
structure MonitorCfg where
  RETADDRCNT : Nat
  g_monitor_start : Nat
  g_monitor_end : Nat
  g_ntdll_start : Nat
  g_ntdll_end : Nat
  g_Old_LdrLoadDll_address : Nat

/-- The three local counters of `hook_in_monitor`. -/
structure Counters where
  inside_LdrLoadDll : Nat
  outside_ntdll : Nat
  inside_monitor : Nat
  deriving DecidableEq, Repr

/-- Body of the scanning loop for the frame `a = addrs[idx]`. -/
def scanFrame (C : MonitorCfg) (a : Nat) (c : Counters) : Counters :=
  if C.g_monitor_start ≤ a ∧ a < C.g_monitor_end then
    if a = C.g_Old_LdrLoadDll_address then
      { c with inside_LdrLoadDll := c.inside_LdrLoadDll + 1 }
    else
      { c with inside_monitor := c.inside_monitor + 1 }
  else if c.inside_LdrLoadDll ≠ 0 ∧ (a < C.g_ntdll_start ∨ a > C.g_ntdll_end) then
    { c with outside_ntdll := c.outside_ntdll + 1 }
  else c

/-- The loop `for (idx = ...; idx >= 2 && idx < RETADDRCNT; idx--)`, entered
with the given value of `idx`. -/
def scanLoop (C : MonitorCfg) (addrs : List Nat) : Nat → Counters → Counters
  | 0, c => c
  | idx + 1, c =>
    if 2 ≤ idx + 1 ∧ idx + 1 < C.RETADDRCNT then
      scanLoop C addrs idx (scanFrame C (addrs.getD (idx + 1) 0) c)
    else c

/-- The function `hook_in_monitor()`, for the trace `addrs` that `stacktrace`
captured (`count` is its length). -/
def hook_in_monitor (C : MonitorCfg) (addrs : List Nat) : Int :=
  if addrs.length = 0 then 0
  else
    let c := scanLoop C addrs (addrs.length - 1) ⟨0, 0, 0⟩
    if c.inside_LdrLoadDll = 0 ∧ c.inside_monitor = 1 then 0
    else if c.inside_LdrLoadDll ≠ 0 ∧ c.outside_ntdll ≠ 0
        ∧ c.inside_LdrLoadDll = c.inside_monitor then 0
    else 1

/-- A frame inside the monitor module's range. -/
def inMonitor (C : MonitorCfg) (a : Nat) : Bool :=
  decide (C.g_monitor_start ≤ a ∧ a < C.g_monitor_end)

/-- A frame inside the monitor range that equals the recorded load-hook return
address. -/
def isLoadHookFrame (C : MonitorCfg) (a : Nat) : Bool :=
  inMonitor C a && decide (a = C.g_Old_LdrLoadDll_address)

/-- Any other frame inside the monitor range. -/
def isPlainMonitorFrame (C : MonitorCfg) (a : Nat) : Bool :=
  inMonitor C a && !decide (a = C.g_Old_LdrLoadDll_address)

/-- A frame outside the loader module's range. -/
def outsideLoader (C : MonitorCfg) (a : Nat) : Bool :=
  decide (a < C.g_ntdll_start ∨ a > C.g_ntdll_end)

/-- Number of load-hook frames among the indices `k ≤ i < count`. -/
def loadHookFrom (C : MonitorCfg) (addrs : List Nat) (k : Nat) : Nat :=
  (List.range' k (addrs.length - k)).countP (fun i => isLoadHookFrame C (addrs.getD i 0))

/-- Number of other in-monitor frames among the indices `k ≤ i < count`. -/
def plainFrom (C : MonitorCfg) (addrs : List Nat) (k : Nat) : Nat :=
  (List.range' k (addrs.length - k)).countP
    (fun i => isPlainMonitorFrame C (addrs.getD i 0))

/-- Number of indices `k ≤ i < count` whose frame is outside the monitor range
and outside the loader range, and for which some older frame (an index above
`i`, hence scanned before it) is a load-hook frame. -/
def escapedFrom (C : MonitorCfg) (addrs : List Nat) (k : Nat) : Nat :=
  (List.range' k (addrs.length - k)).countP (fun i =>
    !inMonitor C (addrs.getD i 0) && outsideLoader C (addrs.getD i 0)
      && (List.range' (i + 1) (addrs.length - (i + 1))).any
          (fun j => isLoadHookFrame C (addrs.getD j 0)))

/-- The counter `L` of the specification: load-hook frames at indices `≥ 2`. -/
def specL (C : MonitorCfg) (addrs : List Nat) : Nat := loadHookFrom C addrs 2

/-- The counter `M` of the specification. -/
def specM (C : MonitorCfg) (addrs : List Nat) : Nat := plainFrom C addrs 2

/-- The counter `O` of the specification. -/
def specO (C : MonitorCfg) (addrs : List Nat) : Nat := escapedFrom C addrs 2

/-! ## `_hook_alloc_closeby` (64-bit build) -/

/-- The constant `CLOSEBY_RANGE`. -/
def CLOSEBY_RANGE : Nat := 0x20000000

/-- The constant `MEM_FREE` of the memory API. -/
def MEM_FREE : Nat := 0x10000

/-- Reduction of a pointer value to 64 bits. -/
def u64 (x : Int) : Nat := (x % ((2 ^ 64 : Nat) : Int)).toNat

/-- The fields of `MEMORY_BASIC_INFORMATION_CROSS` the allocator reads. -/
structure MBI where
  BaseAddress : Nat
  State : Nat
  deriving DecidableEq, Repr

/-- System parameters and memory primitives used by the allocator.  Both
primitives are indexed by the probed address of the iteration that calls them,
so that successive calls may answer differently; `virtual_query` is `none` when
the call returns `FALSE`, `virtual_alloc` tells whether the reservation returned
a non-NULL pointer. -/
structure MemEnv where
  dwAllocationGranularity : Nat
  dwPageSize : Nat
  virtual_query : Nat → Option MBI
  virtual_alloc : Nat → Nat → Bool

/-- The static `last_ptr` of `_hook_alloc_closeby` (0 is `NULL`) and memory. -/
structure ClosebyState where
  last_ptr : Nat
  mem : Mem

/-- The function `_hook_alloc_closeby_ptr(&last_ptr, size)`: the returned slot
and the new value of `last_ptr`.  In `*last_ptr += size + (8 - (size & 7))` the
sum is `uint32_t` arithmetic; in the test the two terms are added to the pointer
one after the other; `x & ~0xfff` clears the low twelve bits. -/
def _hook_alloc_closeby_ptr (last_ptr size : Nat) : Nat × Nat :=
  let ret := last_ptr
  let step := (size + (8 - size % 8)) % 4294967296
  let lp := (last_ptr + step) % 2 ^ 64
  if ret - ret % 4096 ≠ ((lp + size + (8 - size % 8)) % 2 ^ 64)
      - ((lp + size + (8 - size % 8)) % 2 ^ 64) % 4096 then
    (ret, 0)
  else (ret, lp)

/-- The scanning loop of `_hook_alloc_closeby`, entered with loop variable
`addr`, for at most `fuel` probes.  The result is the returned pointer (0 is
`NULL`) with the new state, or `none` when the fuel is used up. -/
def closebyScan (M : MemEnv) (size hi : Nat) (st : ClosebyState) :
    Nat → Nat → Option (Nat × ClosebyState)
  | 0, addr => if addr < hi then none else some (0, st)
  | fuel + 1, addr =>
    if addr < hi then
      match M.virtual_query addr with
      | none => closebyScan M size hi st fuel ((addr + M.dwAllocationGranularity) % 2 ^ 64)
      | some mbi =>
        if mbi.State ≠ MEM_FREE then
          closebyScan M size hi st fuel ((addr + M.dwAllocationGranularity) % 2 ^ 64)
        else if M.virtual_alloc addr mbi.BaseAddress = false then
          closebyScan M size hi st fuel ((addr + M.dwAllocationGranularity) % 2 ^ 64)
        else
          some ((_hook_alloc_closeby_ptr mbi.BaseAddress size).1,
            { last_ptr := (_hook_alloc_closeby_ptr mbi.BaseAddress size).2,
              mem := memset st.mem mbi.BaseAddress 0xcc M.dwPageSize })
    else some (0, st)

/-- The function `_hook_alloc_closeby(target, size)` run with `fuel` probes. -/
def _hook_alloc_closeby (M : MemEnv) (st : ClosebyState) (target size fuel : Nat) :
    Option (Nat × ClosebyState) :=
  if st.last_ptr ≠ 0 ∧ u64 ((target : Int) - (CLOSEBY_RANGE : Int)) ≤ st.last_ptr
      ∧ st.last_ptr < u64 ((target : Int) + (CLOSEBY_RANGE : Int)) then
    some ((_hook_alloc_closeby_ptr st.last_ptr size).1,
      { st with last_ptr := (_hook_alloc_closeby_ptr st.last_ptr size).2 })
  else
    closebyScan M size (u64 ((target : Int) + (CLOSEBY_RANGE : Int))) st fuel
      (u64 ((target : Int) - (CLOSEBY_RANGE : Int)))

/-! ## Hook descriptor and `hook_create_jump` -/

/-- The fields of `hook_t` used by the functions modelled here.  `funcname` is
the text of the name, `funcname_ptr` the address of that text. -/
structure hook_t where
  library : String
  funcname : String
  funcname_ptr : Nat
  addr : Nat
  skip : Nat
  handler : Nat
  stub_used : Int
  is_hooked : Nat
  func_stub : Nat
  deriving DecidableEq, Repr

/-- The constant `PAGE_EXECUTE_READWRITE`. -/
def PAGE_EXECUTE_READWRITE : Nat := 0x40

/-- Conversion of an `int` byte count to the `size_t` that `memset` receives. -/
def toSizeT (bits : Nat) (n : Int) : Nat := (n % ((2 ^ bits : Nat) : Int)).toNat

/-- Result of `hook_create_jump`: the return value, the memory right after the
trap fill (equal to the entry memory when the function returns before it) and
the memory on return. -/
structure JumpOut where
  ret : Int
  afterFill : Mem
  final : Mem

/-- The 32-bit variant of `hook_create_jump(h)`.  `virtual_protect` tells whether
the protection change succeeded (`NT_SUCCESS(status)`). -/
def hook_create_jump (E : Env) (virtual_protect : Nat → Int → Nat → Bool)
    (h : hook_t) (m : Mem) : JumpOut :=
  if virtual_protect (h.addr + h.skip) (h.stub_used - (h.skip : Int))
      PAGE_EXECUTE_READWRITE = false then
    { ret := -1, afterFill := m, final := m }
  else
    { ret := 0,
      afterFill := memset m (h.addr + h.skip) 0xcc
        (toSizeT 32 (h.stub_used - (h.skip : Int))),
      final := wrBytes
        (memset m (h.addr + h.skip) 0xcc (toSizeT 32 (h.stub_used - (h.skip : Int))))
        (h.addr + h.skip) (E.asm_jump_32bit (h.addr + h.skip) h.handler) }

/-! ## `_hook_determine_start` -/

/-- The constant `MAXRESOLVECNT`. -/
def MAXRESOLVECNT : Nat := 50

/-- The bytes `addr[0 .. n)`. -/
def bytesAt (m : Mem) (addr n : Nat) : List Nat :=
  (List.range n).map (fun i => rd m (addr + i))

/-- What one pass of the resolver loop does: follow an indirection to a new
address, return 0 because the pointer is not readable yet, or leave the loop. -/
inductive ResolveStep
  | goto (addr : Nat) (regions : List (Nat × Nat))
  | unreadable (regions : List (Nat × Nat))
  | stop
  deriving DecidableEq, Repr

/-- One pass through the body of the `for` loop of `_hook_determine_start` at
`addr`.  The regions are the `(start, length)` pairs passed to
`unhook_detect_add_region`. -/
def resolveStep (x64 : Bool) (range_is_readable : Nat → Nat → Bool) (m : Mem)
    (addr : Nat) : ResolveStep :=
  if rd m addr = 0xeb then
    ResolveStep.goto
      (ptrAdd (if x64 then 64 else 32) addr (2 + sext8 (rd m (addr + 1))))
      [(addr, 2)]
  else if rd m addr = 0xff ∧ rd m (addr + 1) = 0x25 then
    let slot :=
      if x64 then ptrAdd 64 addr (sext32 (rd32 m (addr + 2)) + 6)
      else rdLE m (addr + 2) 4
    let addr_deref := rdLE m slot (if x64 then 8 else 4)
    if range_is_readable addr_deref (if x64 then 8 else 4) = false then
      ResolveStep.unreadable [(addr, 6)]
    else
      ResolveStep.goto addr_deref [(addr, 6), (slot, if x64 then 8 else 4)]
  else if x64 = false ∧ bytesAt m addr 7 = [0x8b, 0xff, 0x55, 0x8b, 0xec, 0x5d, 0xeb] then
    ResolveStep.goto (ptrAdd 32 addr (8 + sext8 (rd m (addr + 7)))) [(addr, 8)]
  else if x64 = false ∧ bytesAt m addr 7 = [0x8b, 0xff, 0x55, 0x8b, 0xec, 0x5d, 0xe9] then
    ResolveStep.goto (ptrAdd 32 addr (11 + sext32 (rd32 m (addr + 7)))) [(addr, 11)]
  else ResolveStep.stop

/-- Result of `_hook_determine_start`: return value, descriptor on return, the
regions registered, and the number of indirections followed. -/
structure ResolveOut where
  ret : Int
  hook : hook_t
  regions : List (Nat × Nat)
  followed : Nat
  deriving DecidableEq, Repr

/-- The `for (count = 0; count < MAXRESOLVECNT; count++)` loop with `left`
passes remaining, followed by the code after the loop. -/
def resolveLoop (x64 : Bool) (range_is_readable : Nat → Nat → Bool) (m : Mem)
    (h : hook_t) : Nat → Nat → List (Nat × Nat) → Nat → ResolveOut
  | 0, _, regions, followed =>
    { ret := -1, hook := h, regions := regions, followed := followed }
  | left + 1, addr, regions, followed =>
    match resolveStep x64 range_is_readable m addr with
    | ResolveStep.goto addr' rs =>
      resolveLoop x64 range_is_readable m h left addr' (regions ++ rs) (followed + 1)
    | ResolveStep.unreadable rs =>
      { ret := 0, hook := h, regions := regions ++ rs, followed := followed }
    | ResolveStep.stop =>
      { ret := 0, hook := { h with addr := addr }, regions := regions,
        followed := followed }

/-- The function `_hook_determine_start(h)`. -/
def _hook_determine_start (x64 : Bool) (range_is_readable : Nat → Nat → Bool)
    (m : Mem) (h : hook_t) : ResolveOut :=
  resolveLoop x64 range_is_readable m h MAXRESOLVECNT h.addr [] 0

/-- Address reached after following `k` indirections from `addr`, when each of
the `k` passes follows one. -/
def resolveIter (x64 : Bool) (range_is_readable : Nat → Nat → Bool) (m : Mem) :
    Nat → Nat → Option Nat
  | 0, addr => some addr
  | k + 1, addr =>
    match resolveStep x64 range_is_readable m addr with
    | ResolveStep.goto addr' _ => resolveIter x64 range_is_readable m k addr'
    | _ => none

/-! ## `hook` and `_hook_missing_hooks_worker` -/

/-- Collaborators of the exception-based installer: the handle returned by
`AddVectoredExceptionHandler` (0 on failure), `GetProcAddress` applied to the
module of a library name, `VirtualQuery` (the allocation base of the queried
address, `none` when the call returns 0), and the value left in the return
register when `hook` runs off its end without a `return`. -/
structure VehEnv where
  AddVectoredExceptionHandler : Nat
  GetProcAddress : String → String → Nat
  VirtualQuery : Nat → Option Nat
  fallOff : Int

/-- Globals of the exception-based installer: `check`, `handle`, the list
`first` of `(source, destination)` nodes, and the pages armed with `PAGE_GUARD`. -/
structure VehState where
  check : Int
  handle : Nat
  first : List (Nat × Nat)
  guarded : List Nat
  deriving DecidableEq, Repr

/-- The function `setupHandler()`. -/
def setupHandler (V : VehEnv) (st : VehState) : VehState :=
  { st with handle := V.AddVectoredExceptionHandler }

/-- The function `Hook(source, destination)`. -/
def Hook (V : VehEnv) (st : VehState) (source destination : Nat) : Bool × VehState :=
  if st.handle = 0 then (false, st)
  else
    match V.VirtualQuery source with
    | none => (false, st)
    | some sbase =>
      match V.VirtualQuery destination with
      | none => (false, st)
      | some dbase =>
        if sbase = dbase then (false, st)
        else
          (true, { st with first := st.first ++ [(source, destination)],
                           guarded := st.guarded ++ [source] })

/-- The function `hook(h, module_handle)`: return value, descriptor and globals
on return. -/
def hook (V : VehEnv) (st : VehState) (h : hook_t) : Int × hook_t × VehState :=
  let st1 := if st.check = 0 then { setupHandler V st with check := st.check + 1 } else st
  if h.is_hooked ≠ 0 then (0, h, st1)
  else
    let r := Hook V st1 (V.GetProcAddress h.library h.funcname) h.handler
    if r.1 = true then (1, { h with is_hooked := 1 }, r.2)
    else (V.fallOff, h, r.2)

/-- The exclusion list `g_missing_blacklist` (it holds only its terminator). -/
def g_missing_blacklist : List String := []

/-- What `_hook_missing_hooks_worker` did: whether it took handler memory from
the slab, whether it called `hook`, the memory and installer globals on return,
and the stub bytes it emitted. -/
structure WorkerOut where
  allocated : Bool
  hookCalled : Bool
  mem : Mem
  emitted : List Nat
  veh : VehState

/-- The function `_hook_missing_hooks_worker(funcname, address, module_handle)`.
`sig_hooks` lists the function names of the static table, `slab_getmem` is the
block the slab hands out, `log_missing_hook` the address of that routine. -/
def _hook_missing_hooks_worker (E : Env) (V : VehEnv) (sig_hooks : List String)
    (slab_getmem log_missing_hook : Nat) (st : VehState) (m : Mem)
    (funcname : String) (funcname_ptr address : Nat) : WorkerOut :=
  if sig_hooks.any (fun n => n == funcname) then
    { allocated := false, hookCalled := false, mem := m, emitted := [], veh := st }
  else if g_missing_blacklist.any (fun n => n == funcname) then
    { allocated := false, hookCalled := false, mem := m, emitted := [], veh := st }
  else
    let r := hook V st
      { library := "", funcname := funcname, funcname_ptr := funcname_ptr,
        addr := address, skip := 0, handler := slab_getmem, stub_used := 0,
        is_hooked := 0, func_stub := 0 }
    if r.1 = 0 then
      let c1 := E.asm_pushv slab_getmem funcname_ptr
      let c2 := E.asm_call (slab_getmem + c1.length) log_missing_hook
      let c3 := E.asm_jump (slab_getmem + c1.length + c2.length) r.2.1.func_stub
      { allocated := true, hookCalled := true,
        mem := wrBytes (wrBytes (wrBytes m slab_getmem c1) (slab_getmem + c1.length) c2)
          (slab_getmem + c1.length + c2.length) c3,
        emitted := c1 ++ c2 ++ c3, veh := r.2.2 }
    else
      { allocated := true, hookCalled := true, mem := m, emitted := [], veh := r.2.2 }

/-! ## Concrete collaborators used in examples -/

/-- A memory image holding `bytes` from `base` on and zero elsewhere. -/
def image (base : Nat) (bytes : List Nat) : Mem :=
  fun a => if base ≤ a then bytes.getD (a - base) 0 else 0

/-- Encoding `e9 rel32` of a jump placed at `pos`. -/
def encJmp32 (pos target : Nat) : List Nat :=
  0xe9 :: leBytes 4 (toU32 ((target : Int) - (pos : Int) - 5))

/-- Encoding `e8 rel32` of a call placed at `pos`. -/
def encCall32 (pos target : Nat) : List Nat :=
  0xe8 :: leBytes 4 (toU32 ((target : Int) - (pos : Int) - 5))

/-- Encoding `68 imm32` of a push. -/
def encPush32 (_pos value : Nat) : List Nat := 0x68 :: leBytes 4 value

/-- A small length decoder: the lengths of the x86 instructions that occur in
the examples (relative jumps and calls, `ret`, `ret imm16`, one-byte
instructions otherwise). -/
def x86Len (m : Mem) (a : Nat) : Nat :=
  if rd m a = 0xe9 ∨ rd m a = 0xe8 then 5
  else if rd m a = 0x0f ∧ 0x80 ≤ rd m (a + 1) ∧ rd m (a + 1) < 0x90 then 6
  else if rd m a = 0xeb ∨ (0x70 ≤ rd m a ∧ rd m a < 0x80) then 2
  else if rd m a = 0xc2 then 3
  else 1

/-- A 32-bit build with the decoder and encoders above. -/
def env32 : Env :=
  { x64 := false, lde := x86Len, asm_jump := encJmp32, asm_call := encCall32,
    asm_jump_32bit := encJmp32, asm_pushv := encPush32 }

/-- The same build with a decoder that reports length 1 for every instruction. -/
def envUnitDecoder : Env :=
  { x64 := false, lde := fun _ _ => 1, asm_jump := encJmp32, asm_call := encCall32,
    asm_jump_32bit := encJmp32, asm_pushv := encPush32 }

/-- A 64-bit build (the encoders are not exercised by the conditional-jump
branches). -/
def env64 : Env :=
  { x64 := true, lde := x86Len, asm_jump := encJmp32, asm_call := encCall32,
    asm_jump_32bit := encJmp32, asm_pushv := encPush32 }

/-- The three counters restricted to the indices `k ≤ i < count`. -/
def countsFrom (C : MonitorCfg) (addrs : List Nat) (k : Nat) : Counters :=
  { inside_LdrLoadDll := loadHookFrom C addrs k, outside_ntdll := escapedFrom C addrs k,
    inside_monitor := plainFrom C addrs k }

/-- A monitor at `[0x10000000, 0x10100000)`, the loader at
`[0x77000000, 0x77200000]`, a load-hook return address inside the monitor and a
buffer of 32 return addresses. -/
def sampleCfg : MonitorCfg :=
  { RETADDRCNT := 32, g_monitor_start := 0x10000000, g_monitor_end := 0x10100000,
    g_ntdll_start := 0x77000000, g_ntdll_end := 0x77200000,
    g_Old_LdrLoadDll_address := 0x10001234 }

/-- The state in which the one pass of the C3 instance starts: `74 10` at
`0x1000`, trampoline at `0x2000`. -/
def sampleJccState : StubState :=
  stubInit (image 0x1000 [0x74, 0x10, 0x90, 0x90, 0x90]) 0x2000 0x1000 5

/-- The address probed in pass `k` of the scanning loop of
`_hook_alloc_closeby(target, size)`. -/
def probeAddr (M : MemEnv) (target k : Nat) : Nat :=
  (u64 ((target : Int) - (CLOSEBY_RANGE : Int)) + k * M.dwAllocationGranularity) % 2 ^ 64

/-- The window `target - CLOSEBY_RANGE ≤ p < target + CLOSEBY_RANGE`. -/
def inCloseby (target p : Nat) : Prop :=
  (target : Int) - (CLOSEBY_RANGE : Int) ≤ (p : Int)
    ∧ (p : Int) < (target : Int) + (CLOSEBY_RANGE : Int)

/-- Memory primitives that report every probed address as free, with the base of
its 4 KiB page as base address, and reserve whatever is asked. -/
def pageRoundingEnv : MemEnv :=
  { dwAllocationGranularity := 0x10000, dwPageSize := 0x1000,
    virtual_query := fun q => some { BaseAddress := q - q % 4096, State := MEM_FREE },
    virtual_alloc := fun _ _ => true }

/-- Allocator state before the first reservation. -/
def closebyFresh : ClosebyState := { last_ptr := 0, mem := fun _ => 0 }

/-- Allocator state with a page at `0x30000000` already reserved. -/
def closebyWarm : ClosebyState := { last_ptr := 0x30000000, mem := fun _ => 0xcc }

/-- A descriptor for a function at `0x1000`. -/
def sampleHook : hook_t :=
  { library := "kernel32", funcname := "Sleep", funcname_ptr := 0x500000, addr := 0x1000,
    skip := 0, handler := 0x30000, stub_used := 5, is_hooked := 0, func_stub := 0x31000 }

/-- A readability test that accepts the addresses below `0x10000`. -/
def lowReadable (a _size : Nat) : Bool := decide (a < 0x10000)

/-- A 32-bit image with `jmp dword [0x1008]` at `0x1000` whose pointer slot at
`0x1008` holds `0x7fff0000`. -/
def stubImage : Mem :=
  image 0x1000 [0xff, 0x25, 0x08, 0x10, 0x00, 0x00, 0x90, 0x90, 0x00, 0x00, 0xff, 0x7f]

/-- A 32-bit image with an ordinary function body at `0x1000`. -/
def plainImage : Mem := image 0x1000 [0x55, 0x8b, 0xec, 0x5d, 0xc3]

/-- Installer collaborators for which everything succeeds: a handler is
registered, the export is found at `0x77001000`, and every address belongs to the
64 KiB allocation that contains it. -/
def vehOk : VehEnv :=
  { AddVectoredExceptionHandler := 0x5000, GetProcAddress := fun _ _ => 0x77001000,
    VirtualQuery := fun a => some (a - a % 0x10000), fallOff := 0 }

/-- Installer globals at process start. -/
def vehFresh : VehState := { check := 0, handle := 0, first := [], guarded := [] }

/-- The descriptor `_hook_missing_hooks_worker` builds for the export `Sleep` at
`0x77001000` with handler memory at `0x30000`. -/
def missingHook : hook_t :=
  { library := "", funcname := "Sleep", funcname_ptr := 0x500000, addr := 0x77001000,
    skip := 0, handler := 0x30000, stub_used := 0, is_hooked := 0, func_stub := 0 }

/-- The worker run for the export `Sleep`, which is not in the static table
`["CreateFileW", "ReadFile"]`, with handler memory at `0x30000` (all zero on
entry) and `log_missing_hook` at `0x10005000`. -/
def missingRun : WorkerOut :=
  _hook_missing_hooks_worker env32 vehOk ["CreateFileW", "ReadFile"] 0x30000 0x10005000
    vehFresh (fun _ => 0) "Sleep" 0x500000 0x77001000

/-- A protection primitive that always succeeds. -/
def protectOk (_addr : Nat) (_size : Int) (_prot : Nat) : Bool := true

/-! ## Invariants of the instruction walk -/

/-- What a non-returning pass does to the bookkeeping and which part of memory
it may touch. -/
structure PassOk (s s' : StubState) (length adv : Nat) : Prop where
  len_eq : s'.len = s.len - (length : Int)
  walked_eq : s'.walked = s.walked ++ [length]
  addr_eq : s'.addr = s.addr + adv
  tramp_le : s.tramp ≤ s'.tramp
  frame : ∀ x, x < s.tramp ∨ s'.tramp ≤ x → s'.mem x = s.mem x

/-- Bookkeeping invariant of the walk started by `hook_create_stub`: `len` is
the requirement minus the decoder lengths so far, and every length is positive. -/
def WalkInv (len : Int) (s : StubState) : Prop :=
  s.len = len - (s.walked.sum : Int) ∧ s.walked.length ≤ s.walked.sum

/-- Memory invariant of the walk: the trampoline pointer only grows and nothing
outside the bytes it passed over has changed. -/
def FrameInv (m : Mem) (tramp : Nat) (s : StubState) : Prop :=
  tramp ≤ s.tramp ∧ ∀ x, x < tramp ∨ s.tramp ≤ x → s.mem x = m x

/-- Position invariant under a decoder that agrees with the builder's constants:
the source pointer has advanced by the sum of the decoder lengths. -/
def AddrInv (addr : Nat) (s : StubState) : Prop := s.addr = addr + s.walked.sum

/-- The pass that starts in state `s` of the walk of
`hook_create_stub(tramp, addr, len)` meets a regular instruction: the decoder
succeeds, none of the rewritten shapes and no return opcode matches, and the
bytes it reads do not overlap the trampoline bytes written up to the end of this
pass. -/
abbrev regularPass (E : Env) (tramp addr : Nat) (s : StubState) : Prop :=
  0 < s.len →
    (E.lde s.mem s.addr ≠ 0 ∧ fixedLen E.x64 s.mem s.addr = none
      ∧ rd s.mem s.addr ≠ 0xc3 ∧ rd s.mem s.addr ≠ 0xc2
      ∧ (s.tramp + E.lde s.mem s.addr ≤ addr ∨ s.addr + E.lde s.mem s.addr ≤ tramp))

/-- Invariant of a walk over regular instructions only, `k` passes after the
start: the trampoline holds a copy of the source bytes stepped over. -/
def CopyInv (E : Env) (m : Mem) (tramp addr : Nat) (len : Int) (s : StubState) : Prop :=
  (∃ k, stubIter E k (stubInit m tramp addr len) = some s ∧ s.walked.length = k)
  ∧ WalkInv len s ∧ FrameInv m tramp s
  ∧ s.addr = addr + s.walked.sum ∧ s.tramp = tramp + s.walked.sum ∧ s.calls = []
  ∧ ∀ i, i < s.walked.sum → rd s.mem (tramp + i) = rd m (addr + i)

/-- Check that every pass of the walk of `hook_create_stub(tramp, addr, len)`
meets a regular instruction (`len` passes cover the whole walk). -/
def regularWalk (E : Env) (m : Mem) (tramp addr : Nat) (len : Int) : Bool :=
  (List.range len.toNat).all (fun k =>
    match stubIter E k (stubInit m tramp addr len) with
    | some s => decide (regularPass E tramp addr s)
    | none => true)

/-! ## ModRM addressing forms (for the RIP-relative relocation) -/

/-- The addressing form a ModRM byte selects in 64-bit mode when its `mod` field is
`00`: `rm = 100` announces a SIB byte, `rm = 101` is RIP-relative addressing with
a 32-bit displacement, every other `rm` is the register-indirect form `[reg]`
with no further bytes.  Any other `mod` is not a plain register-indirect form. -/
inductive ModRMForm
  | regIndirect
  | sibFollows
  | ripDisp32
  | other
  deriving DecidableEq, Repr

/-- Decoding of the addressing form from the ModRM byte (architecture manual,
table of 32/64-bit addressing forms). -/
def modrmForm (b : Nat) : ModRMForm :=
  if b >>> 6 = 0 then
    if b &&& 7 = 4 then ModRMForm.sibFollows
    else if b &&& 7 = 5 then ModRMForm.ripDisp32
    else ModRMForm.regIndirect
  else ModRMForm.other

/-- A length decoder for the 64-bit examples: 7 for the RIP-relative `mov`/`lea`
forms, the lengths of `x86Len` otherwise. -/
def x64Len (m : Mem) (a : Nat) : Nat :=
  if (rd m a = 0x48 ∨ rd m a = 0x4c) ∧ (rd m (a + 1) = 0x8b ∨ rd m (a + 1) = 0x8d)
      ∧ rd m (a + 2) &&& 0xc7 = 0x05 then 7
  else x86Len m a

/-- Encoding `ff 25 00000000 imm64` of an absolute 64-bit jump. -/
def encJmp64 (_pos target : Nat) : List Nat :=
  [0xff, 0x25, 0, 0, 0, 0] ++ leBytes 8 target

/-- A 64-bit build with the decoder `x64Len`. -/
def env64rip : Env :=
  { x64 := true, lde := x64Len, asm_jump := encJmp64, asm_call := encCall32,
    asm_jump_32bit := encJmp32, asm_pushv := encPush32 }

/-! ## `hook_create_jump`, 64-bit variant -/

/-- Result of the 64-bit `hook_create_jump`: return value, allocator state and
memory on return, and the closeby slot it obtained (0 when it obtained none). -/
structure JumpOut64 where
  ret : Int
  closeby : ClosebyState
  slot : Nat

/-- The 64-bit variant of `hook_create_jump(h)`.  The memory is the one of the
allocator state; `ASM_JUMP_SIZE` is the constant of `assembly.h`; `fuel` bounds
the probes of `_hook_alloc_closeby` (`none` when they run out). -/
def hook_create_jump_x64 (E : Env) (M : MemEnv)
    (virtual_protect : Nat → Int → Nat → Bool) (ASM_JUMP_SIZE fuel : Nat) (h : hook_t)
    (st : ClosebyState) : Option JumpOut64 :=
  if virtual_protect (h.addr + h.skip) (h.stub_used - (h.skip : Int))
      PAGE_EXECUTE_READWRITE = false then
    some { ret := -1, closeby := st, slot := 0 }
  else
    match _hook_alloc_closeby M st (h.addr + h.skip) ASM_JUMP_SIZE fuel with
    | none => none
    | some (closeby, st') =>
      if closeby = 0 then some { ret := -1, closeby := st', slot := 0 }
      else
        some { ret := 0,
               closeby :=
                 { last_ptr := st'.last_ptr,
                   mem := wrBytes
                     (wrBytes
                       (memset st'.mem (h.addr + h.skip) 0xcc
                         (toSizeT 64 (h.stub_used - (h.skip : Int))))
                       (h.addr + h.skip) (E.asm_jump_32bit (h.addr + h.skip) closeby))
                     closeby (E.asm_jump closeby h.handler) },
               slot := closeby }

/-- A protection primitive that refuses every change. -/
def protectDeny (_addr : Nat) (_size : Int) (_prot : Nat) : Bool := false

/-- An image with 50 short jumps `eb 00`, each to the next one, from `0x1000`
on, followed by a `nop` at `0x1064`. -/
def chain50Image : Mem :=
  image 0x1000 ((List.replicate 50 [0xeb, 0x00]).flatten ++ [0x90])

/-! ## `hook_missing_hooks` -/

/-- The constant `MISSING_HANDLE_COUNT`. -/
def MISSING_HANDLE_COUNT : Nat := 128

/-- The missing-hook registry: `g_missing_handles` lists the entries
`g_missing_handles[0 .. g_missing_handle_count)` of the array (the count is its
length), and `enumerated` is a ghost log of the module handles handed to
`symbol_enumerate_module`, in call order. -/
structure MissingState where
  g_missing_handles : List Nat
  enumerated : List Nat
  deriving DecidableEq, Repr

/-- The registry at process start (`g_missing_handle_count` is 0). -/
def missingInit : MissingState := { g_missing_handles := [], enumerated := [] }

/-- The function `hook_missing_hooks(module_handle)`: return value and registry on
return. -/
def hook_missing_hooks (st : MissingState) (module_handle : Nat) : Int × MissingState :=
  if st.g_missing_handles.any (fun x => x == module_handle) then (0, st)
  else if st.g_missing_handles.length = MISSING_HANDLE_COUNT then (-1, st)
  else
    (0, { g_missing_handles := st.g_missing_handles ++ [module_handle],
          enumerated := st.enumerated ++ [module_handle] })

/-- A sequence of calls of `hook_missing_hooks`, one per handle of the list: the
return values and the registry after the last call. -/
def runMissing : List Nat → MissingState → List Int × MissingState
  | [], st => ([], st)
  | h :: hs, st =>
    ((hook_missing_hooks st h).1 :: (runMissing hs (hook_missing_hooks st h).2).1,
      (runMissing hs (hook_missing_hooks st h).2).2)

/-- Invariant of the registry: no handle twice, at most `MISSING_HANDLE_COUNT`
handles, and the modules enumerated are the handles registered. -/
def MissingInv (st : MissingState) : Prop :=
  st.g_missing_handles.Nodup ∧ st.g_missing_handles.length ≤ MISSING_HANDLE_COUNT
    ∧ st.enumerated = st.g_missing_handles

/-! ## Stub builders: `hook_insn` and `hook_hotpatch_guardpage` -/

/-- The constant `FUNCTIONSTUBSIZE`. -/
def FUNCTIONSTUBSIZE : Nat := 256

/-- Further collaborators of the stub builders: the emitters of `assembly.h` not
in `Env` (each gives the bytes it stores at its first argument),
`exploit_insn_rewrite_to_lea` (`none` when it returns a negative value), the
constants `HOOK_INSN_EAX`, `HOOK_INSN_STK(0)`, `R_R0`, `R_RSP`, the capacity
returned by `slab_size(&g_function_stubs)`, and the addresses of the guard-page
routines. -/
structure AsmEnv where
  asm_sub_esp_imm : Nat → Nat → List Nat
  asm_add_esp_imm : Nat → Nat → List Nat
  asm_push_context : Nat → List Nat
  asm_pop_context : Nat → List Nat
  asm_sub_regimm : Nat → Nat → Nat → List Nat
  asm_add_regimm : Nat → Nat → Nat → List Nat
  asm_push_register : Nat → Nat → List Nat
  asm_push_stack_offset : Nat → Nat → List Nat
  asm_jump_32bit_rel : Nat → Nat → Int → List Nat
  exploit_insn_rewrite_to_lea : Mem → Nat → Nat → Option (List Nat)
  HOOK_INSN_EAX : Nat
  HOOK_INSN_STK0 : Nat
  R_R0 : Nat
  R_RSP : Nat
  slab_size : Nat
  exploit_unset_guard_page : Nat
  exploit_set_guard_page : Nat
  log_guardrw : Nat

/-- The write cursor of a stub builder: memory, the local `ptr`, and the ghost log
of the `asm_call` and `asm_jump` invocations. -/
structure Asm where
  mem : Mem
  ptr : Nat
  calls : List Emit

/-- The step `ptr += emitter(ptr, ...)` for an emitter that stored `code`. -/
def Asm.emit (a : Asm) (code : List Nat) : Asm :=
  { mem := wrBytes a.mem a.ptr code, ptr := a.ptr + code.length, calls := a.calls }

/-- The step `ptr += asm_call(ptr, target)`. -/
def Asm.call (E : Env) (a : Asm) (target : Nat) : Asm :=
  { mem := wrBytes a.mem a.ptr (E.asm_call a.ptr target),
    ptr := a.ptr + (E.asm_call a.ptr target).length,
    calls := a.calls ++ [⟨EmitKind.call, a.ptr, target⟩] }

/-- The step `ptr += asm_jump(ptr, target)`. -/
def Asm.jump (E : Env) (a : Asm) (target : Nat) : Asm :=
  { mem := wrBytes a.mem a.ptr (E.asm_jump a.ptr target),
    ptr := a.ptr + (E.asm_jump a.ptr target).length,
    calls := a.calls ++ [⟨EmitKind.jump, a.ptr, target⟩] }

/-- The macro `REG_CONTEXT_SIZE`. -/
def REG_CONTEXT_SIZE (x64 : Bool) : Nat := if x64 then 16 * 8 + 8 + 4 * 8 else 8 * 4 + 4

/-- The value `sizeof(void *)`. -/
def ptrSize (x64 : Bool) : Nat := if x64 then 8 else 4

/-- Body of the loop of `_hook_call_method_arguments` for the signature byte
`arg` at position `idx`. -/
def pushArgument (E : Env) (A : AsmEnv) (a : Asm) (idx arg : Nat) : Asm :=
  if A.HOOK_INSN_STK0 ≤ arg then
    a.emit (A.asm_push_stack_offset a.ptr
      (0x1000 + REG_CONTEXT_SIZE E.x64 + ptrSize E.x64 * idx + (arg - A.HOOK_INSN_STK0)))
  else if A.HOOK_INSN_EAX ≤ arg then
    a.emit (A.asm_push_register a.ptr (arg - A.HOOK_INSN_EAX + A.R_R0))
  else
    a.emit [0x6a, 0x00]

/-- The function `_hook_call_method_arguments(ptr, signature)`: the cursor after
it; its return value is the distance the cursor moved. -/
def _hook_call_method_arguments (E : Env) (A : AsmEnv) (a : Asm) (signature : Nat) : Asm :=
  let a3 :=
    pushArgument E A
      (pushArgument E A
        (pushArgument E A
          (pushArgument E A a 0 (signature % 256))
          1 (signature / 256 % 256))
        2 (signature / 65536 % 256))
      3 (signature / 16777216 % 256)
  if E.x64 = true then a3.emit [0x59, 0x5a, 0x41, 0x58, 0x41, 0x59] else a3

/-- Locals of `_hook_copy_insns`: the cursor `*ptr`, `addr`, and the three output
cells `*jmpaddr`, `*relative`, `*spoff`. -/
structure CopyState where
  asm : Asm
  addr : Nat
  jmpaddr : Nat
  relative : Int
  spoff : Nat

/-- One pass through the body of `while (addr - h->addr < 5)` of
`_hook_copy_insns`; `none` is `return -1`.  `memcpy` reads its source bytes before
it writes. -/
def copyPass (E : Env) (s : CopyState) : Option CopyState :=
  if rd s.asm.mem s.addr = 0xe8 then none
  else if rd s.asm.mem s.addr = 0xe9 then
    some { s with relative := 0,
                  jmpaddr := ptrAdd E.bits s.addr (sext32 (rd32 s.asm.mem (s.addr + 1)) + 5),
                  addr := s.addr + 5 }
  else if rd s.asm.mem s.addr = 0xeb then
    some { s with relative := 0,
                  jmpaddr := ptrAdd E.bits s.addr (sext8 (rd s.asm.mem (s.addr + 1)) + 2),
                  addr := s.addr + 2 }
  else if 0x70 ≤ rd s.asm.mem s.addr ∧ rd s.asm.mem s.addr < 0x80 then
    some { s with relative := 1 + (rd s.asm.mem s.addr : Int) - 0x70,
                  jmpaddr := ptrAdd E.bits s.addr (sext8 (rd s.asm.mem (s.addr + 1)) + 2),
                  addr := s.addr + 2 }
  else if rd s.asm.mem s.addr = 0x0f ∧ 0x80 ≤ rd s.asm.mem (s.addr + 1)
      ∧ rd s.asm.mem (s.addr + 1) < 0x90 then
    some { s with relative := 1 + (rd s.asm.mem (s.addr + 1) : Int) - 0x80,
                  jmpaddr := ptrAdd E.bits s.addr (sext32 (rd32 s.asm.mem (s.addr + 2)) + 6),
                  addr := s.addr + 6 }
  else if s.relative = 0 ∧ s.jmpaddr ≠ 0 then none
  else
    some { asm := s.asm.emit (bytesAt s.asm.mem s.addr (E.lde s.asm.mem s.addr)),
           addr := s.addr + E.lde s.asm.mem s.addr,
           jmpaddr := s.jmpaddr, relative := s.relative,
           spoff :=
             (if 0x50 ≤ rd s.asm.mem s.addr ∧ rd s.asm.mem s.addr < 0x58 then
                s.spoff + ptrSize E.x64 else s.spoff)
             + (if E.x64 = true ∧ rd s.asm.mem s.addr = 0x41
                  ∧ 0x50 ≤ rd s.asm.mem (s.addr + 1) ∧ rd s.asm.mem (s.addr + 1) < 0x58 then
                ptrSize E.x64 else 0) }

/-- Outcome of `_hook_copy_insns`: `return -1`, `return addr - h->addr`, or the
fuel was used up while the loop condition still held. -/
inductive CopyResult
  | fail (s : CopyState)
  | ok (r : Nat) (s : CopyState)
  | spin (s : CopyState)

/-- The loop of `_hook_copy_insns` for at most `fuel` passes, with `haddr` the
value of `h->addr`. -/
def copyLoop (E : Env) (haddr : Nat) : Nat → CopyState → CopyResult
  | 0, s => if s.addr - haddr < 5 then CopyResult.spin s else CopyResult.ok (s.addr - haddr) s
  | fuel + 1, s =>
    if s.addr - haddr < 5 then
      match copyPass E s with
      | none => CopyResult.fail s
      | some s' => copyLoop E haddr fuel s'
    else CopyResult.ok (s.addr - haddr) s

/-- The function `_hook_copy_insns(h, &ptr, &jmpaddr, &relative, &spoff)` entered
with cursor `a`. -/
def _hook_copy_insns (E : Env) (fuel : Nat) (h : hook_t) (a : Asm) : CopyResult :=
  copyLoop E h.addr fuel { asm := a, addr := h.addr, jmpaddr := 0, relative := 0, spoff := 0 }

/-- The function `_hook_emit_jump(ptr, jmpaddr, relative)`: the bytes it stores. -/
def _hook_emit_jump (E : Env) (A : AsmEnv) (ptr jmpaddr : Nat) (relative : Int) : List Nat :=
  if jmpaddr = 0 then []
  else if relative = 0 then E.asm_jump_32bit ptr jmpaddr
  else A.asm_jump_32bit_rel ptr jmpaddr (relative - 1)

/-- What a stub builder returns: the return value, the descriptor and the cursor on
return, whether the stub was generated completely (the capacity test was
reached), and whether the "used too much space" error was reported. -/
structure BuildOut where
  ret : Int
  hook : hook_t
  asm : Asm
  complete : Bool
  overflow : Bool

/-- The closing test `if((uintptr_t)(ptr - h->func_stub) >= slab_size(...))` of both
builders, with `r` the value returned when the test passes. -/
def capacityCheck (A : AsmEnv) (h : hook_t) (a : Asm) (r : Int) : BuildOut :=
  if A.slab_size ≤ a.ptr - h.func_stub then
    { ret := -1, hook := h, asm := a, complete := true, overflow := true }
  else
    { ret := r, hook := h, asm := a, complete := true, overflow := false }

/-- A return of a builder before the stub is complete. -/
def earlyReturn (h : hook_t) (a : Asm) (r : Int) : BuildOut :=
  { ret := r, hook := h, asm := a, complete := false, overflow := false }

/-- The part of `hook_insn` up to the call of `_hook_copy_insns`: the cursor after
the context save, the argument pushes, the call of the handler and the context
restore. -/
def hookInsnPrologue (E : Env) (A : AsmEnv) (m : Mem) (h : hook_t) (signature : Nat) : Asm :=
  let a0 : Asm := { mem := m, ptr := h.func_stub, calls := [] }
  let a1 := a0.emit (A.asm_sub_esp_imm a0.ptr 0x1000)
  let a2 := a1.emit (A.asm_push_context a1.ptr)
  let a3 := if E.x64 = true then a2.emit (A.asm_sub_regimm a2.ptr A.R_RSP (4 * 8)) else a2
  let a4 := _hook_call_method_arguments E A a3 signature
  let a5 := a4.call E h.handler
  let a6 := if E.x64 = true then a5.emit (A.asm_add_regimm a5.ptr A.R_RSP (4 * 8)) else a5
  let a7 := a6.emit (A.asm_pop_context a6.ptr)
  a7.emit (A.asm_add_esp_imm a7.ptr 0x1000)

/-- The function `hook_insn(h, signature)`; `none` when `_hook_copy_insns` does
not return within `fuel` passes. -/
def hook_insn (E : Env) (A : AsmEnv) (fuel : Nat) (m : Mem) (h : hook_t)
    (signature : Nat) : Option BuildOut :=
  match _hook_copy_insns E fuel { h with handler := h.func_stub }
      (hookInsnPrologue E A m h signature) with
  | CopyResult.spin _ => none
  | CopyResult.fail s => some (earlyReturn { h with handler := h.func_stub } s.asm (-1))
  | CopyResult.ok r s =>
    if s.jmpaddr ≠ 0 then
      some (earlyReturn { h with handler := h.func_stub } s.asm (-1))
    else
      some (capacityCheck A { h with handler := h.func_stub }
        (s.asm.jump E (h.addr + r)) (r : Int))

/-- The part of `hook_hotpatch_guardpage` between the rewritten first instruction
and the call of `_hook_copy_insns`. -/
def guardpagePrologue (E : Env) (A : AsmEnv) (a : Asm) : Asm :=
  let a1 := a.emit (A.asm_push_register a.ptr A.R_R0)
  let a2 := a1.emit (A.asm_push_register a1.ptr A.R_R0)
  let a3 := a2.call E A.exploit_unset_guard_page
  let a4 := a3.call E A.log_guardrw
  let a5 := a4.emit (A.asm_pop_context a4.ptr)
  a5.emit (A.asm_add_esp_imm a5.ptr 0x1000)

/-- The part of `hook_hotpatch_guardpage` after `_hook_copy_insns` returned `r`. -/
def guardpageEpilogue (E : Env) (A : AsmEnv) (h : hook_t) (r : Nat) (s : CopyState) : Asm :=
  let a1 := s.asm.emit (A.asm_sub_esp_imm s.asm.ptr (toSizeT E.bits (0x1000 - (s.spoff : Int))))
  let a2 := a1.emit (A.asm_push_context a1.ptr)
  let a3 := a2.emit (A.asm_sub_esp_imm a2.ptr 4)
  let a4 := a3.call E A.exploit_set_guard_page
  let a5 := a4.emit (A.asm_pop_context a4.ptr)
  let a6 := a5.emit (A.asm_add_esp_imm a5.ptr (toSizeT E.bits (0x1000 - (s.spoff : Int))))
  let a7 := a6.emit (_hook_emit_jump E A a6.ptr s.jmpaddr s.relative)
  a7.emit (E.asm_jump_32bit a7.ptr (h.addr + r))

/-- The function `hook_hotpatch_guardpage(h)`; `none` when `_hook_copy_insns` does
not return within `fuel` passes. -/
def hook_hotpatch_guardpage (E : Env) (A : AsmEnv) (fuel : Nat) (m : Mem) (h : hook_t) :
    Option BuildOut :=
  let a0 : Asm := { mem := m, ptr := h.func_stub, calls := [] }
  let a1 := a0.emit (A.asm_sub_esp_imm a0.ptr 0x1000)
  let a2 := a1.emit (A.asm_push_context a1.ptr)
  match A.exploit_insn_rewrite_to_lea a2.mem a2.ptr h.addr with
  | none => some (earlyReturn h a2 (-1))
  | some code =>
    match _hook_copy_insns E fuel h (guardpagePrologue E A (a2.emit code)) with
    | CopyResult.spin _ => none
    | CopyResult.fail s => some (earlyReturn { h with stub_used := -1 } s.asm (-1))
    | CopyResult.ok r s =>
      some (capacityCheck A { h with stub_used := (r : Int), handler := h.func_stub }
        (guardpageEpilogue E A h r s) 0)

/-- A 32-bit emitter set with the usual encodings (`sub esp, imm32`,
`pushad; pushfd`, `push reg`, `push dword [esp+off]`, ...), sample values for the
signature constants, and the capacity `FUNCTIONSTUBSIZE`. -/
def asm32 : AsmEnv :=
  { asm_sub_esp_imm := fun _ imm => [0x81, 0xec] ++ leBytes 4 imm,
    asm_add_esp_imm := fun _ imm => [0x81, 0xc4] ++ leBytes 4 imm,
    asm_push_context := fun _ => [0x60, 0x9c],
    asm_pop_context := fun _ => [0x9d, 0x61],
    asm_sub_regimm := fun _ reg imm => [0x81, 0xe8 + reg % 8] ++ leBytes 4 imm,
    asm_add_regimm := fun _ reg imm => [0x81, 0xc0 + reg % 8] ++ leBytes 4 imm,
    asm_push_register := fun _ reg => [0x50 + reg % 8],
    asm_push_stack_offset := fun _ off => [0xff, 0xb4, 0x24] ++ leBytes 4 off,
    asm_jump_32bit_rel := fun pos target cond =>
      [0x0f, 0x80 + cond.toNat % 16] ++ leBytes 4 (toU32 ((target : Int) - (pos : Int) - 6)),
    exploit_insn_rewrite_to_lea := fun _ _ addr => some (0xb8 :: leBytes 4 addr),
    HOOK_INSN_EAX := 1, HOOK_INSN_STK0 := 0x80, R_R0 := 0, R_RSP := 4,
    slab_size := FUNCTIONSTUBSIZE,
    exploit_unset_guard_page := 0x10002000, exploit_set_guard_page := 0x10002100,
    log_guardrw := 0x10002200 }

/-- The same emitter set with a context-save sequence of 219 bytes, which makes
the stub that `hook_insn` builds over one five-byte instruction exactly 256 bytes
long. -/
def asmPadded : AsmEnv :=
  { asm32 with asm_push_context := fun _ => [0x60, 0x9c] ++ List.replicate 217 0x90 }

/-- The decoder `x86Len` extended with the five-byte `mov eax, imm32`. -/
def movLen (m : Mem) (a : Nat) : Nat := if rd m a = 0xb8 then 5 else x86Len m a

/-- A 32-bit build with the decoder `movLen`. -/
def env32mov : Env :=
  { x64 := false, lde := movLen, asm_jump := encJmp32, asm_call := encCall32,
    asm_jump_32bit := encJmp32, asm_pushv := encPush32 }

/-- The function `mov eax, 1; ret` at `0x1000`. -/
def movImage : Mem := image 0x1000 [0xb8, 0x01, 0x00, 0x00, 0x00, 0xc3]

/-- What `hook_insn` returns for `sampleHook` over `movImage` with the usual
emitters and the all-zero signature. -/
def insnSampleOut : BuildOut :=
  (hook_insn env32mov asm32 1 movImage sampleHook 0).getD
    (earlyReturn sampleHook { mem := movImage, ptr := 0, calls := [] } 0)

/-! ## Consecutive slots of one page -/

/-- The slots handed out by at most `n` consecutive calls of
`_hook_alloc_closeby_ptr` with one `size`, the first with bump pointer
`last_ptr`, in call order.  The sequence ends with the call that resets the bump
pointer to `NULL`: `_hook_alloc_closeby` calls `_hook_alloc_closeby_ptr` on the
kept pointer only while `last_ptr != NULL`. -/
def closebySlots (size : Nat) : Nat → Nat → List Nat
  | 0, _ => []
  | n + 1, last_ptr =>
    if last_ptr = 0 then []
    else (_hook_alloc_closeby_ptr last_ptr size).1
      :: closebySlots size n (_hook_alloc_closeby_ptr last_ptr size).2

/-- A 32-bit build whose decoder reports failure: `lde` returns 0 when capstone
has not been initialised and when it cannot decode the bytes. -/
def envNoDecoder : Env :=
  { x64 := false, lde := fun _ _ => 0, asm_jump := encJmp32, asm_call := encCall32,
    asm_jump_32bit := encJmp32, asm_pushv := encPush32 }

/-! ## Argument marshalling -/

/-- The bytes that one pass of the loop of `_hook_call_method_arguments` stores at
`pos` for the descriptor byte `arg` at position `idx`. -/
def pushCode (E : Env) (A : AsmEnv) (pos idx arg : Nat) : List Nat :=
  if A.HOOK_INSN_STK0 ≤ arg then
    A.asm_push_stack_offset pos
      (0x1000 + REG_CONTEXT_SIZE E.x64 + ptrSize E.x64 * idx + (arg - A.HOOK_INSN_STK0))
  else if A.HOOK_INSN_EAX ≤ arg then
    A.asm_push_register pos (arg - A.HOOK_INSN_EAX + A.R_R0)
  else [0x6a, 0x00]

/-- The pops into `rcx`, `rdx`, `r8`, `r9` that the 64-bit build appends. -/
def fastcallPops (x64 : Bool) : List Nat :=
  if x64 = true then [0x59, 0x5a, 0x41, 0x58, 0x41, 0x59] else []

/-- The four runs of bytes that the loop of `_hook_call_method_arguments` stores,
in order, the first at `pos` and each next one where the one before ended. -/
def marshalCodes (E : Env) (A : AsmEnv) (pos signature : Nat) : List (List Nat) :=
  let c0 := pushCode E A pos 0 (signature % 256)
  let c1 := pushCode E A (pos + c0.length) 1 (signature / 256 % 256)
  let c2 := pushCode E A (pos + c0.length + c1.length) 2 (signature / 65536 % 256)
  let c3 := pushCode E A (pos + c0.length + c1.length + c2.length) 3
    (signature / 16777216 % 256)
  [c0, c1, c2, c3]

/-! ## The call inside the stub of `hook_insn` -/

/-- The cursor of `hook_insn` just before `ptr += asm_call(ptr, h->handler)`; its
`ptr` is where the call instruction is stored. -/
def hookInsnCallSite (E : Env) (A : AsmEnv) (m : Mem) (h : hook_t) (signature : Nat) : Asm :=
  let a0 : Asm := { mem := m, ptr := h.func_stub, calls := [] }
  let a1 := a0.emit (A.asm_sub_esp_imm a0.ptr 0x1000)
  let a2 := a1.emit (A.asm_push_context a1.ptr)
  let a3 := if E.x64 = true then a2.emit (A.asm_sub_regimm a2.ptr A.R_RSP (4 * 8)) else a2
  _hook_call_method_arguments E A a3 signature

/-- Cursor `b` is cursor `a` after more stores through the cursor: `ptr` did not
move backwards and the bytes below the earlier `ptr` are as they were. -/
def AsmGrows (a b : Asm) : Prop :=
  a.ptr ≤ b.ptr ∧ ∀ x, x < a.ptr → b.mem x = a.mem x

/-! ## Basic facts about memory -/

theorem wr_other (m : Mem) (a b x : Nat) (h : x ≠ a) : wr m a b x = m x := by
  simp [wr, h]

theorem wrBytes_frame (bs : List Nat) (m : Mem) (a x : Nat)
    (h : x < a ∨ a + bs.length ≤ x) : wrBytes m a bs x = m x := by
  induction bs generalizing m a with
  | nil => rfl
  | cons b bs ih =>
    simp only [wrBytes, List.length_cons] at *
    rw [ih]
    · exact wr_other m a b x (by omega)
    · omega

theorem copyInsn_frame (n : Nat) (m : Mem) (t a x : Nat)
    (h : x < t ∨ t + n ≤ x) : copyInsn m t a n x = m x := by
  induction n generalizing m t a with
  | zero => rfl
  | succ n ih =>
    simp only [copyInsn]
    rw [ih]
    · exact wr_other m t _ x (by omega)
    · omega

theorem leBytes_length (n v : Nat) : (leBytes n v).length = n := by
  induction n generalizing v with
  | zero => rfl
  | succ n ih => simp [leBytes, ih]

theorem wrBytes_leBytes_frame (n v : Nat) (m : Mem) (a x : Nat)
    (h : x < a ∨ a + n ≤ x) : wrBytes m a (leBytes n v) x = m x :=
  wrBytes_frame _ _ _ _ (by rw [leBytes_length]; exact h)

/-! ## Facts about one pass of the walk -/

theorem relocJump_ok (E : Env) (s : StubState) (length L : Nat) (d : Int) :
    PassOk s (relocJump E s length L d) length L := by
  refine ⟨rfl, rfl, rfl, ?_, ?_⟩
  · simp [relocJump, StubState.next]
  · intro x hx
    simp only [relocJump, StubState.next] at hx ⊢
    exact wrBytes_frame _ _ _ _ hx

theorem relocCall_ok (E : Env) (s : StubState) (length : Nat) :
    PassOk s (relocCall E s length) length 5 := by
  refine ⟨rfl, rfl, rfl, ?_, ?_⟩
  · simp [relocCall, StubState.next]
  · intro x hx
    simp only [relocCall, StubState.next] at hx ⊢
    exact wrBytes_frame _ _ _ _ hx

theorem relocJcc32_ok (E : Env) (s : StubState) (length : Nat) :
    PassOk s (relocJcc32 E s length) length 6 := by
  refine ⟨rfl, rfl, rfl, ?_, ?_⟩
  · simp [relocJcc32, StubState.next]
  · intro x hx
    simp only [relocJcc32, StubState.next] at hx ⊢
    rw [wrBytes_leBytes_frame _ _ _ _ _ (by omega),
      wr_other _ _ _ _ (by omega), wr_other _ _ _ _ (by omega)]

theorem relocJcc8_ok (E : Env) (s : StubState) (length : Nat) :
    PassOk s (relocJcc8 E s length) length 2 := by
  refine ⟨rfl, rfl, rfl, ?_, ?_⟩
  · simp [relocJcc8, StubState.next]
  · intro x hx
    simp only [relocJcc8, StubState.next] at hx ⊢
    rw [wrBytes_leBytes_frame _ _ _ _ _ (by omega),
      wr_other _ _ _ _ (by omega), wr_other _ _ _ _ (by omega)]

theorem relocRip_ok (E : Env) (s : StubState) (length : Nat) :
    PassOk s (relocRip E s length) length 7 := by
  unfold relocRip
  simp only
  split_ifs
  all_goals
    refine ⟨rfl, rfl, rfl, ?_, ?_⟩
    · simp [StubState.next]
    · intro x hx
      simp only [StubState.next] at hx ⊢
      simp (disch := omega) only [wr_other, wrBytes_leBytes_frame]

theorem copyRegular_ok (s : StubState) (length : Nat) :
    PassOk s (copyRegular s length) length length := by
  refine ⟨rfl, rfl, rfl, ?_, ?_⟩
  · simp [copyRegular, StubState.next]
  · intro x hx
    simp only [copyRegular, StubState.next] at hx ⊢
    exact copyInsn_frame _ _ _ _ _ hx

theorem stubStep_spec (E : Env) (s s' : StubState) (h : stubStep E s = some s') :
    E.lde s.mem s.addr ≠ 0
    ∧ PassOk s s' (E.lde s.mem s.addr) (advance E s.mem s.addr) := by
  unfold stubStep at h
  split_ifs at h with h0 h1 h2 h3 h4 h5 h6 h7
  all_goals (injection h with h; subst h; refine ⟨h0, ?_⟩; unfold advance fixedLen)
  · rw [if_pos h1]; exact relocJump_ok ..
  · rw [if_neg h1, if_pos h2]; exact relocCall_ok ..
  · rw [if_neg h1, if_neg h2, if_pos h3]; exact relocJcc32_ok ..
  · rw [if_neg h1, if_neg h2, if_neg h3, if_pos h4]; exact relocJump_ok ..
  · rw [if_neg h1, if_neg h2, if_neg h3, if_neg h4, if_pos h5]; exact relocJcc8_ok ..
  · rw [if_neg h1, if_neg h2, if_neg h3, if_neg h4, if_neg h5, if_pos h6]
    exact relocRip_ok ..
  · rw [if_neg h1, if_neg h2, if_neg h3, if_neg h4, if_neg h5, if_neg h6]
    exact copyRegular_ok ..

/-! ## Facts about the whole walk -/

/-- A property kept by every pass holds in the state in which the loop stops,
whichever way it stops. -/
theorem stubLoop_inv (E : Env) (P : StubState → Prop)
    (hstep : ∀ s s', 0 < s.len → stubStep E s = some s' → P s → P s')
    (fuel : Nat) (s : StubState) (hs : P s) :
    match stubLoop E fuel s with
    | Walk.fail t => P t ∧ 0 < t.len ∧ stubStep E t = none
    | Walk.done t => P t ∧ t.len ≤ 0
    | Walk.stuck t => P t := by
  induction fuel generalizing s with
  | zero =>
    unfold stubLoop
    split_ifs with h
    · exact hs
    · exact ⟨hs, not_lt.mp h⟩
  | succ fuel ih =>
    unfold stubLoop
    split_ifs with h
    · cases hstp : stubStep E s with
      | none => exact ⟨hs, h, hstp⟩
      | some s' => exact ih s' (hstep s s' h hstp hs)
    · exact ⟨hs, not_lt.mp h⟩

/-- With `len` passes of fuel the loop never runs dry. -/
theorem stubLoop_not_stuck (E : Env) (fuel : Nat) (s t : StubState)
    (hf : s.len.toNat ≤ fuel) : stubLoop E fuel s ≠ Walk.stuck t := by
  induction fuel generalizing s with
  | zero =>
    unfold stubLoop
    have : ¬ 0 < s.len := by omega
    rw [if_neg this]
    exact fun h => Walk.noConfusion h
  | succ fuel ih =>
    unfold stubLoop
    split_ifs with h
    · cases hstp : stubStep E s with
      | none => exact fun h => Walk.noConfusion h
      | some s' =>
        have h1 := (stubStep_spec E s s' hstp).1
        have h2 := (stubStep_spec E s s' hstp).2.len_eq
        exact ih s' (by omega)
    · exact fun h => Walk.noConfusion h

/-- The function `hook_create_stub` always returns. -/
theorem hook_create_stub_returns (E : Env) (m : Mem) (tramp addr : Nat) (len : Int) :
    hook_create_stub E m tramp addr len ≠ StubResult.stuck := by
  unfold hook_create_stub
  cases h : stubLoop E len.toNat (stubInit m tramp addr len) with
  | fail t => exact fun h => StubResult.noConfusion h
  | done t => exact fun h => StubResult.noConfusion h
  | stuck t => exact absurd h (stubLoop_not_stuck E _ _ t (le_refl _))

/-- A property kept by every pass holds in every state the walk reaches. -/
theorem stubIter_inv (E : Env) (P : StubState → Prop)
    (hstep : ∀ s s', 0 < s.len → stubStep E s = some s' → P s → P s')
    (k : Nat) (s t : StubState) (hs : P s) (h : stubIter E k s = some t) : P t := by
  induction k generalizing s with
  | zero =>
    simp only [stubIter, Option.some.injEq] at h
    exact h ▸ hs
  | succ k ih =>
    unfold stubIter at h
    split_ifs at h with hl
    cases hstp : stubStep E s with
    | none => simp [hstp] at h
    | some s' =>
      rw [hstp] at h
      exact ih s' (hstep s s' hl hstp hs) h

/-- Running the loop from the start is running it from any state the walk
reaches, with the fuel that is left. -/
theorem stubLoop_of_iter (E : Env) (k f : Nat) (s t : StubState)
    (h : stubIter E k s = some t) : stubLoop E (k + f) s = stubLoop E f t := by
  induction k generalizing s with
  | zero =>
    simp only [stubIter, Option.some.injEq] at h
    simp [h]
  | succ k ih =>
    unfold stubIter at h
    split_ifs at h with hl
    cases hstp : stubStep E s with
    | none => simp [hstp] at h
    | some s' =>
      rw [hstp] at h
      have : k + 1 + f = (k + f) + 1 := by omega
      rw [this, stubLoop, if_pos hl, hstp]
      exact ih s' h

theorem walkInv_init (m : Mem) (tramp addr : Nat) (len : Int) :
    WalkInv len (stubInit m tramp addr len) := by
  simp [WalkInv, stubInit]

theorem walkInv_step (E : Env) (len : Int) (s s' : StubState) (_hl : 0 < s.len)
    (h : stubStep E s = some s') (hs : WalkInv len s) : WalkInv len s' := by
  obtain ⟨h0, hp⟩ := stubStep_spec E s s' h
  obtain ⟨h1, h2⟩ := hs
  refine ⟨?_, ?_⟩
  · rw [hp.len_eq, hp.walked_eq, h1]
    simp only [List.sum_append, List.sum_cons, List.sum_nil, Nat.cast_add]
    omega
  · rw [hp.walked_eq]
    simp only [List.length_append, List.length_cons, List.length_nil, List.sum_append,
      List.sum_cons, List.sum_nil]
    omega

theorem frameInv_init (m : Mem) (tramp addr : Nat) (len : Int) :
    FrameInv m tramp (stubInit m tramp addr len) := by
  simp [FrameInv, stubInit]

theorem frameInv_step (E : Env) (m : Mem) (tramp : Nat) (s s' : StubState)
    (_hl : 0 < s.len) (h : stubStep E s = some s') (hs : FrameInv m tramp s) :
    FrameInv m tramp s' := by
  obtain ⟨_, hp⟩ := stubStep_spec E s s' h
  obtain ⟨h1, h2⟩ := hs
  refine ⟨le_trans h1 hp.tramp_le, fun x hx => ?_⟩
  rw [hp.frame x (by have := hp.tramp_le; omega), h2 x (by have := hp.tramp_le; omega)]

theorem advance_eq_lde (E : Env) (hE : ldeAgrees E) (m : Mem) (a : Nat) :
    advance E m a = E.lde m a := by
  unfold advance
  cases hf : fixedLen E.x64 m a with
  | none => rfl
  | some L => exact (hE m a L hf).symm

theorem addrInv_step (E : Env) (hE : ldeAgrees E) (addr : Nat) (s s' : StubState)
    (_hl : 0 < s.len) (h : stubStep E s = some s') (hs : AddrInv addr s) :
    AddrInv addr s' := by
  obtain ⟨_, hp⟩ := stubStep_spec E s s' h
  unfold AddrInv at *
  rw [hp.addr_eq, hp.walked_eq, hs, advance_eq_lde E hE]
  simp only [List.sum_append, List.sum_cons, List.sum_nil]
  omega

/-- The sample decoder reports the lengths the builder steps over. -/
theorem env32_agrees : ldeAgrees env32 := by
  intro m a L h
  simp only [env32, fixedLen, x86Len] at h ⊢
  split_ifs at h ⊢ <;> simp_all

/-- Fuel beyond `len` passes changes nothing. -/
theorem stubLoop_fuel (E : Env) (fuel d : Nat) (s : StubState)
    (hf : s.len.toNat ≤ fuel) : stubLoop E (fuel + d) s = stubLoop E fuel s := by
  induction fuel generalizing s with
  | zero =>
    have hn : ¬ 0 < s.len := by omega
    cases d with
    | zero => rfl
    | succ d => simp [stubLoop, hn]
  | succ fuel ih =>
    have : fuel + 1 + d = (fuel + d) + 1 := by omega
    rw [this]
    unfold stubLoop
    split_ifs with h
    · cases hstp : stubStep E s with
      | none => rfl
      | some s' =>
        have h1 := (stubStep_spec E s s' hstp).1
        have h2 := (stubStep_spec E s s' hstp).2.len_eq
        exact ih s' (by omega)
    · rfl

/-- A return opcode with bytes still missing ends the walk with `return -1`. -/
theorem stubStep_ret_short (E : Env) (s : StubState)
    (hret : rd s.mem s.addr = 0xc3 ∨ rd s.mem s.addr = 0xc2)
    (hshort : 0 < s.len - (E.lde s.mem s.addr : Int)) : stubStep E s = none := by
  unfold stubStep
  rcases hret with h | h <;> simp [h, hshort]

/-! ## C1: consumed bytes and decoder lengths -/

/-- C1, as stated, fails: with a decoder that reports length 1 for the five-byte
jump `e9 00 00 00 00` and `len = 1`, `hook_create_stub` returns 5 while the sum
of the reported lengths is 1. -/
theorem hook_create_stub_count_differs_from_decoder_sum :
    (hook_create_stub envUnitDecoder (image 0x1000 [0xe9, 0, 0, 0, 0, 0x90]) 0x2000
        0x1000 1).ret = some 5
    ∧ (hook_create_stub envUnitDecoder (image 0x1000 [0xe9, 0, 0, 0, 0, 0x90]) 0x2000
        0x1000 1).walked.sum = 1 := by
  decide

/-- C1 (amended): when the decoder reports, for every shape the builder
rewrites, the length the builder steps over (5, 5, 6, 2, 2 and 7), a
non-negative result `n` of `hook_create_stub` equals the sum of the lengths the
decoder reported for the instructions walked, and the walk stopped at `addr + n`. -/
theorem hook_create_stub_count_eq_decoder_sum (E : Env) (hE : ldeAgrees E) (m : Mem)
    (tramp addr : Nat) (len n : Int)
    (hret : (hook_create_stub E m tramp addr len).ret = some n) (hn : 0 ≤ n) :
    n = ((hook_create_stub E m tramp addr len).walked.sum : Nat)
    ∧ ∃ s, (hook_create_stub E m tramp addr len).state = some s
        ∧ ((s.addr : Nat) : Int) = (addr : Int) + n := by
  have hinv := stubLoop_inv E (AddrInv addr) (addrInv_step E hE addr) len.toNat
    (stubInit m tramp addr len) (by simp [AddrInv, stubInit])
  unfold hook_create_stub at hret ⊢
  cases hl : stubLoop E len.toNat (stubInit m tramp addr len) with
  | fail t =>
    rw [hl] at hret
    simp only [StubResult.ret, Option.some.injEq] at hret
    omega
  | stuck t => exact absurd hl (stubLoop_not_stuck E _ _ t (le_refl _))
  | done t =>
    rw [hl] at hret hinv
    simp only [StubResult.ret, Option.some.injEq] at hret
    simp only [AddrInv] at hinv
    simp only [StubResult.walked, StubResult.state]
    refine ⟨?_, _, rfl, ?_⟩
    · rw [← hret, hinv.1]; simp
    · rw [← hret, hinv.1]; simp

/-- Instance of C1 (amended): five `nop`s with `len = 5` under the sample decoder. -/
theorem hook_create_stub_count_eq_decoder_sum_witness :
    (5 : Int) = ((hook_create_stub env32 (image 0x1000 [0x90, 0x90, 0x90, 0x90, 0x90])
        0x2000 0x1000 5).walked.sum : Nat)
    ∧ ∃ s, (hook_create_stub env32 (image 0x1000 [0x90, 0x90, 0x90, 0x90, 0x90])
        0x2000 0x1000 5).state = some s ∧ ((s.addr : Nat) : Int) = (0x1000 : Nat) + (5 : Int) :=
  hook_create_stub_count_eq_decoder_sum env32 env32_agrees
    (image 0x1000 [0x90, 0x90, 0x90, 0x90, 0x90]) 0x2000 0x1000 5 5 (by decide) (by decide)

/-! ## C2: a return met too early, and the write footprint -/

/-- C2: (1) if the walk of `hook_create_stub` reaches, at the head of its loop, an
instruction whose first byte is `c3` or `c2` while the lengths of the
instructions walked so far plus the length of that instruction are still below
`len`, the function returns -1; (2) the same with the bytes counted as the
distance of that instruction from `addr` plus its length, when the decoder agrees
with the sizes the builder steps over; (3) on every path, failing or not, every
byte at an address outside the trampoline bytes `[tramp, tramp')` passed over by
the trampoline pointer keeps its entry value; (4) the source `eb 00 c3` with
`len = 5` fails. -/
theorem hook_create_stub_fails_on_early_ret (E : Env) (m : Mem) (tramp addr : Nat)
    (len : Int) :
    (∀ k s, stubIter E k (stubInit m tramp addr len) = some s →
        (rd s.mem s.addr = 0xc3 ∨ rd s.mem s.addr = 0xc2) →
        ((s.walked.sum + E.lde s.mem s.addr : Nat) : Int) < len →
        (hook_create_stub E m tramp addr len).ret = some (-1))
    ∧ (ldeAgrees E → ∀ k s, stubIter E k (stubInit m tramp addr len) = some s →
        (rd s.mem s.addr = 0xc3 ∨ rd s.mem s.addr = 0xc2) →
        (((s.addr - addr) + E.lde s.mem s.addr : Nat) : Int) < len →
        (hook_create_stub E m tramp addr len).ret = some (-1))
    ∧ (∀ sf, (hook_create_stub E m tramp addr len).state = some sf →
        tramp ≤ sf.tramp ∧ ∀ x, x < tramp ∨ sf.tramp ≤ x → sf.mem x = m x)
    ∧ (hook_create_stub env32 (image 0x1000 [0xeb, 0x00, 0xc3]) 0x2000 0x1000 5).ret
        = some (-1) := by
  have part1 : ∀ k s, stubIter E k (stubInit m tramp addr len) = some s →
      (rd s.mem s.addr = 0xc3 ∨ rd s.mem s.addr = 0xc2) →
      ((s.walked.sum + E.lde s.mem s.addr : Nat) : Int) < len →
      (hook_create_stub E m tramp addr len).ret = some (-1) := ?_
  refine ⟨part1, ?_, ?_, by decide⟩
  · intro hE k s hreach hret hshort
    have ha : s.addr = addr + s.walked.sum :=
      stubIter_inv E (AddrInv addr) (addrInv_step E hE addr) k _ s
        (by simp [AddrInv, stubInit]) hreach
    have : s.addr - addr = s.walked.sum := by omega
    rw [this] at hshort
    exact part1 k s hreach hret hshort
  rotate_left
  · intro k s hreach hret hshort
    obtain ⟨hlen, -⟩ := stubIter_inv E (WalkInv len) (walkInv_step E len) k _ s
      (walkInv_init m tramp addr len) hreach
    have hshort' : 0 < s.len - (E.lde s.mem s.addr : Int) := by
      rw [hlen]; rw [Nat.cast_add] at hshort; omega
    have hpos : 0 < s.len := by omega
    have hnone := stubStep_ret_short E s hret hshort'
    obtain ⟨f, hf⟩ : ∃ f, len.toNat = f + 1 := ⟨len.toNat - 1, by omega⟩
    have hrun : stubLoop E len.toNat (stubInit m tramp addr len) = Walk.fail s := by
      rw [← stubLoop_fuel E len.toNat k _ (le_refl _), Nat.add_comm,
        stubLoop_of_iter E k len.toNat _ s hreach, hf, stubLoop, if_pos hpos, hnone]
    simp [hook_create_stub, hrun, StubResult.ret]
  · intro sf hsf
    have hinv := stubLoop_inv E (FrameInv m tramp) (frameInv_step E m tramp) len.toNat
      (stubInit m tramp addr len) (frameInv_init m tramp addr len)
    unfold hook_create_stub at hsf
    cases hl : stubLoop E len.toNat (stubInit m tramp addr len) with
    | fail t =>
      rw [hl] at hsf hinv
      simp only [StubResult.state, Option.some.injEq] at hsf
      exact hsf ▸ hinv.1
    | stuck t => exact absurd hl (stubLoop_not_stuck E _ _ t (le_refl _))
    | done t =>
      rw [hl] at hsf hinv
      simp only [StubResult.state, Option.some.injEq] at hsf
      obtain ⟨⟨h1, h2⟩, -⟩ := hinv
      subst hsf
      refine ⟨by simp only; omega, fun x hx => ?_⟩
      simp only at hx ⊢
      rw [wrBytes_frame _ _ _ _ (by omega), h2 x (by omega)]

/-- Instance of C2: in `eb 00 c3` with `len = 5` the walk reaches the `c3` after one
pass with 2 + 1 bytes accounted for, and the call returns -1. -/
theorem hook_create_stub_fails_on_early_ret_witness :
    (hook_create_stub env32 (image 0x1000 [0xeb, 0x00, 0xc3]) 0x2000 0x1000 5).ret
      = some (-1) :=
  (hook_create_stub_fails_on_early_ret env32 (image 0x1000 [0xeb, 0x00, 0xc3]) 0x2000
    0x1000 5).1 1
    (relocJump env32 (stubInit (image 0x1000 [0xeb, 0x00, 0xc3]) 0x2000 0x1000 5) 2 2 0)
    (by rfl) (by decide) (by decide)

/-! ## C3: relocated control transfers keep their target -/

theorem rd_wr_same (m : Mem) (a b : Nat) : rd (wr m a b) a = b % 256 := by
  simp [rd, wr]

theorem rd_wr_other (m : Mem) (a b x : Nat) (h : x ≠ a) : rd (wr m a b) x = rd m x := by
  simp [rd, wr, h]

theorem rd_wrBytes_frame (bs : List Nat) (m : Mem) (a x : Nat)
    (h : x < a ∨ a + bs.length ≤ x) : rd (wrBytes m a bs) x = rd m x := by
  simp [rd, wrBytes_frame bs m a x h]

theorem rdLE_congr (m m' : Mem) (a n : Nat) (h : ∀ x, a ≤ x → x < a + n → rd m x = rd m' x) :
    rdLE m a n = rdLE m' a n := by
  induction n generalizing a with
  | zero => rfl
  | succ n ih =>
    simp only [rdLE]
    rw [h a (le_refl _) (by omega), ih (a + 1) (fun x h1 h2 => h x (by omega) (by omega))]

/-- Reading back a little-endian store. -/
theorem rdLE_wrBytes_leBytes (n v : Nat) (m : Mem) (a : Nat) :
    rdLE (wrBytes m a (leBytes n v)) a n = v % 256 ^ n := by
  induction n generalizing m a v with
  | zero => simp [rdLE, Nat.mod_one]
  | succ n ih =>
    simp only [rdLE, leBytes, wrBytes]
    rw [ih, rd_wrBytes_frame _ _ _ _ (by omega), rd_wr_same, pow_succ', Nat.mod_mul]
    omega

theorem ptrAdd_lt (bits a : Nat) (d : Int) : ptrAdd bits a d < 2 ^ bits := by
  unfold ptrAdd
  have hpos : (0 : Int) < ((2 ^ bits : Nat) : Int) := by positivity
  have h1 := Int.emod_nonneg ((a : Int) + d) (ne_of_gt hpos)
  have h2 := Int.emod_lt_of_pos ((a : Int) + d) hpos
  omega

/-- The displacement stored by the conditional-jump branches, read back as a
signed 32-bit value and added to the end of the six-byte form, gives the target
again on a 32-bit machine. -/
theorem disp32_roundtrip32 (T t : Nat) (hT : T < 2 ^ 32) :
    ptrAdd 32 (t + 6) (sext32 (toU32 ((T : Int) - ((t + 2 : Nat) : Int) - 4))) = T := by
  unfold ptrAdd sext32 toU32
  norm_num at hT ⊢
  split_ifs <;> omega

/-- On a 64-bit machine the same holds when the distance fits in 32 bits. -/
theorem disp32_roundtrip64 (T t : Nat) (hT : T < 2 ^ 64)
    (hlo : -2147483648 ≤ (T : Int) - ((t : Int) + 6))
    (hhi : (T : Int) - ((t : Int) + 6) < 2147483648) :
    ptrAdd 64 (t + 6) (sext32 (toU32 ((T : Int) - ((t + 2 : Nat) : Int) - 4))) = T := by
  unfold ptrAdd sext32 toU32
  norm_num at hT ⊢
  split_ifs <;> omega

theorem toU32_lt (d : Int) : toU32 d < 256 ^ 4 := by
  unfold toU32
  norm_num
  omega

theorem rd32_stored (m : Mem) (a : Nat) (d : Int) :
    rd32 (wrBytes m a (leBytes 4 (toU32 d))) a = toU32 d := by
  unfold rd32
  rw [rdLE_wrBytes_leBytes, Nat.mod_eq_of_lt (toU32_lt d)]

/-- What the branch for `70..7f rel8` leaves in the trampoline when its first two
bytes do not overlap the instruction. -/
theorem relocJcc8_bytes (E : Env) (s : StubState) (length : Nat)
    (hop : rd s.mem s.addr < 0x80)
    (hdis : s.tramp + 2 ≤ s.addr ∨ s.addr + 2 ≤ s.tramp) :
    rd (relocJcc8 E s length).mem s.tramp = 0x0f
    ∧ rd (relocJcc8 E s length).mem (s.tramp + 1) = rd s.mem s.addr + 0x10
    ∧ rd32 (relocJcc8 E s length).mem (s.tramp + 2)
        = toU32 ((ptrAdd E.bits s.addr (sext8 (rd s.mem (s.addr + 1)) + 2) : Int)
            - ((s.tramp + 2 : Nat) : Int) - 4) := by
  simp only [relocJcc8, StubState.next]
  have e1 : rd (wr s.mem s.tramp 0x0f) s.addr = rd s.mem s.addr :=
    rd_wr_other _ _ _ _ (by omega)
  have e2 : rd (wr (wr s.mem s.tramp 0x0f) (s.tramp + 1) (rd s.mem s.addr + 0x10))
      (s.addr + 1) = rd s.mem (s.addr + 1) := by
    rw [rd_wr_other _ _ _ _ (by omega), rd_wr_other _ _ _ _ (by omega)]
  rw [e1, e2]
  refine ⟨?_, ?_, rd32_stored _ _ _⟩
  · rw [rd_wrBytes_frame _ _ _ _ (by omega), rd_wr_other _ _ _ _ (by omega), rd_wr_same]
  · rw [rd_wrBytes_frame _ _ _ _ (by omega), rd_wr_same]
    omega

/-- What the branch for `0f 80..8f rel32` leaves in the trampoline when its first
two bytes do not overlap the instruction. -/
theorem relocJcc32_bytes (E : Env) (s : StubState) (length : Nat)
    (hdis : s.tramp + 2 ≤ s.addr ∨ s.addr + 6 ≤ s.tramp) :
    rd (relocJcc32 E s length).mem s.tramp = rd s.mem s.addr
    ∧ rd (relocJcc32 E s length).mem (s.tramp + 1) = rd s.mem (s.addr + 1)
    ∧ rd32 (relocJcc32 E s length).mem (s.tramp + 2)
        = toU32 ((ptrAdd E.bits s.addr (sext32 (rd32 s.mem (s.addr + 2)) + 6) : Int)
            - ((s.tramp + 2 : Nat) : Int) - 4) := by
  simp only [relocJcc32, StubState.next]
  have e1 : rd (wr s.mem s.tramp (rd s.mem s.addr)) (s.addr + 1) = rd s.mem (s.addr + 1) :=
    rd_wr_other _ _ _ _ (by omega)
  have e2 : rd32 (wr (wr s.mem s.tramp (rd s.mem s.addr)) (s.tramp + 1)
      (rd s.mem (s.addr + 1))) (s.addr + 2) = rd32 s.mem (s.addr + 2) := by
    unfold rd32
    apply rdLE_congr
    intro x h1 h2
    rw [rd_wr_other _ _ _ _ (by omega), rd_wr_other _ _ _ _ (by omega)]
  rw [e1, e2]
  have hb0 : rd s.mem s.addr % 256 = rd s.mem s.addr := by unfold rd; omega
  have hb1 : rd s.mem (s.addr + 1) % 256 = rd s.mem (s.addr + 1) := by unfold rd; omega
  refine ⟨?_, ?_, rd32_stored _ _ _⟩
  · rw [rd_wrBytes_frame _ _ _ _ (by omega), rd_wr_other _ _ _ _ (by omega), rd_wr_same,
      hb0]
  · rw [rd_wrBytes_frame _ _ _ _ (by omega), rd_wr_same, hb1]

/-- C3, as stated, fails on the 64-bit build: the jump `74 00` at `0x1000`, whose
target is `0x1002`, relocated to the trampoline address `0x100000000`, gets a
displacement with which the six-byte form lands on `0x100001002`. -/
theorem relocated_jcc_misses_target_64bit :
    (stubStep env64 (stubInit (image 0x1000 [0x74, 0x00]) 0x100000000 0x1000 5)).map
        (fun s' => ptrAdd 64 (0x100000000 + 6) (sext32 (rd32 s'.mem (0x100000000 + 2))))
      = some 0x100001002
    ∧ ptrAdd 64 0x1000 (2 + sext8 (rd (image 0x1000 [0x74, 0x00]) 0x1001)) = 0x1002 := by
  decide

/-- C3 (amended): in a pass whose decoder call succeeds at source address `a`
(trampoline pointer `t`), (1)-(3) for `e9 rel32`, `eb rel8` and `e8 rel32` the
address handed to the jump or call emitter is `a + L + sext(rel)` at pointer
width, `L = 5, 2, 5`; (4)-(5) for `70..7f rel8` and `0f 80..8f rel32`, when the
first two trampoline bytes do not overlap the instruction, the six bytes written
at `t` are `0f`, `80 + cc` with the same condition code, and a displacement
`d32` such that `t + 6 + sext(d32)` is the original target `a + L + sext(rel)`
(`L = 2` or `6`): on the 32-bit build for all `a` and `t`, on the 64-bit build
whenever the distance from `t + 6` to that target fits in a signed 32-bit
displacement. -/
theorem relocated_transfer_keeps_target (E : Env) (s : StubState)
    (hdec : E.lde s.mem s.addr ≠ 0) :
    (rd s.mem s.addr = 0xe9 → ∃ s', stubStep E s = some s' ∧ s'.calls = s.calls ++
        [⟨EmitKind.jump, s.tramp, ptrAdd E.bits s.addr (sext32 (rd32 s.mem (s.addr + 1)) + 5)⟩])
    ∧ (rd s.mem s.addr = 0xeb → ∃ s', stubStep E s = some s' ∧ s'.calls = s.calls ++
        [⟨EmitKind.jump, s.tramp, ptrAdd E.bits s.addr (sext8 (rd s.mem (s.addr + 1)) + 2)⟩])
    ∧ (rd s.mem s.addr = 0xe8 → ∃ s', stubStep E s = some s' ∧ s'.calls = s.calls ++
        [⟨EmitKind.call, s.tramp, ptrAdd E.bits s.addr (sext32 (rd32 s.mem (s.addr + 1)) + 5)⟩])
    ∧ (0x70 ≤ rd s.mem s.addr → rd s.mem s.addr < 0x80 →
        (s.tramp + 2 ≤ s.addr ∨ s.addr + 2 ≤ s.tramp) →
        ∃ s', stubStep E s = some s' ∧ s'.tramp = s.tramp + 6
          ∧ rd s'.mem s.tramp = 0x0f
          ∧ rd s'.mem (s.tramp + 1) = 0x80 + (rd s.mem s.addr - 0x70)
          ∧ (E.x64 = false →
              ptrAdd 32 (s.tramp + 6) (sext32 (rd32 s'.mem (s.tramp + 2)))
                = ptrAdd 32 s.addr (sext8 (rd s.mem (s.addr + 1)) + 2))
          ∧ (E.x64 = true →
              -2147483648 ≤ (ptrAdd 64 s.addr (sext8 (rd s.mem (s.addr + 1)) + 2) : Int)
                - ((s.tramp : Int) + 6) →
              (ptrAdd 64 s.addr (sext8 (rd s.mem (s.addr + 1)) + 2) : Int)
                - ((s.tramp : Int) + 6) < 2147483648 →
              ptrAdd 64 (s.tramp + 6) (sext32 (rd32 s'.mem (s.tramp + 2)))
                = ptrAdd 64 s.addr (sext8 (rd s.mem (s.addr + 1)) + 2)))
    ∧ (rd s.mem s.addr = 0x0f → 0x80 ≤ rd s.mem (s.addr + 1) → rd s.mem (s.addr + 1) < 0x90 →
        (s.tramp + 2 ≤ s.addr ∨ s.addr + 6 ≤ s.tramp) →
        ∃ s', stubStep E s = some s' ∧ s'.tramp = s.tramp + 6
          ∧ rd s'.mem s.tramp = 0x0f
          ∧ rd s'.mem (s.tramp + 1) = rd s.mem (s.addr + 1)
          ∧ (E.x64 = false →
              ptrAdd 32 (s.tramp + 6) (sext32 (rd32 s'.mem (s.tramp + 2)))
                = ptrAdd 32 s.addr (sext32 (rd32 s.mem (s.addr + 2)) + 6))
          ∧ (E.x64 = true →
              -2147483648 ≤ (ptrAdd 64 s.addr (sext32 (rd32 s.mem (s.addr + 2)) + 6) : Int)
                - ((s.tramp : Int) + 6) →
              (ptrAdd 64 s.addr (sext32 (rd32 s.mem (s.addr + 2)) + 6) : Int)
                - ((s.tramp : Int) + 6) < 2147483648 →
              ptrAdd 64 (s.tramp + 6) (sext32 (rd32 s'.mem (s.tramp + 2)))
                = ptrAdd 64 s.addr (sext32 (rd32 s.mem (s.addr + 2)) + 6))) := by
  refine ⟨?_, ?_, ?_, ?_, ?_⟩
  · intro h
    refine ⟨relocJump E s (E.lde s.mem s.addr) 5 (sext32 (rd32 s.mem (s.addr + 1))), ?_, rfl⟩
    simp [stubStep, hdec, h]
  · intro h
    refine ⟨relocJump E s (E.lde s.mem s.addr) 2 (sext8 (rd s.mem (s.addr + 1))), ?_, rfl⟩
    simp [stubStep, hdec, h]
  · intro h
    refine ⟨relocCall E s (E.lde s.mem s.addr), ?_, rfl⟩
    simp [stubStep, hdec, h]
  · intro h1 h2 hdis
    have hstep : stubStep E s = some (relocJcc8 E s (E.lde s.mem s.addr)) := by
      unfold stubStep
      rw [if_neg hdec, if_neg (by omega), if_neg (by omega), if_neg (by omega),
        if_neg (by omega), if_pos ⟨h1, h2⟩]
    obtain ⟨b0, b1, b2⟩ := relocJcc8_bytes E s (E.lde s.mem s.addr) h2 hdis
    refine ⟨_, hstep, rfl, b0, by rw [b1]; omega, ?_, ?_⟩
    · intro hx
      rw [b2]
      have hb : E.bits = 32 := by simp [Env.bits, hx]
      rw [hb]
      exact disp32_roundtrip32 _ _ (ptrAdd_lt 32 _ _)
    · intro hx hlo hhi
      rw [b2]
      have hb : E.bits = 64 := by simp [Env.bits, hx]
      rw [hb]
      exact disp32_roundtrip64 _ _ (ptrAdd_lt 64 _ _) hlo hhi
  · intro h0 h1 h2 hdis
    have hstep : stubStep E s = some (relocJcc32 E s (E.lde s.mem s.addr)) := by
      unfold stubStep
      rw [if_neg hdec, if_neg (by omega), if_neg (by omega), if_pos ⟨h0, h1, h2⟩]
    obtain ⟨b0, b1, b2⟩ := relocJcc32_bytes E s (E.lde s.mem s.addr) hdis
    refine ⟨_, hstep, rfl, by rw [b0, h0], b1, ?_, ?_⟩
    · intro hx
      rw [b2]
      have hb : E.bits = 32 := by simp [Env.bits, hx]
      rw [hb]
      exact disp32_roundtrip32 _ _ (ptrAdd_lt 32 _ _)
    · intro hx hlo hhi
      rw [b2]
      have hb : E.bits = 64 := by simp [Env.bits, hx]
      rw [hb]
      exact disp32_roundtrip64 _ _ (ptrAdd_lt 64 _ _) hlo hhi

/-- Instance of C3 (amended): `74 10` at `0x1000` relocated to `0x2000` on the
32-bit build. -/
theorem relocated_transfer_keeps_target_witness :
    env32.lde sampleJccState.mem sampleJccState.addr ≠ 0
    ∧ ∃ s', stubStep env32 sampleJccState = some s'
        ∧ rd s'.mem sampleJccState.tramp = 0x0f
        ∧ rd s'.mem (sampleJccState.tramp + 1)
            = 0x80 + (rd sampleJccState.mem sampleJccState.addr - 0x70)
        ∧ ptrAdd 32 (sampleJccState.tramp + 6)
              (sext32 (rd32 s'.mem (sampleJccState.tramp + 2)))
            = ptrAdd 32 sampleJccState.addr
                (sext8 (rd sampleJccState.mem (sampleJccState.addr + 1)) + 2) :=
  ⟨by decide,
    match (relocated_transfer_keeps_target env32 sampleJccState (by decide)).2.2.2.1
      (by decide) (by decide) (by decide) with
    | ⟨s', h1, _, h3, h4, h5, _⟩ => ⟨s', h1, h3, h4, h5 rfl⟩⟩

/-! ## C4: the decision of `hook_in_monitor` -/

theorem loadHookFrom_step (C : MonitorCfg) (addrs : List Nat) (k : Nat)
    (hk : k < addrs.length) :
    loadHookFrom C addrs k
      = loadHookFrom C addrs (k + 1)
        + (if isLoadHookFrame C (addrs.getD k 0) = true then 1 else 0) := by
  unfold loadHookFrom
  have : addrs.length - k = (addrs.length - (k + 1)) + 1 := by omega
  rw [this, List.range'_succ, List.countP_cons]

theorem plainFrom_step (C : MonitorCfg) (addrs : List Nat) (k : Nat)
    (hk : k < addrs.length) :
    plainFrom C addrs k
      = plainFrom C addrs (k + 1)
        + (if isPlainMonitorFrame C (addrs.getD k 0) = true then 1 else 0) := by
  unfold plainFrom
  have : addrs.length - k = (addrs.length - (k + 1)) + 1 := by omega
  rw [this, List.range'_succ, List.countP_cons]

theorem escapedFrom_step (C : MonitorCfg) (addrs : List Nat) (k : Nat)
    (hk : k < addrs.length) :
    escapedFrom C addrs k
      = escapedFrom C addrs (k + 1)
        + (if (!inMonitor C (addrs.getD k 0) && outsideLoader C (addrs.getD k 0)
              && (List.range' (k + 1) (addrs.length - (k + 1))).any
                  (fun j => isLoadHookFrame C (addrs.getD j 0))) = true then 1 else 0) := by
  unfold escapedFrom
  have : addrs.length - k = (addrs.length - (k + 1)) + 1 := by omega
  rw [this, List.range'_succ, List.countP_cons]

theorem any_loadHook_iff (C : MonitorCfg) (addrs : List Nat) (k : Nat) :
    (List.range' k (addrs.length - k)).any (fun j => isLoadHookFrame C (addrs.getD j 0)) = true
      ↔ loadHookFrom C addrs k ≠ 0 := by
  unfold loadHookFrom
  rw [List.any_eq_true, Nat.ne_zero_iff_zero_lt, List.countP_pos_iff]

/-- One pass of the scanning loop adds to each counter the indicator of its
defining condition. -/
theorem scanFrame_indicator (C : MonitorCfg) (a L O M : Nat) (older : Bool)
    (hold : older = true ↔ L ≠ 0) :
    scanFrame C a ⟨L, O, M⟩
      = ⟨L + (if isLoadHookFrame C a = true then 1 else 0),
         O + (if (!inMonitor C a && outsideLoader C a && older) = true then 1 else 0),
         M + (if isPlainMonitorFrame C a = true then 1 else 0)⟩ := by
  unfold scanFrame isLoadHookFrame isPlainMonitorFrame inMonitor outsideLoader
  by_cases hmon : C.g_monitor_start ≤ a ∧ a < C.g_monitor_end
  · have n1 : ¬ a < C.g_monitor_start := by omega
    have n2 : ¬ C.g_monitor_end ≤ a := by omega
    by_cases hl : a = C.g_Old_LdrLoadDll_address
    · simp [hmon, n1, n2, ← hl]
    · simp [hmon, n1, n2, hl]
  · by_cases hout : a < C.g_ntdll_start ∨ a > C.g_ntdll_end
    · by_cases hL : L = 0
      · have : older = false := by
          rw [Bool.eq_false_iff]; exact fun h => (hold.mp h) hL
        simp [hmon, hout, hL, this]
      · have : older = true := hold.mpr hL
        simp [hmon, hout, hL, this]
    · simp [hmon, hout]

/-- One pass of the scanning loop moves the counters from "indices above `k`" to
"indices from `k` on". -/
theorem scanFrame_countsFrom (C : MonitorCfg) (addrs : List Nat) (k : Nat)
    (hk : k < addrs.length) :
    scanFrame C (addrs.getD k 0) (countsFrom C addrs (k + 1)) = countsFrom C addrs k := by
  unfold countsFrom
  rw [loadHookFrom_step C addrs k hk, plainFrom_step C addrs k hk,
    escapedFrom_step C addrs k hk]
  exact scanFrame_indicator C _ _ _ _ _ (any_loadHook_iff C addrs (k + 1))

/-- The scanning loop entered at index `idx` with the counters of the indices
above `idx` ends with the counters of the indices from 2 on. -/
theorem scanLoop_countsFrom (C : MonitorCfg) (addrs : List Nat)
    (hcap : addrs.length ≤ C.RETADDRCNT) (idx : Nat) (h1 : 1 ≤ idx)
    (hidx : idx < addrs.length) :
    scanLoop C addrs idx (countsFrom C addrs (idx + 1)) = countsFrom C addrs 2 := by
  induction idx with
  | zero => omega
  | succ idx ih =>
    unfold scanLoop
    by_cases h2 : 2 ≤ idx + 1
    · rw [if_pos ⟨h2, by omega⟩, scanFrame_countsFrom C addrs (idx + 1) hidx]
      exact ih (by omega) (by omega)
    · rw [if_neg (fun h => h2 h.1)]
      have : idx = 0 := by omega
      subst this
      rfl

theorem countsFrom_end (C : MonitorCfg) (addrs : List Nat) (k : Nat)
    (hk : addrs.length ≤ k) : countsFrom C addrs k = ⟨0, 0, 0⟩ := by
  have : addrs.length - k = 0 := by omega
  simp [countsFrom, loadHookFrom, escapedFrom, plainFrom, this]

/-- The counters the code accumulates are the counters of the specification. -/
theorem scanLoop_eq_spec (C : MonitorCfg) (addrs : List Nat) (h1 : 1 ≤ addrs.length)
    (hcap : addrs.length ≤ C.RETADDRCNT) :
    scanLoop C addrs (addrs.length - 1) ⟨0, 0, 0⟩ = countsFrom C addrs 2 := by
  by_cases h2 : addrs.length = 1
  · rw [h2]
    simp only [Nat.sub_self, scanLoop]
    exact (countsFrom_end C addrs 2 (by omega)).symm
  · have := scanLoop_countsFrom C addrs hcap (addrs.length - 1) (by omega) (by omega)
    rw [show addrs.length - 1 + 1 = addrs.length by omega,
      countsFrom_end C addrs addrs.length (le_refl _)] at this
    exact this

/-- C4: for a trace of `count` frames, `1 ≤ count ≤ RETADDRCNT`, the counters the
scanning loop of `hook_in_monitor` accumulates are `L` (frames at indices
`count-1 .. 2` inside the monitor range that equal the load-hook return address),
`O` (frames outside the monitor range and outside the loader range that are
scanned after a load-hook frame) and `M` (the other frames inside the monitor
range); the function returns 0 exactly when `L = 0 ∧ M = 1` or
`L ≠ 0 ∧ O ≠ 0 ∧ L = M`, and 1 otherwise; its result is 0 or 1. -/
theorem hook_in_monitor_decision (C : MonitorCfg) (addrs : List Nat)
    (h1 : 1 ≤ addrs.length) (hcap : addrs.length ≤ C.RETADDRCNT) :
    scanLoop C addrs (addrs.length - 1) ⟨0, 0, 0⟩
        = ⟨specL C addrs, specO C addrs, specM C addrs⟩
    ∧ (hook_in_monitor C addrs = 0 ↔
        (specL C addrs = 0 ∧ specM C addrs = 1)
        ∨ (specL C addrs ≠ 0 ∧ specO C addrs ≠ 0 ∧ specL C addrs = specM C addrs))
    ∧ (hook_in_monitor C addrs ≠ 0 → hook_in_monitor C addrs = 1)
    ∧ (hook_in_monitor C addrs = 0 ∨ hook_in_monitor C addrs = 1) := by
  have hs := scanLoop_eq_spec C addrs h1 hcap
  have hne : ¬ addrs.length = 0 := by omega
  refine ⟨hs, ?_, ?_, ?_⟩
  all_goals
    unfold hook_in_monitor
    rw [if_neg hne]
    simp only [hs, countsFrom, specL, specM, specO]
    split_ifs <;> simp_all <;> omega

/-- Instance of C4: a trace of five frames whose oldest frames are the plain
monitor frame `0x10000040` and two frames of the hooked program. -/
theorem hook_in_monitor_decision_witness :
    hook_in_monitor sampleCfg [0x10000010, 0x10000020, 0x10000040, 0x401000, 0x402000] = 0 ∨
    hook_in_monitor sampleCfg [0x10000010, 0x10000020, 0x10000040, 0x401000, 0x402000] = 1 :=
  (hook_in_monitor_decision sampleCfg
    [0x10000010, 0x10000020, 0x10000040, 0x401000, 0x402000] (by decide) (by decide)).2.2.2

/-! ## C5: traces without monitor frames -/

theorem scanLoop_no_monitor (C : MonitorCfg) (addrs : List Nat)
    (h : ∀ a ∈ addrs, ¬ (C.g_monitor_start ≤ a ∧ a < C.g_monitor_end)) (idx : Nat)
    (hidx : idx < addrs.length) : scanLoop C addrs idx ⟨0, 0, 0⟩ = ⟨0, 0, 0⟩ := by
  induction idx with
  | zero => rfl
  | succ idx ih =>
    unfold scanLoop
    split_ifs
    · have hmem : addrs.getD (idx + 1) 0 ∈ addrs := by
        rw [List.getD_eq_getElem _ _ hidx]
        exact List.getElem_mem hidx
      have hs : scanFrame C (addrs.getD (idx + 1) 0) ⟨0, 0, 0⟩ = ⟨0, 0, 0⟩ := by
        unfold scanFrame
        rw [if_neg (h _ hmem)]
        simp
      rw [hs]
      exact ih (by omega)
    · rfl

/-- C5, as stated, fails: a trace of three frames of the hooked program, none of
them inside the monitor range, gives 1. -/
theorem hook_in_monitor_no_monitor_frames_gives_one :
    (∀ a ∈ [0x401000, 0x402000, 0x403000],
        ¬ (sampleCfg.g_monitor_start ≤ a ∧ a < sampleCfg.g_monitor_end))
    ∧ hook_in_monitor sampleCfg [0x401000, 0x402000, 0x403000] = 1 := by
  decide

/-- C5 (amended): for a captured trace in which no return address lies inside the
monitor module's range, `hook_in_monitor` returns 0 when the trace is empty and 1
when it is not. -/
theorem hook_in_monitor_without_monitor_frames (C : MonitorCfg) (addrs : List Nat)
    (h : ∀ a ∈ addrs, ¬ (C.g_monitor_start ≤ a ∧ a < C.g_monitor_end)) :
    hook_in_monitor C addrs = if addrs.length = 0 then 0 else 1 := by
  unfold hook_in_monitor
  by_cases h0 : addrs.length = 0
  · rw [if_pos h0, if_pos h0]
  · rw [if_neg h0, if_neg h0, scanLoop_no_monitor C addrs h _ (by omega)]
    simp

/-- Instance of C5 (amended). -/
theorem hook_in_monitor_without_monitor_frames_witness :
    hook_in_monitor sampleCfg [0x401000, 0x402000]
      = if [0x401000, 0x402000].length = 0 then 0 else 1 :=
  hook_in_monitor_without_monitor_frames sampleCfg [0x401000, 0x402000] (by decide)

/-! ## C6: the window of the closeby allocator -/

theorem closeby_ptr_fst (last_ptr size : Nat) :
    (_hook_alloc_closeby_ptr last_ptr size).1 = last_ptr := by
  unfold _hook_alloc_closeby_ptr
  simp only
  split_ifs <;> rfl

theorem probeAddr_succ (M : MemEnv) (target k : Nat) :
    (probeAddr M target k + M.dwAllocationGranularity) % 2 ^ 64
      = probeAddr M target (k + 1) := by
  unfold probeAddr
  rw [Nat.succ_mul]
  norm_num
  omega

/-- A pointer handed out by the scanning loop is the base address reported for
one of the probed addresses. -/
theorem closebyScan_base (M : MemEnv) (size hi target : Nat) (st st' : ClosebyState)
    (p : Nat) (fuel j : Nat)
    (h : closebyScan M size hi st fuel (probeAddr M target j) = some (p, st'))
    (hp : p ≠ 0) :
    ∃ k mbi, probeAddr M target k < hi
      ∧ M.virtual_query (probeAddr M target k) = some mbi ∧ mbi.State = MEM_FREE
      ∧ M.virtual_alloc (probeAddr M target k) mbi.BaseAddress = true
      ∧ p = mbi.BaseAddress := by
  induction fuel generalizing j with
  | zero =>
    unfold closebyScan at h
    split_ifs at h
    simp only [Option.some.injEq, Prod.mk.injEq] at h
    exact absurd h.1.symm hp
  | succ fuel ih =>
    unfold closebyScan at h
    split_ifs at h with hlt
    · rw [probeAddr_succ] at h
      cases hq : M.virtual_query (probeAddr M target j) with
      | none =>
        rw [hq] at h
        exact ih (j + 1) h
      | some mbi =>
        rw [hq] at h
        simp only at h
        split_ifs at h with hfree halloc
        · exact ih (j + 1) h
        · exact ih (j + 1) h
        · simp only [Option.some.injEq, Prod.mk.injEq, closeby_ptr_fst] at h
          exact ⟨j, mbi, hlt, hq, not_not.mp hfree, by simpa using halloc, h.1.symm⟩
    · simp only [Option.some.injEq, Prod.mk.injEq] at h
      exact absurd h.1.symm hp

theorem u64_lt (x : Int) : u64 x < 2 ^ 64 := by
  unfold u64
  norm_num
  omega

theorem probeAddr_zero (M : MemEnv) (target : Nat) :
    probeAddr M target 0 = u64 ((target : Int) - (CLOSEBY_RANGE : Int)) := by
  unfold probeAddr
  rw [Nat.zero_mul, Nat.add_zero, Nat.mod_eq_of_lt (u64_lt _)]

/-- The test on the remembered pointer implies the window, for a 64-bit target. -/
theorem bump_in_window (target p : Nat) (ht : target < 2 ^ 64)
    (h1 : u64 ((target : Int) - (CLOSEBY_RANGE : Int)) ≤ p)
    (h2 : p < u64 ((target : Int) + (CLOSEBY_RANGE : Int))) : inCloseby target p := by
  unfold inCloseby
  unfold u64 at h1 h2
  unfold CLOSEBY_RANGE at *
  norm_num at ht h1 h2 ⊢
  omega

/-- C6, as stated, fails: for the target `0x20010800` the first probe is
`0x10800`; a query that reports the base `0x10000` of the page holding the probe
makes `_hook_alloc_closeby` return `0x10000`, below `target - CLOSEBY_RANGE`. -/
theorem hook_alloc_closeby_below_window :
    (_hook_alloc_closeby pageRoundingEnv closebyFresh 0x20010800 16 1).map Prod.fst
      = some 0x10000
    ∧ ¬ inCloseby 0x20010800 0x10000 := by
  refine ⟨by decide, ?_⟩
  unfold inCloseby CLOSEBY_RANGE
  norm_num

/-- C6 (amended): for a 64-bit target and every behaviour of the memory query and
reservation primitives, a non-NULL pointer `p` returned by
`_hook_alloc_closeby(target, size)` is either the remembered bump pointer, and
then `target - CLOSEBY_RANGE ≤ p < target + CLOSEBY_RANGE`, or the base address
the query reported for a free, reservable region at one of the probed addresses;
so `p` is inside the window whenever the base addresses reported for the probes
are. -/
theorem hook_alloc_closeby_window (M : MemEnv) (st st' : ClosebyState)
    (target size fuel p : Nat) (ht : target < 2 ^ 64)
    (h : _hook_alloc_closeby M st target size fuel = some (p, st')) (hp : p ≠ 0) :
    ((p = st.last_ptr ∧ inCloseby target p)
      ∨ ∃ k mbi, probeAddr M target k < u64 ((target : Int) + (CLOSEBY_RANGE : Int))
          ∧ M.virtual_query (probeAddr M target k) = some mbi ∧ mbi.State = MEM_FREE
          ∧ M.virtual_alloc (probeAddr M target k) mbi.BaseAddress = true
          ∧ p = mbi.BaseAddress)
    ∧ ((∀ k mbi, M.virtual_query (probeAddr M target k) = some mbi →
          mbi.State = MEM_FREE → inCloseby target mbi.BaseAddress) →
        inCloseby target p) := by
  have key : (p = st.last_ptr ∧ inCloseby target p)
      ∨ ∃ k mbi, probeAddr M target k < u64 ((target : Int) + (CLOSEBY_RANGE : Int))
          ∧ M.virtual_query (probeAddr M target k) = some mbi ∧ mbi.State = MEM_FREE
          ∧ M.virtual_alloc (probeAddr M target k) mbi.BaseAddress = true
          ∧ p = mbi.BaseAddress := by
    unfold _hook_alloc_closeby at h
    split_ifs at h with hc
    · simp only [Option.some.injEq, Prod.mk.injEq, closeby_ptr_fst] at h
      left
      exact ⟨h.1.symm, h.1 ▸ bump_in_window target st.last_ptr ht hc.2.1 hc.2.2⟩
    · right
      rw [← probeAddr_zero M target] at h
      exact closebyScan_base M size _ target st st' p fuel 0 h hp
  refine ⟨key, fun hq => ?_⟩
  rcases key with ⟨-, hw⟩ | ⟨k, mbi, -, hk, hfree, -, rfl⟩
  · exact hw
  · exact hq k mbi hk hfree

/-- Instance of C6 (amended): with a page remembered at `0x30000000`, a request
for a target at `0x30000100` is served from it. -/
theorem hook_alloc_closeby_window_witness :
    (0x30000000 = closebyWarm.last_ptr ∧ inCloseby 0x30000100 0x30000000)
      ∨ ∃ k mbi, probeAddr pageRoundingEnv 0x30000100 k
            < u64 (((0x30000100 : Nat) : Int) + (CLOSEBY_RANGE : Int))
          ∧ pageRoundingEnv.virtual_query (probeAddr pageRoundingEnv 0x30000100 k) = some mbi
          ∧ mbi.State = MEM_FREE
          ∧ pageRoundingEnv.virtual_alloc (probeAddr pageRoundingEnv 0x30000100 k)
              mbi.BaseAddress = true
          ∧ 0x30000000 = mbi.BaseAddress :=
  (hook_alloc_closeby_window pageRoundingEnv closebyWarm
    { closebyWarm with last_ptr := (_hook_alloc_closeby_ptr 0x30000000 16).2 }
    0x30000100 16 0 0x30000000 (by norm_num) (by rfl) (by decide)).1

/-! ## C7: the resolver stops within its bound -/

theorem resolveLoop_followed (x64 : Bool) (R : Nat → Nat → Bool) (m : Mem) (h : hook_t)
    (left addr : Nat) (regions : List (Nat × Nat)) (f : Nat) :
    (resolveLoop x64 R m h left addr regions f).followed ≤ f + left := by
  induction left generalizing addr regions f with
  | zero => simp [resolveLoop]
  | succ left ih =>
    unfold resolveLoop
    cases resolveStep x64 R m addr with
    | goto a rs =>
      have := ih a (regions ++ rs) (f + 1)
      simp only
      omega
    | unreadable rs => simp only; omega
    | stop => simp only; omega

/-- When every one of the `left` passes follows an indirection, the loop runs to
its bound and the function returns -1. -/
theorem resolveLoop_exhausted (x64 : Bool) (R : Nat → Nat → Bool) (m : Mem) (h : hook_t)
    (left addr b : Nat) (regions : List (Nat × Nat)) (f : Nat)
    (hit : resolveIter x64 R m left addr = some b) :
    (resolveLoop x64 R m h left addr regions f).ret = -1 := by
  induction left generalizing addr regions f with
  | zero => simp [resolveLoop]
  | succ left ih =>
    unfold resolveLoop
    unfold resolveIter at hit
    cases hs : resolveStep x64 R m addr with
    | goto a rs =>
      rw [hs] at hit
      exact ih a (regions ++ rs) (f + 1) hit
    | unreadable rs => rw [hs] at hit; simp at hit
    | stop => rw [hs] at hit; simp at hit

theorem resolveIter_add (x64 : Bool) (R : Nat → Nat → Bool) (m : Mem) (i j a : Nat) :
    resolveIter x64 R m (i + j) a
      = (resolveIter x64 R m i a).bind (resolveIter x64 R m j) := by
  induction i generalizing a with
  | zero => simp [resolveIter]
  | succ i ih =>
    have : i + 1 + j = (i + j) + 1 := by omega
    rw [this]
    simp only [resolveIter]
    cases resolveStep x64 R m a with
    | goto a' rs => exact ih a'
    | unreadable rs => rfl
    | stop => rfl

/-- A chain that is followed for `i + j` passes is followed for `i` passes. -/
theorem resolveIter_initial (x64 : Bool) (R : Nat → Nat → Bool) (m : Mem) (i j a b : Nat)
    (h : resolveIter x64 R m (i + j) a = some b) :
    ∃ c, resolveIter x64 R m i a = some c := by
  rw [resolveIter_add] at h
  cases hc : resolveIter x64 R m i a with
  | none => rw [hc] at h; simp at h
  | some c => exact ⟨c, rfl⟩

/-- From an address on a cycle the chain can be followed for any number of
passes. -/
theorem resolveIter_cycle (x64 : Bool) (R : Nat → Nat → Bool) (m : Mem) (k a : Nat)
    (hk : 1 ≤ k) (hcyc : resolveIter x64 R m k a = some a) (n : Nat) :
    ∃ c, resolveIter x64 R m n a = some c := by
  induction n using Nat.strong_induction_on with
  | _ n ih =>
    by_cases hn : n < k
    · have : k = n + (k - n) := by omega
      rw [this] at hcyc
      exact resolveIter_initial x64 R m n (k - n) a a hcyc
    · have : n = k + (n - k) := by omega
      rw [this, resolveIter_add, hcyc]
      exact ih (n - k) (by omega)

theorem resolveStep_self_jump (x64 : Bool) (R : Nat → Nat → Bool) (m : Mem) (a : Nat)
    (ha : a < 2 ^ (if x64 then 64 else 32)) (h0 : rd m a = 0xeb) (h1 : rd m (a + 1) = 0xfe) :
    resolveStep x64 R m a = ResolveStep.goto a [(a, 2)] := by
  unfold resolveStep
  rw [if_pos h0, h1]
  have : ptrAdd (if x64 then 64 else 32) a (2 + sext8 0xfe) = a := by
    unfold ptrAdd sext8
    cases x64 <;> norm_num at ha ⊢ <;> omega
  rw [this]

/-- C7: for every memory image `_hook_determine_start` returns after following at
most 50 indirections; when the chain that starts at `h->addr` leads (after any
number of stubs) to an address from which it comes back to that same address, the
function returns -1; in particular it returns -1 when `h->addr` holds `eb fe`, a
short jump to itself. -/
theorem hook_determine_start_bounded (x64 : Bool) (R : Nat → Nat → Bool) (m : Mem)
    (h : hook_t) :
    (_hook_determine_start x64 R m h).followed ≤ 50
    ∧ (∀ p k a, 1 ≤ k → resolveIter x64 R m p h.addr = some a →
        resolveIter x64 R m k a = some a → (_hook_determine_start x64 R m h).ret = -1)
    ∧ (h.addr < 2 ^ (if x64 then 64 else 32) → rd m h.addr = 0xeb →
        rd m (h.addr + 1) = 0xfe → (_hook_determine_start x64 R m h).ret = -1) := by
  have cyc : ∀ p k a, 1 ≤ k → resolveIter x64 R m p h.addr = some a →
      resolveIter x64 R m k a = some a → (_hook_determine_start x64 R m h).ret = -1 := by
    intro p k a hk hp hcyc
    have hall : ∀ n, ∃ c, resolveIter x64 R m (p + n) h.addr = some c := by
      intro n
      rw [resolveIter_add, hp]
      exact resolveIter_cycle x64 R m k a hk hcyc n
    obtain ⟨c, hc⟩ := hall MAXRESOLVECNT
    rw [Nat.add_comm] at hc
    obtain ⟨d, hd⟩ := resolveIter_initial x64 R m MAXRESOLVECNT p h.addr c hc
    exact resolveLoop_exhausted x64 R m h MAXRESOLVECNT h.addr d [] 0 hd
  refine ⟨?_, cyc, ?_⟩
  · have := resolveLoop_followed x64 R m h MAXRESOLVECNT h.addr [] 0
    unfold _hook_determine_start
    unfold MAXRESOLVECNT at this ⊢
    omega
  · intro ha h0 h1
    refine cyc 0 1 h.addr (le_refl _) rfl ?_
    simp [resolveIter, resolveStep_self_jump x64 R m h.addr ha h0 h1]

/-- Instance of C7: `eb fe` at `0x1000` on the 32-bit build. -/
theorem hook_determine_start_bounded_witness :
    (_hook_determine_start false lowReadable (image 0x1000 [0xeb, 0xfe]) sampleHook).ret = -1 :=
  (hook_determine_start_bounded false lowReadable (image 0x1000 [0xeb, 0xfe])
    sampleHook).2.2 (by decide) (by decide) (by decide)

/-! ## C8: a pointer that is not readable yet -/

/-- Meeting an unreadable pointer after `p` followed stubs ends the function with
return value 0 and the descriptor untouched. -/
theorem resolveLoop_unreadable (x64 : Bool) (R : Nat → Nat → Bool) (m : Mem) (h : hook_t)
    (p r addr a : Nat) (rs regions : List (Nat × Nat)) (f : Nat)
    (hp : resolveIter x64 R m p addr = some a)
    (hs : resolveStep x64 R m a = ResolveStep.unreadable rs) :
    (resolveLoop x64 R m h (p + (r + 1)) addr regions f).ret = 0
    ∧ (resolveLoop x64 R m h (p + (r + 1)) addr regions f).hook = h := by
  induction p generalizing addr regions f with
  | zero =>
    simp only [resolveIter, Option.some.injEq] at hp
    subst hp
    rw [Nat.zero_add]
    unfold resolveLoop
    rw [hs]
    exact ⟨rfl, rfl⟩
  | succ p ih =>
    have : p + 1 + (r + 1) = (p + (r + 1)) + 1 := by omega
    rw [this]
    unfold resolveLoop
    unfold resolveIter at hp
    cases hst : resolveStep x64 R m addr with
    | goto a' rs' =>
      rw [hst] at hp
      exact ih a' (regions ++ rs') (f + 1) hp
    | unreadable rs' => rw [hst] at hp; simp at hp
    | stop => rw [hst] at hp; simp at hp

/-- C8, as stated, fails: for the stub `ff 25` at `0x1000` whose pointer slot holds
the unreadable address `0x7fff0000`, `_hook_determine_start` returns 0 and leaves
the descriptor as it was, which is exactly what it returns for an ordinary function
at `0x1000` that it resolves successfully. -/
theorem hook_determine_start_unreadable_looks_like_success :
    resolveStep false lowReadable stubImage sampleHook.addr
        = ResolveStep.unreadable [(0x1000, 6)]
    ∧ (_hook_determine_start false lowReadable stubImage sampleHook).ret = 0
    ∧ (_hook_determine_start false lowReadable stubImage sampleHook).hook = sampleHook
    ∧ resolveStep false lowReadable plainImage sampleHook.addr = ResolveStep.stop
    ∧ (_hook_determine_start false lowReadable plainImage sampleHook).ret = 0
    ∧ (_hook_determine_start false lowReadable plainImage sampleHook).hook = sampleHook := by
  decide

/-- C8 (amended): when `_hook_determine_start`, after following fewer than 50
stubs, meets a jump-through-pointer stub (`ff 25`) whose pointer slot holds an
address that is not readable, it returns 0, the value it returns for a successful
resolution, and leaves the descriptor, `h->addr` included, at its entry value. -/
theorem hook_determine_start_unreadable (x64 : Bool) (R : Nat → Nat → Bool) (m : Mem)
    (h : hook_t) (p a : Nat) (rs : List (Nat × Nat)) (hp50 : p < MAXRESOLVECNT)
    (hp : resolveIter x64 R m p h.addr = some a)
    (hs : resolveStep x64 R m a = ResolveStep.unreadable rs) :
    (rd m a = 0xff ∧ rd m (a + 1) = 0x25)
    ∧ (_hook_determine_start x64 R m h).ret = 0
    ∧ (_hook_determine_start x64 R m h).hook = h := by
  refine ⟨?_, ?_⟩
  · unfold resolveStep at hs
    by_cases h1 : rd m a = 0xeb
    · rw [if_pos h1] at hs
      cases hs
    · rw [if_neg h1] at hs
      by_cases h2 : rd m a = 0xff ∧ rd m (a + 1) = 0x25
      · exact h2
      · rw [if_neg h2] at hs
        split_ifs at hs
  · unfold _hook_determine_start
    have : MAXRESOLVECNT = p + ((MAXRESOLVECNT - p - 1) + 1) := by omega
    rw [this]
    exact resolveLoop_unreadable x64 R m h p _ h.addr a rs [] 0 hp hs

/-- Instance of C8 (amended): the stub image above. -/
theorem hook_determine_start_unreadable_witness :
    (rd stubImage 0x1000 = 0xff ∧ rd stubImage (0x1000 + 1) = 0x25)
    ∧ (_hook_determine_start false lowReadable stubImage sampleHook).ret = 0
    ∧ (_hook_determine_start false lowReadable stubImage sampleHook).hook = sampleHook :=
  hook_determine_start_unreadable false lowReadable stubImage sampleHook 0 0x1000
    [(0x1000, 6)] (by decide) (by rfl) (by decide)

/-! ## C9: the default stub of a missing hook -/

/-- C9 (the code at the failing input): for the export `Sleep`, absent from the
static table and from the exclusion list, the installation succeeds (`Hook`
appends the node and `hook` returns 1), and `_hook_missing_hooks_worker`, which
emits the stub only when `hook` returns 0, emits no byte: the handler memory it
took from the slab is left as it was. -/
theorem missing_hook_stub_not_written :
    (hook vehOk vehFresh missingHook).1 = 1
    ∧ (hook vehOk vehFresh missingHook).2.1.is_hooked = 1
    ∧ missingRun.allocated = true
    ∧ missingRun.hookCalled = true
    ∧ missingRun.veh.first = [(0x77001000, 0x30000)]
    ∧ missingRun.emitted = []
    ∧ rd missingRun.mem 0x30000 = 0 := by
  decide

/-! ## C10: the bytes `hook_create_jump` changes -/

theorem wrBytes_get (bs : List Nat) (m : Mem) (a i : Nat) (hi : i < bs.length) :
    wrBytes m a bs (a + i) = bs.getD i 0 % 256 := by
  induction bs generalizing m a i with
  | nil => simp at hi
  | cons b bs ih =>
    cases i with
    | zero =>
      simp only [wrBytes, Nat.add_zero, List.getD_cons_zero]
      rw [wrBytes_frame _ _ _ _ (by omega)]
      simp [wr]
    | succ i =>
      simp only [wrBytes, List.getD_cons_succ]
      have : a + (i + 1) = (a + 1) + i := by omega
      rw [this]
      exact ih _ _ _ (by simpa using hi)

theorem memset_get (m : Mem) (a v n i : Nat) (hi : i < n) :
    rd (memset m a v n) (a + i) = v % 256 := by
  unfold memset rd
  rw [wrBytes_get _ _ _ _ (by simpa using hi)]
  simp [List.getD_eq_getElem?_getD, List.getElem?_replicate, hi]

theorem memset_frame (m : Mem) (a v n x : Nat) (h : x < a ∨ a + n ≤ x) :
    memset m a v n x = m x := by
  unfold memset
  exact wrBytes_frame _ _ _ _ (by simpa using h)

/-- C10: for a descriptor whose `stub_used - skip` (an `int`) is at least the
length of the encoding `asm_jump_32bit` writes, a successful 32-bit
`hook_create_jump` touches only the `n = stub_used - skip` bytes from
`a = addr + skip` on: after the trap fill every byte of `[a, a + n)` is `cc`; on
return the range holds the jump encoding followed by `cc` in every remaining
position; every byte outside `[a, a + n)`, the `skip` leading bytes included, has
its entry value in both states. -/
theorem hook_create_jump_footprint (E : Env) (virtual_protect : Nat → Int → Nat → Bool)
    (h : hook_t) (m : Mem)
    (hok : virtual_protect (h.addr + h.skip) (h.stub_used - (h.skip : Int))
      PAGE_EXECUTE_READWRITE = true)
    (hfit : ((E.asm_jump_32bit (h.addr + h.skip) h.handler).length : Int)
      ≤ h.stub_used - (h.skip : Int))
    (hint : h.stub_used - (h.skip : Int) < 2147483648) :
    (hook_create_jump E virtual_protect h m).ret = 0
    ∧ (∀ i, i < (h.stub_used - (h.skip : Int)).toNat →
        rd (hook_create_jump E virtual_protect h m).afterFill (h.addr + h.skip + i) = 0xcc)
    ∧ (∀ i, i < (E.asm_jump_32bit (h.addr + h.skip) h.handler).length →
        rd (hook_create_jump E virtual_protect h m).final (h.addr + h.skip + i)
          = (E.asm_jump_32bit (h.addr + h.skip) h.handler).getD i 0 % 256)
    ∧ (∀ i, (E.asm_jump_32bit (h.addr + h.skip) h.handler).length ≤ i →
        i < (h.stub_used - (h.skip : Int)).toNat →
        rd (hook_create_jump E virtual_protect h m).final (h.addr + h.skip + i) = 0xcc)
    ∧ (∀ x, x < h.addr + h.skip
          ∨ h.addr + h.skip + (h.stub_used - (h.skip : Int)).toNat ≤ x →
        (hook_create_jump E virtual_protect h m).afterFill x = m x
        ∧ (hook_create_jump E virtual_protect h m).final x = m x) := by
  have hsz : toSizeT 32 (h.stub_used - (h.skip : Int)) = (h.stub_used - (h.skip : Int)).toNat := by
    unfold toSizeT
    norm_num
    omega
  have hlen : (E.asm_jump_32bit (h.addr + h.skip) h.handler).length
      ≤ (h.stub_used - (h.skip : Int)).toNat := by omega
  unfold hook_create_jump
  rw [if_neg (by simp [hok]), hsz]
  refine ⟨rfl, ?_, ?_, ?_, ?_⟩
  · intro i hi
    exact memset_get _ _ _ _ _ hi
  · intro i hi
    simp only [rd]
    rw [wrBytes_get _ _ _ _ hi, Nat.mod_mod]
  · intro i h1 h2
    simp only
    rw [rd_wrBytes_frame _ _ _ _ (by omega)]
    exact memset_get _ _ _ _ _ h2
  · intro x hx
    simp only
    rw [wrBytes_frame _ _ _ _ (by omega), memset_frame _ _ _ _ _ hx]
    exact ⟨rfl, rfl⟩

/-- Instance of C10: five bytes at `0x1000` patched with a five-byte jump to
`0x30000`. -/
theorem hook_create_jump_footprint_witness :
    (hook_create_jump env32 protectOk sampleHook plainImage).ret = 0
    ∧ (∀ i, i < (sampleHook.stub_used - (sampleHook.skip : Int)).toNat →
        rd (hook_create_jump env32 protectOk sampleHook plainImage).afterFill
          (sampleHook.addr + sampleHook.skip + i) = 0xcc) :=
  match hook_create_jump_footprint env32 protectOk sampleHook plainImage (by decide)
      (by decide) (by decide) with
  | ⟨h1, h2, _⟩ => ⟨h1, h2⟩

/-! ## C11: the first boundary at or beyond `len` -/

theorem addr_ge_step (E : Env) (addr : Nat) (s s' : StubState) (_hl : 0 < s.len)
    (h : stubStep E s = some s') (hs : addr ≤ s.addr) : addr ≤ s'.addr := by
  obtain ⟨-, hp⟩ := stubStep_spec E s s' h
  rw [hp.addr_eq]
  omega

theorem rd_lt (m : Mem) (a : Nat) : rd m a < 256 := by
  unfold rd
  omega

/-- The copy loop reproduces the source bytes when the two ranges do not overlap. -/
theorem copyInsn_get (n : Nat) (m : Mem) (t a j : Nat) (hd : t + n ≤ a ∨ a + n ≤ t)
    (hj : j < n) : rd (copyInsn m t a n) (t + j) = rd m (a + j) := by
  induction n generalizing m t a j with
  | zero => omega
  | succ n ih =>
    simp only [copyInsn]
    cases j with
    | zero =>
      simp only [Nat.add_zero]
      unfold rd
      rw [copyInsn_frame _ _ _ _ _ (by omega)]
      simp only [wr, if_true]
      omega
    | succ j =>
      have e1 : t + (j + 1) = (t + 1) + j := by omega
      have e2 : a + (j + 1) = (a + 1) + j := by omega
      rw [e1, e2, ih _ _ _ _ (by omega) (by omega), rd_wr_other _ _ _ _ (by omega)]

theorem stubIter_snoc (E : Env) (k : Nat) (s0 s s' : StubState)
    (h : stubIter E k s0 = some s) (hl : 0 < s.len) (hs : stubStep E s = some s') :
    stubIter E (k + 1) s0 = some s' := by
  induction k generalizing s0 with
  | zero =>
    simp only [stubIter, Option.some.injEq] at h
    subst h
    simp [stubIter, hl, hs]
  | succ k ih =>
    unfold stubIter at h ⊢
    split_ifs at h ⊢ with hl0
    cases hstp : stubStep E s0 with
    | none => simp [hstp] at h
    | some s1 =>
      rw [hstp] at h
      exact ih s1 h

/-- A decodable instruction that matches no rewritten shape and no return opcode
is copied. -/
theorem stubStep_regular (E : Env) (s : StubState) (h0 : E.lde s.mem s.addr ≠ 0)
    (hf : fixedLen E.x64 s.mem s.addr = none) (h3 : rd s.mem s.addr ≠ 0xc3)
    (h2 : rd s.mem s.addr ≠ 0xc2) :
    stubStep E s = some (copyRegular s (E.lde s.mem s.addr)) := by
  unfold fixedLen at hf
  unfold stubStep
  split_ifs at hf with c1 c2 c3 c4 c5 c6
  rw [if_neg h0, if_neg c1, if_neg c2, if_neg c3, if_neg c4, if_neg c5, if_neg c6,
    if_neg (fun h => h.1.elim h3 h2)]

theorem copyInv_step (E : Env) (m : Mem) (tramp addr : Nat) (len : Int)
    (hreg : ∀ k, k < len.toNat → ∀ s ∈ stubIter E k (stubInit m tramp addr len),
      regularPass E tramp addr s)
    (s s' : StubState) (hl : 0 < s.len) (h : stubStep E s = some s')
    (hs : CopyInv E m tramp addr len s) : CopyInv E m tramp addr len s' := by
  obtain ⟨⟨k, hk, hkl⟩, hw, hfr, ha, ht, hc, hb⟩ := hs
  have hklt : k < len.toNat := by
    have := hw.1
    have := hw.2
    omega
  obtain ⟨h0, hf, h3, h2, hdis⟩ := hreg k hklt s hk hl
  rw [stubStep_regular E s h0 hf h3 h2] at h
  simp only [Option.some.injEq] at h
  have hw' := walkInv_step E len s s' hl (by rw [stubStep_regular E s h0 hf h3 h2, h]) hw
  have hfr' := frameInv_step E m tramp s s' hl
    (by rw [stubStep_regular E s h0 hf h3 h2, h]) hfr
  have hk' := stubIter_snoc E k _ s s' hk hl (by rw [stubStep_regular E s h0 hf h3 h2, h])
  subst h
  have hsum : (copyRegular s (E.lde s.mem s.addr)).walked.sum
      = s.walked.sum + E.lde s.mem s.addr := by
    simp [copyRegular, StubState.next]
  refine ⟨⟨k + 1, hk', by simp [copyRegular, StubState.next, hkl]⟩, hw', hfr', ?_, ?_, ?_, ?_⟩
  · rw [hsum]; simp only [copyRegular, StubState.next]; omega
  · rw [hsum]; simp only [copyRegular, StubState.next]; omega
  · simpa [copyRegular, StubState.next] using hc
  · intro i hi
    rw [hsum] at hi
    simp only [copyRegular, StubState.next]
    by_cases hlt : i < s.walked.sum
    · unfold rd
      rw [copyInsn_frame _ _ _ _ _ (by omega)]
      exact hb i hlt
    · have e1 : tramp + i = s.tramp + (i - s.walked.sum) := by omega
      have e2 : addr + i = s.addr + (i - s.walked.sum) := by omega
      rw [e1, copyInsn_get _ _ _ _ _ (by omega) (by omega), e2]
      unfold rd
      rw [hfr.2 _ (by omega)]

theorem regularWalk_spec (E : Env) (m : Mem) (tramp addr : Nat) (len : Int)
    (h : regularWalk E m tramp addr len = true) :
    ∀ k, k < len.toNat → ∀ s ∈ stubIter E k (stubInit m tramp addr len),
      regularPass E tramp addr s := by
  intro k hk s hs
  unfold regularWalk at h
  rw [List.all_eq_true] at h
  have := h k (List.mem_range.mpr hk)
  rw [Option.mem_def] at hs
  rw [hs] at this
  exact of_decide_eq_true this

/-- C19: for every `len > 0`, when every instruction the walk of
`hook_create_stub(tramp, addr, len)` meets is a regular one (the decoder succeeds,
no relative jump, call, RIP-relative or return pattern matches, and its bytes do
not overlap the trampoline bytes written so far), the call succeeds with a count
`n ≥ len` equal to the sum of the instruction lengths, the first `n` bytes of the
trampoline equal the first `n` bytes of the source byte for byte, and they are
followed by the encoding of the one jump emitted, which targets `addr + n`.  Five
one-byte `nop`s with `len = 5` return 5 and the jump targets `addr + 5`. -/
theorem hook_create_stub_copies_regular (E : Env) (m : Mem) (tramp addr : Nat)
    (len : Int) (hlen : 0 < len) (hwalk : regularWalk E m tramp addr len = true) :
    (∃ n sf, hook_create_stub E m tramp addr len = StubResult.ok n sf
      ∧ len ≤ (n : Int) ∧ n = sf.walked.sum
      ∧ (∀ i, i < n → rd sf.mem (tramp + i) = rd m (addr + i))
      ∧ sf.calls = [⟨EmitKind.jump, tramp + n, addr + n⟩]
      ∧ sf.tramp = tramp + n + (E.asm_jump (tramp + n) (addr + n)).length
      ∧ (∀ i, i < (E.asm_jump (tramp + n) (addr + n)).length →
          rd sf.mem (tramp + n + i) = (E.asm_jump (tramp + n) (addr + n)).getD i 0 % 256))
      ∧ (hook_create_stub env32 (image 0x1000 [0x90, 0x90, 0x90, 0x90, 0x90]) 0x2000
            0x1000 5).ret = some 5
      ∧ (hook_create_stub env32 (image 0x1000 [0x90, 0x90, 0x90, 0x90, 0x90]) 0x2000
            0x1000 5).state.map (fun s => s.calls)
          = some [⟨EmitKind.jump, 0x2005, 0x1005⟩] := by
  refine ⟨?_, by decide, by decide⟩
  have hreg := regularWalk_spec E m tramp addr len hwalk
  have hinv := stubLoop_inv E (CopyInv E m tramp addr len)
    (copyInv_step E m tramp addr len hreg) len.toNat (stubInit m tramp addr len)
    ⟨⟨0, rfl, rfl⟩, walkInv_init m tramp addr len, frameInv_init m tramp addr len,
      by simp [stubInit], by simp [stubInit], rfl, by simp [stubInit]⟩
  unfold hook_create_stub
  cases hl : stubLoop E len.toNat (stubInit m tramp addr len) with
  | stuck t => exact absurd hl (stubLoop_not_stuck E _ _ t (le_refl _))
  | fail t =>
    rw [hl] at hinv
    obtain ⟨⟨⟨k, hk, hkl⟩, hw, -⟩, hpos, hnone⟩ := hinv
    have hklt : k < len.toNat := by
      have := hw.1
      have := hw.2
      omega
    obtain ⟨h0, hf, h3, h2, -⟩ := hreg k hklt t hk hpos
    rw [stubStep_regular E t h0 hf h3 h2] at hnone
    cases hnone
  | done t =>
    rw [hl] at hinv
    obtain ⟨⟨-, hw, -, ha, ht, hc, hb⟩, hdone⟩ := hinv
    have hn : t.addr - addr = t.walked.sum := by omega
    have hw1 := hw.1
    simp only [hn]
    refine ⟨t.walked.sum, _, rfl, by omega, rfl, ?_, ?_, ?_, ?_⟩
    · intro i hi
      simp only [rd]
      rw [wrBytes_frame _ _ _ _ (by omega)]
      exact hb i (by omega)
    · simp only [hc, List.nil_append, ht, ha]
    · simp only [ht, ha]
    · intro i hi
      simp only [← ht, ← ha] at hi ⊢
      simp only [rd]
      rw [wrBytes_get _ _ _ _ hi, Nat.mod_mod]

/-- Instance of C19: five one-byte `nop`s with `len = 5` return 5 and the jump
emitted targets `addr + 5`. -/
theorem hook_create_stub_copies_regular_witness :
    ∃ n sf, hook_create_stub env32 (image 0x1000 [0x90, 0x90, 0x90, 0x90, 0x90]) 0x2000
        0x1000 5 = StubResult.ok n sf
      ∧ (5 : Int) ≤ (n : Int) ∧ n = sf.walked.sum
      ∧ (∀ i, i < n → rd sf.mem (0x2000 + i)
          = rd (image 0x1000 [0x90, 0x90, 0x90, 0x90, 0x90]) (0x1000 + i))
      ∧ sf.calls = [⟨EmitKind.jump, 0x2000 + n, 0x1000 + n⟩]
      ∧ sf.tramp = 0x2000 + n + (env32.asm_jump (0x2000 + n) (0x1000 + n)).length
      ∧ (∀ i, i < (env32.asm_jump (0x2000 + n) (0x1000 + n)).length →
          rd sf.mem (0x2000 + n + i)
            = (env32.asm_jump (0x2000 + n) (0x1000 + n)).getD i 0 % 256) :=
  (hook_create_stub_copies_regular env32 (image 0x1000 [0x90, 0x90, 0x90, 0x90, 0x90])
    0x2000 0x1000 5 (by decide) (by decide)).1

/-! ## C12: relocation of RIP-relative `mov` and `lea` -/

/-- C12 (the code at the failing input): on the 64-bit build,
`mov r13, qword [rip+0x10]` (`4c 8b 2d 10 00 00 00`) at `0x1000` is relocated to
`49 bd` + the absolute address `0x1017` (ten bytes, `mov r13, imm64`) followed by
`4d 8b 2d`; the ModRM byte `2d` has `mod = 00` and `rm = 101`, which selects
RIP-relative addressing with a 32-bit displacement, not `[r13]`: the bytes that
follow in the trampoline (here the start of the jump back) are taken as the
displacement.  Of the 16 destination registers, the ModRM byte the code builds
is a register-indirect form for all but `rsp`, `rbp`, `r12` and `r13`. -/
theorem rip_relative_mov_r13_wrong_modrm :
    (hook_create_stub env64rip (image 0x1000 [0x4c, 0x8b, 0x2d, 0x10, 0, 0, 0, 0x90])
        0x2000 0x1000 5).ret = some 7
    ∧ (hook_create_stub env64rip (image 0x1000 [0x4c, 0x8b, 0x2d, 0x10, 0, 0, 0, 0x90])
        0x2000 0x1000 5).state.map (fun s => bytesAt s.mem 0x2000 15)
      = some [0x49, 0xbd, 0x17, 0x10, 0, 0, 0, 0, 0, 0, 0x4d, 0x8b, 0x2d, 0xff, 0x25]
    ∧ modrmForm 0x2d = ModRMForm.ripDisp32
    ∧ (∀ reg, reg < 16 →
        (modrmForm ((reg &&& 7) ||| ((reg &&& 7) <<< 3)) = ModRMForm.regIndirect
          ↔ reg % 8 ≠ 4 ∧ reg % 8 ≠ 5)) := by
  decide

/-! ## C13: one load-hook frame, one plain monitor frame, one escaped frame -/

theorem hook_in_monitor_of_counts (C : MonitorCfg) (addrs : List Nat)
    (h1 : 1 ≤ addrs.length) (hcap : addrs.length ≤ C.RETADDRCNT) :
    hook_in_monitor C addrs
      = if loadHookFrom C addrs 2 = 0 ∧ plainFrom C addrs 2 = 1 then 0
        else if loadHookFrom C addrs 2 ≠ 0 ∧ escapedFrom C addrs 2 ≠ 0
            ∧ loadHookFrom C addrs 2 = plainFrom C addrs 2 then 0
        else 1 := by
  unfold hook_in_monitor
  rw [if_neg (by omega), scanLoop_eq_spec C addrs h1 hcap]
  rfl

/-- C13, as stated, fails: the trace below holds exactly one load-hook frame
(index 2), exactly one other monitor frame (index 3) and one frame outside both
the monitor and the loader (index 4, the oldest, scanned first), and the result
is 1. -/
theorem hook_in_monitor_order_matters :
    [1, 2, 0x10001234, 0x10000040, 0x401000].countP (isLoadHookFrame sampleCfg) = 1
    ∧ [1, 2, 0x10001234, 0x10000040, 0x401000].countP (isPlainMonitorFrame sampleCfg) = 1
    ∧ [1, 2, 0x10001234, 0x10000040, 0x401000].any
        (fun a => !inMonitor sampleCfg a && outsideLoader sampleCfg a) = true
    ∧ hook_in_monitor sampleCfg [1, 2, 0x10001234, 0x10000040, 0x401000] = 1 := by
  decide

/-- C13 (amended): for every captured trace of at most `RETADDRCNT` frames that
holds, among the scanned frames (indices 2 and above), exactly one frame equal to
the recorded load-hook return address (inside the monitor range), exactly one
other frame inside the monitor range, and a frame outside both the monitor range
and the loader module's range at a scanned index below that of a load-hook frame
(so that it is scanned after it), `hook_in_monitor` returns 0. -/
theorem hook_in_monitor_load_hook_escape (C : MonitorCfg) (addrs : List Nat)
    (hcap : addrs.length ≤ C.RETADDRCNT) (hL : specL C addrs = 1)
    (hM : specM C addrs = 1) (i j : Nat) (hi : 2 ≤ i) (hij : i < j)
    (hj : j < addrs.length)
    (hout : inMonitor C (addrs.getD i 0) = false ∧ outsideLoader C (addrs.getD i 0) = true)
    (hld : isLoadHookFrame C (addrs.getD j 0) = true) :
    hook_in_monitor C addrs = 0 := by
  have hO : escapedFrom C addrs 2 ≠ 0 := by
    unfold escapedFrom
    rw [Nat.ne_zero_iff_zero_lt, List.countP_pos_iff]
    refine ⟨i, List.mem_range'_1.mpr (by omega), ?_⟩
    have hany : (List.range' (i + 1) (addrs.length - (i + 1))).any
        (fun j => isLoadHookFrame C (addrs.getD j 0)) = true := by
      rw [List.any_eq_true]
      exact ⟨j, List.mem_range'_1.mpr (by omega), hld⟩
    simp only [hout.1, hout.2, hany, Bool.not_false, Bool.and_self]
  unfold specL at hL
  unfold specM at hM
  rw [hook_in_monitor_of_counts C addrs (by omega) hcap, hL, hM]
  simp [hO]

/-- Instance of C13 (amended): load-hook frame oldest, then a frame of the hooked
program, then the plain monitor frame. -/
theorem hook_in_monitor_load_hook_escape_witness :
    hook_in_monitor sampleCfg [1, 2, 0x10000040, 0x401000, 0x10001234] = 0 :=
  hook_in_monitor_load_hook_escape sampleCfg [1, 2, 0x10000040, 0x401000, 0x10001234]
    (by decide) (by decide) (by decide) 3 4 (by decide) (by decide) (by decide)
    (by decide) (by decide)

/-! ## C14: a single plain monitor frame -/

theorem countP_index_eq (l : List Nat) (hl : l.Nodup) (p : Nat → Bool) (i : Nat)
    (hp : ∀ a ∈ l, (p a = true ↔ a = i)) :
    l.countP p = if i ∈ l then 1 else 0 := by
  have : l.countP p = l.count i := by
    unfold List.count
    apply List.countP_congr
    intro a ha
    rw [hp a ha]
    simp
  rw [this]
  split_ifs with h
  · exact List.count_eq_one_of_mem hl h
  · exact List.count_eq_zero_of_not_mem h

/-- C14, as stated, fails: the only monitor frame of the trace below, not the
load-hook address, sits at index 0, and the result is 1. -/
theorem hook_in_monitor_newest_frame_not_scanned :
    [0x10000040, 0x401000, 0x402000].countP (inMonitor sampleCfg) = 1
    ∧ isPlainMonitorFrame sampleCfg 0x10000040 = true
    ∧ hook_in_monitor sampleCfg [0x10000040, 0x401000, 0x402000] = 1 := by
  decide

/-- C14 (amended): for every captured trace of at most `RETADDRCNT` frames that
holds exactly one frame inside the monitor module's range, that frame not being
the load-hook return address, `hook_in_monitor` returns 0 when the frame sits at
an index of 2 or more, wherever that is, and 1 when it sits at index 0 or 1,
which the scan does not visit. -/
theorem hook_in_monitor_single_plain_frame (C : MonitorCfg) (addrs : List Nat)
    (hcap : addrs.length ≤ C.RETADDRCNT) (i : Nat) (hi : i < addrs.length)
    (hmon : isPlainMonitorFrame C (addrs.getD i 0) = true)
    (honly : ∀ j, j < addrs.length → j ≠ i → inMonitor C (addrs.getD j 0) = false) :
    hook_in_monitor C addrs = if 2 ≤ i then 0 else 1 := by
  have hmem : ∀ a, a ∈ List.range' 2 (addrs.length - 2) ↔ 2 ≤ a ∧ a < addrs.length := by
    intro a
    rw [List.mem_range'_1]
    omega
  have hL : loadHookFrom C addrs 2 = 0 := by
    unfold loadHookFrom
    rw [List.countP_eq_zero]
    intro a ha
    by_cases hai : a = i
    · subst hai
      unfold isPlainMonitorFrame at hmon
      unfold isLoadHookFrame
      simp only [Bool.and_eq_true, Bool.not_eq_true', decide_eq_false_iff_not] at hmon
      simp [-List.getD_eq_getElem?_getD, hmon.2]
    · have := honly a ((hmem a).mp ha).2 hai
      simp [-List.getD_eq_getElem?_getD, isLoadHookFrame, this]
  have hM : plainFrom C addrs 2 = if 2 ≤ i then 1 else 0 := by
    unfold plainFrom
    rw [countP_index_eq _ (List.nodup_range' 2 _) _ i]
    · simp only [hmem]
      split_ifs <;> omega
    · intro a ha
      constructor
      · intro hpa
        by_contra hai
        have := honly a ((hmem a).mp ha).2 hai
        simp [-List.getD_eq_getElem?_getD, isPlainMonitorFrame, this] at hpa
      · intro hai
        rw [hai]
        exact hmon
  rw [hook_in_monitor_of_counts C addrs (by omega) hcap, hL, hM]
  split_ifs <;> simp_all

/-- Instance of C14 (amended): the plain monitor frame at index 3. -/
theorem hook_in_monitor_single_plain_frame_witness :
    hook_in_monitor sampleCfg [0x401000, 0x402000, 0x403000, 0x10000040, 0x404000]
      = if 2 ≤ 3 then 0 else 1 :=
  hook_in_monitor_single_plain_frame sampleCfg
    [0x401000, 0x402000, 0x403000, 0x10000040, 0x404000] (by decide) 3 (by decide)
    (by decide) (by decide)

/-! ## C18: a chain of stubs that ends at ordinary code -/

/-- A chain of `p` followed stubs that ends at an instruction matching no pattern
is resolved when the loop has at least one pass left for that instruction. -/
theorem resolveLoop_stop (x64 : Bool) (R : Nat → Nat → Bool) (m : Mem) (h : hook_t)
    (p r addr a : Nat) (regions : List (Nat × Nat)) (f : Nat)
    (hp : resolveIter x64 R m p addr = some a)
    (hs : resolveStep x64 R m a = ResolveStep.stop) :
    (resolveLoop x64 R m h (p + (r + 1)) addr regions f).ret = 0
    ∧ (resolveLoop x64 R m h (p + (r + 1)) addr regions f).hook = { h with addr := a }
    ∧ (resolveLoop x64 R m h (p + (r + 1)) addr regions f).followed = f + p := by
  induction p generalizing addr regions f with
  | zero =>
    simp only [resolveIter, Option.some.injEq] at hp
    subst hp
    rw [Nat.zero_add]
    unfold resolveLoop
    rw [hs]
    exact ⟨rfl, rfl, rfl⟩
  | succ p ih =>
    have : p + 1 + (r + 1) = (p + (r + 1)) + 1 := by omega
    rw [this]
    unfold resolveLoop
    unfold resolveIter at hp
    cases hst : resolveStep x64 R m addr with
    | goto a' rs' =>
      rw [hst] at hp
      obtain ⟨h1, h2, h3⟩ := ih a' (regions ++ rs') (f + 1) hp
      exact ⟨h1, h2, by rw [h3]; omega⟩
    | unreadable rs' => rw [hst] at hp; simp at hp
    | stop => rw [hst] at hp; simp at hp

/-- C18, as stated, fails for `k = 50`: a chain of 50 short jumps that ends at a
`nop` makes `_hook_determine_start` return -1 and leave `h->addr` at its entry
value. -/
theorem hook_determine_start_chain_of_50_fails :
    resolveIter false lowReadable chain50Image 50 sampleHook.addr = some 0x1064
    ∧ resolveStep false lowReadable chain50Image 0x1064 = ResolveStep.stop
    ∧ (_hook_determine_start false lowReadable chain50Image sampleHook).ret = -1
    ∧ (_hook_determine_start false lowReadable chain50Image sampleHook).hook = sampleHook := by
  decide

/-- C18 (amended): for every chain of `k` recognised indirection stubs that starts
at `h->addr` and ends at an instruction matching none of the patterns,
`_hook_determine_start` returns 0 and sets `h->addr` to the address at the end of
the chain when `k` is at most 49; when `k` is 50, the iteration bound, it returns
-1. -/
theorem hook_determine_start_resolves_chain (x64 : Bool) (R : Nat → Nat → Bool)
    (m : Mem) (h : hook_t) (k a : Nat)
    (hp : resolveIter x64 R m k h.addr = some a)
    (hs : resolveStep x64 R m a = ResolveStep.stop) :
    (k < MAXRESOLVECNT →
        (_hook_determine_start x64 R m h).ret = 0
        ∧ (_hook_determine_start x64 R m h).hook = { h with addr := a }
        ∧ (_hook_determine_start x64 R m h).followed = k)
    ∧ (k = MAXRESOLVECNT → (_hook_determine_start x64 R m h).ret = -1) := by
  refine ⟨fun hk => ?_, fun hk => ?_⟩
  · unfold _hook_determine_start
    have : MAXRESOLVECNT = k + ((MAXRESOLVECNT - k - 1) + 1) := by omega
    rw [this]
    have := resolveLoop_stop x64 R m h k (MAXRESOLVECNT - k - 1) h.addr a [] 0 hp hs
    simpa using this
  · subst hk
    exact resolveLoop_exhausted x64 R m h MAXRESOLVECNT h.addr a [] 0 hp

/-- Instance of C18 (amended): one short jump and one hot-patch prologue with a
short jump, ending at `0x100d`. -/
theorem hook_determine_start_resolves_chain_witness :
    (_hook_determine_start false lowReadable
        (image 0x1000 [0xeb, 0x02, 0x90, 0x90, 0x8b, 0xff, 0x55, 0x8b, 0xec, 0x5d, 0xeb,
          0x01, 0x90, 0x55]) sampleHook).ret = 0
    ∧ (_hook_determine_start false lowReadable
        (image 0x1000 [0xeb, 0x02, 0x90, 0x90, 0x8b, 0xff, 0x55, 0x8b, 0xec, 0x5d, 0xeb,
          0x01, 0x90, 0x55]) sampleHook).hook = { sampleHook with addr := 0x100d }
    ∧ (_hook_determine_start false lowReadable
        (image 0x1000 [0xeb, 0x02, 0x90, 0x90, 0x8b, 0xff, 0x55, 0x8b, 0xec, 0x5d, 0xeb,
          0x01, 0x90, 0x55]) sampleHook).followed = 2 :=
  (hook_determine_start_resolves_chain false lowReadable
    (image 0x1000 [0xeb, 0x02, 0x90, 0x90, 0x8b, 0xff, 0x55, 0x8b, 0xec, 0x5d, 0xeb,
      0x01, 0x90, 0x55]) sampleHook 2 0x100d (by decide) (by decide)).1 (by decide)

/-! ## C20: a refused protection change -/

/-- C20: when the change of protection of the target region to
read-write-execute is refused, the 32-bit `hook_create_jump` returns -1 with the
memory as on entry (no trap fill, no jump), and the 64-bit `hook_create_jump`
returns -1 with the memory and the closeby allocator state as on entry and
without a slot, whatever the memory primitives would answer. -/
theorem hook_create_jump_refused (E : Env) (virtual_protect : Nat → Int → Nat → Bool)
    (h : hook_t)
    (hrefused : virtual_protect (h.addr + h.skip) (h.stub_used - (h.skip : Int))
      PAGE_EXECUTE_READWRITE = false) :
    (∀ m, (hook_create_jump E virtual_protect h m).ret = -1
        ∧ (hook_create_jump E virtual_protect h m).afterFill = m
        ∧ (hook_create_jump E virtual_protect h m).final = m)
    ∧ (∀ M size fuel st, ∃ out,
        hook_create_jump_x64 E M virtual_protect size fuel h st = some out
        ∧ out.ret = -1 ∧ out.slot = 0 ∧ out.closeby.last_ptr = st.last_ptr
        ∧ out.closeby.mem = st.mem) := by
  refine ⟨fun m => ?_, fun M size fuel st => ?_⟩
  · unfold hook_create_jump
    rw [if_pos hrefused]
    exact ⟨rfl, rfl, rfl⟩
  · unfold hook_create_jump_x64
    rw [if_pos hrefused]
    exact ⟨_, rfl, rfl, rfl, rfl, rfl⟩

/-- Instance of C20: the protection primitive that refuses everything. -/
theorem hook_create_jump_refused_witness :
    (hook_create_jump env32 protectDeny sampleHook plainImage).ret = -1
    ∧ (hook_create_jump env32 protectDeny sampleHook plainImage).afterFill = plainImage
    ∧ (hook_create_jump env32 protectDeny sampleHook plainImage).final = plainImage :=
  (hook_create_jump_refused env32 protectDeny sampleHook (by rfl)).1 plainImage

/-! ## C15 and C16: the missing-hook registry -/

theorem any_beq_iff (l : List Nat) (x : Nat) : l.any (fun y => y == x) = true ↔ x ∈ l := by
  simp [List.any_eq_true]

theorem hook_missing_hooks_known (st : MissingState) (x : Nat)
    (hx : x ∈ st.g_missing_handles) : hook_missing_hooks st x = (0, st) := by
  unfold hook_missing_hooks
  rw [if_pos ((any_beq_iff _ _).mpr hx)]

theorem hook_missing_hooks_new (st : MissingState) (x : Nat)
    (hx : x ∉ st.g_missing_handles)
    (hlen : st.g_missing_handles.length ≠ MISSING_HANDLE_COUNT) :
    hook_missing_hooks st x
      = (0, { g_missing_handles := st.g_missing_handles ++ [x],
              enumerated := st.enumerated ++ [x] }) := by
  unfold hook_missing_hooks
  rw [if_neg (fun h => hx ((any_beq_iff _ _).mp h)), if_neg hlen]

theorem hook_missing_hooks_full (st : MissingState) (x : Nat)
    (hx : x ∉ st.g_missing_handles)
    (hlen : st.g_missing_handles.length = MISSING_HANDLE_COUNT) :
    hook_missing_hooks st x = (-1, st) := by
  unfold hook_missing_hooks
  rw [if_neg (fun h => hx ((any_beq_iff _ _).mp h)), if_pos hlen]

theorem missingInv_step (st : MissingState) (x : Nat) (hs : MissingInv st) :
    MissingInv (hook_missing_hooks st x).2 := by
  obtain ⟨h1, h2, h3⟩ := hs
  by_cases hx : x ∈ st.g_missing_handles
  · rw [hook_missing_hooks_known st x hx]
    exact ⟨h1, h2, h3⟩
  · by_cases hlen : st.g_missing_handles.length = MISSING_HANDLE_COUNT
    · rw [hook_missing_hooks_full st x hx hlen]
      exact ⟨h1, h2, h3⟩
    · rw [hook_missing_hooks_new st x hx hlen]
      refine ⟨?_, ?_, ?_⟩
      · simp only
        rw [List.nodup_append]
        exact ⟨h1, List.nodup_singleton x, by simpa using hx⟩
      · simp only [List.length_append, List.length_singleton]
        have : st.g_missing_handles.length ≠ MISSING_HANDLE_COUNT := hlen
        omega
      · simp only [h3]

theorem missingInv_run (calls : List Nat) (st : MissingState) (hs : MissingInv st) :
    MissingInv (runMissing calls st).2 := by
  induction calls generalizing st with
  | nil => exact hs
  | cons x xs ih =>
    simp only [runMissing]
    exact ih _ (missingInv_step st x hs)

/-- C15: after every sequence of `hook_missing_hooks` calls from process start,
no module handle has been handed to the export enumeration more than once, the
registry holds no handle twice, and a further call with a handle already in the
registry returns 0 without enumerating and without changing the registry. -/
theorem hook_missing_hooks_once_per_module (calls : List Nat) (x : Nat) :
    (runMissing calls missingInit).2.enumerated.count x ≤ 1
    ∧ (runMissing calls missingInit).2.g_missing_handles.Nodup
    ∧ (x ∈ (runMissing calls missingInit).2.g_missing_handles →
        hook_missing_hooks (runMissing calls missingInit).2 x
          = (0, (runMissing calls missingInit).2)) := by
  obtain ⟨h1, -, h3⟩ := missingInv_run calls missingInit
    ⟨List.nodup_nil, by simp [missingInit], rfl⟩
  refine ⟨?_, h1, hook_missing_hooks_known _ x⟩
  rw [h3]
  exact List.nodup_iff_count_le_one.mp h1 x

/-- Instance of C15: the handle `0x10000` loaded twice among three calls. -/
theorem hook_missing_hooks_once_per_module_witness :
    hook_missing_hooks (runMissing [0x10000, 0x20000, 0x10000] missingInit).2 0x10000
      = (0, (runMissing [0x10000, 0x20000, 0x10000] missingInit).2) :=
  (hook_missing_hooks_once_per_module [0x10000, 0x20000, 0x10000] 0x10000).2.2 (by decide)

theorem runMissing_distinct (hs : List Nat) (st : MissingState)
    (hnd : (st.g_missing_handles ++ hs).Nodup)
    (hlen : (st.g_missing_handles ++ hs).length ≤ MISSING_HANDLE_COUNT) :
    (runMissing hs st).1 = List.replicate hs.length 0
    ∧ (runMissing hs st).2
        = { g_missing_handles := st.g_missing_handles ++ hs,
            enumerated := st.enumerated ++ hs } := by
  induction hs generalizing st with
  | nil => simp [runMissing]
  | cons x xs ih =>
    have hx : x ∉ st.g_missing_handles := by
      intro hmem
      rw [List.nodup_append] at hnd
      exact hnd.2.2 hmem (List.mem_cons_self x xs)
    have hne : st.g_missing_handles.length ≠ MISSING_HANDLE_COUNT := by
      simp only [List.length_append, List.length_cons] at hlen
      omega
    simp only [runMissing, hook_missing_hooks_new st x hx hne]
    have e : st.g_missing_handles ++ [x] ++ xs = st.g_missing_handles ++ x :: xs := by simp
    obtain ⟨h1, h2⟩ := ih
      { g_missing_handles := st.g_missing_handles ++ [x], enumerated := st.enumerated ++ [x] }
      (by simpa [e] using hnd) (by simpa [e] using hlen)
    refine ⟨?_, ?_⟩
    · rw [h1]; rfl
    · rw [h2]; simp

/-- C16: the registry never holds more than `MISSING_HANDLE_COUNT = 128` handles;
a sequence of at most 128 distinct handles is accepted one by one (every call
returns 0 and the handle is registered and enumerated); and in a registry of 128
handles a call with a handle that is not in it returns -1 and leaves the registry,
its count and the enumeration log as they were. -/
theorem hook_missing_hooks_capacity (calls : List Nat) :
    (runMissing calls missingInit).2.g_missing_handles.length ≤ 128
    ∧ (calls.Nodup → calls.length ≤ 128 →
        (runMissing calls missingInit).1 = List.replicate calls.length 0
        ∧ (runMissing calls missingInit).2
            = { g_missing_handles := calls, enumerated := calls })
    ∧ (∀ st x, st.g_missing_handles.length = 128 → x ∉ st.g_missing_handles →
        hook_missing_hooks st x = (-1, st)) := by
  refine ⟨?_, ?_, ?_⟩
  · exact (missingInv_run calls missingInit ⟨List.nodup_nil, by simp [missingInit], rfl⟩).2.1
  · intro hnd hlen
    have := runMissing_distinct calls missingInit (by simpa [missingInit] using hnd)
      (by simpa [missingInit, MISSING_HANDLE_COUNT] using hlen)
    simpa [missingInit] using this
  · intro st x hlen hx
    exact hook_missing_hooks_full st x hx hlen

/-- Instance of C16: 128 distinct handles are accepted and a 129th is refused. -/
theorem hook_missing_hooks_capacity_witness :
    hook_missing_hooks { g_missing_handles := List.range 128, enumerated := List.range 128 }
        1000
      = (-1, { g_missing_handles := List.range 128, enumerated := List.range 128 }) :=
  (hook_missing_hooks_capacity []).2.2
    { g_missing_handles := List.range 128, enumerated := List.range 128 } 1000
    (by simp) (by simp)

/-! ## C17: the capacity test of the stub builders -/

theorem capacityCheck_spec (A : AsmEnv) (h : hook_t) (a : Asm) (r : Int) (hr : 0 ≤ r) :
    ((capacityCheck A h a r).overflow = true ↔
        (capacityCheck A h a r).complete = true
        ∧ A.slab_size ≤ (capacityCheck A h a r).asm.ptr - h.func_stub)
    ∧ ((capacityCheck A h a r).overflow = true → (capacityCheck A h a r).ret = -1)
    ∧ ((capacityCheck A h a r).complete = true →
        (capacityCheck A h a r).asm.ptr - h.func_stub < A.slab_size →
        0 ≤ (capacityCheck A h a r).ret) := by
  unfold capacityCheck
  split_ifs with hc
  · refine ⟨?_, ?_, ?_⟩
    · simp only [true_and, true_iff]; exact hc
    · intro _; rfl
    · intro _ hlt
      simp only at hlt
      omega
  · refine ⟨?_, ?_, ?_⟩
    · simp only [true_and]
      constructor
      · intro hf; cases hf
      · intro hle; exact absurd hle hc
    · intro hf; cases hf
    · intro _ _; exact hr

theorem earlyReturn_spec (A : AsmEnv) (h h' : hook_t) (a : Asm) (r : Int) :
    ((earlyReturn h' a r).overflow = true ↔
        (earlyReturn h' a r).complete = true
        ∧ A.slab_size ≤ (earlyReturn h' a r).asm.ptr - h.func_stub)
    ∧ ((earlyReturn h' a r).overflow = true → (earlyReturn h' a r).ret = -1)
    ∧ ((earlyReturn h' a r).complete = true →
        (earlyReturn h' a r).asm.ptr - h.func_stub < A.slab_size →
        0 ≤ (earlyReturn h' a r).ret) := by
  unfold earlyReturn
  refine ⟨?_, ?_, ?_⟩
  · constructor
    · intro hf; cases hf
    · intro hf; cases hf.1
  · intro hf; cases hf
  · intro hf; cases hf

set_option maxRecDepth 100000 in
/-- C17, as stated, fails: with the capacity 256 reported by `slab_size`,
`hook_insn` rejects a generated stub of exactly 256 bytes: it reports the overflow
and returns -1. -/
theorem hook_insn_rejects_stub_of_capacity_length :
    asmPadded.slab_size = 256
    ∧ (hook_insn env32mov asmPadded 1 movImage sampleHook 0).map
        (fun o => (o.ret, o.asm.ptr - sampleHook.func_stub, o.complete, o.overflow))
      = some (-1, 256, true, true) := by
  decide

/-- C17 (amended): `hook_insn` and `hook_hotpatch_guardpage` report stub overflow
exactly when they have generated the whole stub and the number of bytes they
emitted into `h->func_stub` is greater than or equal to the capacity reported by
`slab_size`; the report makes the builder return -1 (so a stub whose length
equals the capacity is rejected), and a complete stub that is shorter than the
capacity is accepted with a non-negative return value. -/
theorem stub_builders_capacity_test (E : Env) (A : AsmEnv) (fuel : Nat) (m : Mem)
    (h : hook_t) (signature : Nat) (out : BuildOut)
    (hout : hook_insn E A fuel m h signature = some out
      ∨ hook_hotpatch_guardpage E A fuel m h = some out) :
    (out.overflow = true ↔
        out.complete = true ∧ A.slab_size ≤ out.asm.ptr - h.func_stub)
    ∧ (out.overflow = true → out.ret = -1)
    ∧ (out.complete = true → out.asm.ptr - h.func_stub < A.slab_size → 0 ≤ out.ret) := by
  rcases hout with hout | hout
  · unfold hook_insn at hout
    split at hout
    · cases hout
    · simp only [Option.some.injEq] at hout
      subst hout
      exact earlyReturn_spec A h _ _ _
    · split_ifs at hout
      · simp only [Option.some.injEq] at hout
        subst hout
        exact earlyReturn_spec A h _ _ _
      · simp only [Option.some.injEq] at hout
        subst hout
        exact capacityCheck_spec A { h with handler := h.func_stub } _ _ (by omega)
  · unfold hook_hotpatch_guardpage at hout
    simp only at hout
    split at hout
    · simp only [Option.some.injEq] at hout
      subst hout
      exact earlyReturn_spec A h _ _ _
    · split at hout
      · cases hout
      · simp only [Option.some.injEq] at hout
        subst hout
        exact earlyReturn_spec A h _ _ _
      · simp only [Option.some.injEq] at hout
        subst hout
        exact capacityCheck_spec A
          { h with stub_used := _, handler := h.func_stub } _ _ (le_refl _)

/-- Instance of C17 (amended): with the usual emitters the stub over
`mov eax, 1` is 39 bytes long and is accepted. -/
theorem stub_builders_capacity_test_witness :
    (insnSampleOut.overflow = true ↔
        insnSampleOut.complete = true
        ∧ asm32.slab_size ≤ insnSampleOut.asm.ptr - sampleHook.func_stub)
    ∧ (insnSampleOut.overflow = true → insnSampleOut.ret = -1)
    ∧ (insnSampleOut.complete = true →
        insnSampleOut.asm.ptr - sampleHook.func_stub < asm32.slab_size →
        0 ≤ insnSampleOut.ret) :=
  stub_builders_capacity_test env32mov asm32 1 movImage sampleHook 0 insnSampleOut
    (Or.inl (by rfl))

/-! ## C21: exports that need no default stub -/

/-- C21: for every export name that equals the function name of an entry of the
static hook table or an entry of the exclusion list,
`_hook_missing_hooks_worker` returns without taking handler memory from the slab,
without calling `hook` and without emitting a stub byte; memory and the
installer's globals are as on entry. -/
theorem missing_hooks_worker_skips_known (E : Env) (V : VehEnv) (sig_hooks : List String)
    (slab_getmem log_missing_hook : Nat) (st : VehState) (m : Mem) (funcname : String)
    (funcname_ptr address : Nat)
    (hknown : funcname ∈ sig_hooks ∨ funcname ∈ g_missing_blacklist) :
    (_hook_missing_hooks_worker E V sig_hooks slab_getmem log_missing_hook st m funcname
        funcname_ptr address).allocated = false
    ∧ (_hook_missing_hooks_worker E V sig_hooks slab_getmem log_missing_hook st m funcname
        funcname_ptr address).hookCalled = false
    ∧ (_hook_missing_hooks_worker E V sig_hooks slab_getmem log_missing_hook st m funcname
        funcname_ptr address).emitted = []
    ∧ (_hook_missing_hooks_worker E V sig_hooks slab_getmem log_missing_hook st m funcname
        funcname_ptr address).mem = m
    ∧ (_hook_missing_hooks_worker E V sig_hooks slab_getmem log_missing_hook st m funcname
        funcname_ptr address).veh = st := by
  unfold _hook_missing_hooks_worker
  by_cases h1 : sig_hooks.any (fun n => n == funcname) = true
  · rw [if_pos h1]
    exact ⟨rfl, rfl, rfl, rfl, rfl⟩
  · rw [if_neg h1]
    have h2 : g_missing_blacklist.any (fun n => n == funcname) = true := by
      rcases hknown with hk | hk
      · exact absurd (List.any_eq_true.mpr ⟨funcname, hk, by simp⟩) h1
      · exact List.any_eq_true.mpr ⟨funcname, hk, by simp⟩
    rw [if_pos h2]
    exact ⟨rfl, rfl, rfl, rfl, rfl⟩

/-- Instance of C21: the export `ReadFile` with the static table
`["CreateFileW", "ReadFile"]`. -/
theorem missing_hooks_worker_skips_known_witness :
    (_hook_missing_hooks_worker env32 vehOk ["CreateFileW", "ReadFile"] 0x30000 0x10005000
        vehFresh plainImage "ReadFile" 0x500000 0x77002000).allocated = false
    ∧ (_hook_missing_hooks_worker env32 vehOk ["CreateFileW", "ReadFile"] 0x30000 0x10005000
        vehFresh plainImage "ReadFile" 0x500000 0x77002000).hookCalled = false
    ∧ (_hook_missing_hooks_worker env32 vehOk ["CreateFileW", "ReadFile"] 0x30000 0x10005000
        vehFresh plainImage "ReadFile" 0x500000 0x77002000).emitted = []
    ∧ (_hook_missing_hooks_worker env32 vehOk ["CreateFileW", "ReadFile"] 0x30000 0x10005000
        vehFresh plainImage "ReadFile" 0x500000 0x77002000).mem = plainImage
    ∧ (_hook_missing_hooks_worker env32 vehOk ["CreateFileW", "ReadFile"] 0x30000 0x10005000
        vehFresh plainImage "ReadFile" 0x500000 0x77002000).veh = vehFresh :=
  missing_hooks_worker_skips_known env32 vehOk ["CreateFileW", "ReadFile"] 0x30000
    0x10005000 vehFresh plainImage "ReadFile" 0x500000 0x77002000 (Or.inl (by decide))

/-! ## C22: `hook` on a descriptor that is already hooked -/

theorem hook_already_hooked (V : VehEnv) (st : VehState) (h : hook_t)
    (hh : h.is_hooked ≠ 0) :
    (hook V st h).1 = 0 ∧ (hook V st h).2.1 = h
    ∧ (hook V st h).2.2.first = st.first ∧ (hook V st h).2.2.guarded = st.guarded
    ∧ (st.check ≠ 0 → (hook V st h).2.2 = st) := by
  unfold hook
  simp only [hh, ne_eq, not_false_eq_true, if_true]
  refine ⟨trivial, trivial, ?_, ?_, ?_⟩
  · split_ifs <;> rfl
  · split_ifs <;> rfl
  · intro hc
    rw [if_neg hc]

theorem Hook_true (V : VehEnv) (s : VehState) (src dst : Nat)
    (hr : (Hook V s src dst).1 = true) :
    (Hook V s src dst).2.first = s.first ++ [(src, dst)]
    ∧ (Hook V s src dst).2.guarded = s.guarded ++ [src]
    ∧ (Hook V s src dst).2.check = s.check
    ∧ (Hook V s src dst).2.handle = s.handle := by
  unfold Hook at hr ⊢
  by_cases h0 : s.handle = 0
  · rw [if_pos h0] at hr
    exact absurd hr (by simp)
  · rw [if_neg h0] at hr ⊢
    cases hs : V.VirtualQuery src with
    | none => rw [hs] at hr; exact absurd hr (by simp)
    | some sbase =>
      cases hd : V.VirtualQuery dst with
      | none => rw [hs, hd] at hr; exact absurd hr (by simp)
      | some dbase =>
        rw [hs, hd] at hr
        simp only at hr ⊢
        by_cases he : sbase = dbase
        · rw [if_pos he] at hr
          exact absurd hr (by simp)
        · rw [if_neg he]
          exact ⟨rfl, rfl, rfl, rfl⟩

theorem hook_success (V : VehEnv) (st : VehState) (h : hook_t)
    (h1 : (hook V st h).1 = 1) (hfall : V.fallOff ≠ 1) :
    (hook V st h).2.2.first
        = st.first ++ [(V.GetProcAddress h.library h.funcname, h.handler)]
    ∧ (hook V st h).2.2.guarded
        = st.guarded ++ [V.GetProcAddress h.library h.funcname]
    ∧ (hook V st h).2.1 = { h with is_hooked := 1 } ∧ (hook V st h).2.2.check ≠ 0 := by
  have hst1 : ∀ st1 : VehState,
      st1 = (if st.check = 0 then { setupHandler V st with check := st.check + 1 } else st) →
      st1.first = st.first ∧ st1.guarded = st.guarded ∧ st1.check ≠ 0 := by
    intro st1 hs
    by_cases hc : st.check = 0
    · rw [if_pos hc] at hs
      subst hs
      refine ⟨rfl, rfl, ?_⟩
      show st.check + 1 ≠ 0
      omega
    · rw [if_neg hc] at hs
      subst hs
      exact ⟨rfl, rfl, hc⟩
  unfold hook at h1 ⊢
  generalize hg : (if st.check = 0 then { setupHandler V st with check := st.check + 1 }
      else st) = st1 at h1 ⊢
  obtain ⟨hf, hgd, hck⟩ := hst1 st1 hg.symm
  simp only at h1 ⊢
  by_cases hh : h.is_hooked ≠ 0
  · rw [if_pos hh] at h1
    exact absurd h1 (by simp)
  · rw [if_neg hh] at h1 ⊢
    by_cases hr : (Hook V st1 (V.GetProcAddress h.library h.funcname) h.handler).1 = true
    · rw [if_pos hr]
      obtain ⟨a, b, c, -⟩ := Hook_true V st1 _ _ hr
      refine ⟨by rw [← hf]; exact a, by rw [← hgd]; exact b, rfl, ?_⟩
      show (Hook V st1 (V.GetProcAddress h.library h.funcname) h.handler).2.check ≠ 0
      rw [c]
      exact hck
    · rw [if_neg hr] at h1
      exact absurd h1 hfall

/-- C22: for every descriptor whose installed flag is set (`is_hooked != 0`),
`hook` returns 0, appends no node to the list `first`, arms no guard page and
leaves every descriptor field as it was; and when a call of `hook` succeeds
(returns 1), one node was appended for the descriptor, and a second call on the
descriptor as the first call left it returns 0 and leaves descriptor, list, guard
pages and the other globals exactly as the first call left them. -/
theorem hook_is_idempotent (V : VehEnv) (st : VehState) (h : hook_t) :
    (h.is_hooked ≠ 0 →
        (hook V st h).1 = 0 ∧ (hook V st h).2.1 = h
        ∧ (hook V st h).2.2.first = st.first ∧ (hook V st h).2.2.guarded = st.guarded)
    ∧ ((hook V st h).1 = 1 → V.fallOff ≠ 1 →
        (hook V st h).2.2.first
            = st.first ++ [(V.GetProcAddress h.library h.funcname, h.handler)]
        ∧ (hook V st h).2.2.guarded
            = st.guarded ++ [V.GetProcAddress h.library h.funcname]
        ∧ (hook V st h).2.1 = { h with is_hooked := 1 }
        ∧ hook V (hook V st h).2.2 (hook V st h).2.1
            = (0, (hook V st h).2.1, (hook V st h).2.2)) := by
  refine ⟨fun hh => ?_, fun h1 hfall => ?_⟩
  · obtain ⟨a, b, c, d, -⟩ := hook_already_hooked V st h hh
    exact ⟨a, b, c, d⟩
  · obtain ⟨hfirst, hguard, hdesc, hcheck⟩ := hook_success V st h h1 hfall
    have hflag : (hook V st h).2.1.is_hooked ≠ 0 := by
      rw [hdesc]
      exact Nat.one_ne_zero
    refine ⟨hfirst, hguard, hdesc, ?_⟩
    obtain ⟨a, b, -, -, e⟩ := hook_already_hooked V (hook V st h).2.2 (hook V st h).2.1 hflag
    exact Prod.ext a (Prod.ext b (e hcheck))


/-- Instance of C22: the descriptor for `Sleep` at process start; the first call
installs one node, the second returns 0 and changes nothing; and a call on a
descriptor whose flag is already set installs nothing. -/
theorem hook_is_idempotent_witness :
    ((hook vehOk vehFresh sampleHook).1 = 1 ∧ vehOk.fallOff ≠ 1)
    ∧ ((hook vehOk vehFresh sampleHook).2.2.first
          = vehFresh.first ++ [(vehOk.GetProcAddress sampleHook.library sampleHook.funcname,
              sampleHook.handler)]
        ∧ (hook vehOk vehFresh sampleHook).2.2.guarded
          = vehFresh.guarded ++ [vehOk.GetProcAddress sampleHook.library sampleHook.funcname]
        ∧ (hook vehOk vehFresh sampleHook).2.1 = { sampleHook with is_hooked := 1 }
        ∧ hook vehOk (hook vehOk vehFresh sampleHook).2.2 (hook vehOk vehFresh sampleHook).2.1
          = (0, (hook vehOk vehFresh sampleHook).2.1, (hook vehOk vehFresh sampleHook).2.2))
    ∧ ({ sampleHook with is_hooked := 1 }.is_hooked ≠ 0
        ∧ (hook vehOk vehFresh { sampleHook with is_hooked := 1 }).1 = 0
        ∧ (hook vehOk vehFresh { sampleHook with is_hooked := 1 }).2.1
            = { sampleHook with is_hooked := 1 }
        ∧ (hook vehOk vehFresh { sampleHook with is_hooked := 1 }).2.2.first = vehFresh.first
        ∧ (hook vehOk vehFresh { sampleHook with is_hooked := 1 }).2.2.guarded
            = vehFresh.guarded) :=
  ⟨⟨by decide, by decide⟩,
   (hook_is_idempotent vehOk vehFresh sampleHook).2 (by decide) (by decide),
   by decide,
   (hook_is_idempotent vehOk vehFresh { sampleHook with is_hooked := 1 }).1 (by decide)⟩


/-! ## C28: what `_hook_determine_start` writes -/

/-- The three ways the resolution loop ends: at its bound (descriptor untouched,
-1), at an unreadable pointer (descriptor untouched, 0), or at a non-stub
instruction at `a` (only `addr` written, with `a`, 0). -/
theorem resolveLoop_cases (x64 : Bool) (R : Nat → Nat → Bool) (m : Mem) (h : hook_t)
    (left addr : Nat) (regions : List (Nat × Nat)) (f : Nat) :
    ((resolveLoop x64 R m h left addr regions f).ret = -1
        ∧ (resolveLoop x64 R m h left addr regions f).hook = h
        ∧ ∃ b, resolveIter x64 R m left addr = some b)
    ∨ ((resolveLoop x64 R m h left addr regions f).ret = 0
        ∧ (resolveLoop x64 R m h left addr regions f).hook = h
        ∧ ∃ p a rs, p < left ∧ resolveIter x64 R m p addr = some a
            ∧ resolveStep x64 R m a = ResolveStep.unreadable rs)
    ∨ ((resolveLoop x64 R m h left addr regions f).ret = 0
        ∧ ∃ p a, p < left ∧ resolveIter x64 R m p addr = some a
            ∧ resolveStep x64 R m a = ResolveStep.stop
            ∧ (resolveLoop x64 R m h left addr regions f).hook = { h with addr := a }) := by
  induction left generalizing addr regions f with
  | zero =>
    left
    exact ⟨rfl, rfl, addr, rfl⟩
  | succ left ih =>
    unfold resolveLoop
    cases hs : resolveStep x64 R m addr with
    | goto a rs =>
      simp only
      have hit : ∀ p, resolveIter x64 R m (p + 1) addr = resolveIter x64 R m p a := by
        intro p
        conv_lhs => unfold resolveIter
        rw [hs]
      rcases ih a (regions ++ rs) (f + 1) with ⟨h1, h2, b, hb⟩ | ⟨h1, h2, p, c, rs', hp, hc, hst⟩
          | ⟨h1, p, c, hp, hc, hst, h2⟩
      · left
        exact ⟨h1, h2, b, by rw [hit]; exact hb⟩
      · right; left
        exact ⟨h1, h2, p + 1, c, rs', by omega, by rw [hit]; exact hc, hst⟩
      · right; right
        exact ⟨h1, p + 1, c, by omega, by rw [hit]; exact hc, hst, h2⟩
    | unreadable rs =>
      right; left
      exact ⟨rfl, rfl, 0, addr, rs, by omega, rfl, hs⟩
    | stop =>
      right; right
      exact ⟨rfl, 0, addr, by omega, rfl, hs, rfl⟩

/-- C28: `_hook_determine_start` writes no descriptor field other than `addr`;
when it returns -1 (iteration bound) the descriptor is as on entry; when it meets
an unreadable pointer after fewer than 50 stubs the descriptor is as on entry; and
whenever `addr` differs from its entry value the function returned 0 and the new
value is the address of the non-stub instruction at which the chain of fewer than
50 stubs ended. -/
theorem hook_determine_start_writes_only_addr (x64 : Bool) (R : Nat → Nat → Bool)
    (m : Mem) (h : hook_t) :
    (_hook_determine_start x64 R m h).hook
        = { h with addr := (_hook_determine_start x64 R m h).hook.addr }
    ∧ ((_hook_determine_start x64 R m h).ret = -1 →
        (_hook_determine_start x64 R m h).hook = h)
    ∧ (∀ p a rs, p < MAXRESOLVECNT → resolveIter x64 R m p h.addr = some a →
        resolveStep x64 R m a = ResolveStep.unreadable rs →
        (_hook_determine_start x64 R m h).hook = h)
    ∧ ((_hook_determine_start x64 R m h).hook.addr ≠ h.addr →
        (_hook_determine_start x64 R m h).ret = 0
        ∧ ∃ p a, p < MAXRESOLVECNT ∧ resolveIter x64 R m p h.addr = some a
            ∧ resolveStep x64 R m a = ResolveStep.stop
            ∧ (_hook_determine_start x64 R m h).hook.addr = a) := by
  unfold _hook_determine_start
  refine ⟨?_, ?_, ?_, ?_⟩
  · rcases resolveLoop_cases x64 R m h MAXRESOLVECNT h.addr [] 0 with
      ⟨-, h2, -⟩ | ⟨-, h2, -⟩ | ⟨-, p, a, -, -, -, h2⟩
    · rw [h2]
    · rw [h2]
    · rw [h2]
  · intro hret
    rcases resolveLoop_cases x64 R m h MAXRESOLVECNT h.addr [] 0 with
      ⟨-, h2, -⟩ | ⟨-, h2, -⟩ | ⟨h1, -⟩
    · exact h2
    · exact h2
    · rw [h1] at hret
      exact absurd hret (by decide)
  · intro p a rs hp50 hp hs
    have : MAXRESOLVECNT = p + ((MAXRESOLVECNT - p - 1) + 1) := by omega
    rw [this]
    exact (resolveLoop_unreadable x64 R m h p _ h.addr a rs [] 0 hp hs).2
  · intro hne
    rcases resolveLoop_cases x64 R m h MAXRESOLVECNT h.addr [] 0 with
      ⟨-, h2, -⟩ | ⟨-, h2, -⟩ | ⟨h1, p, a, hp, hit, hs, h2⟩
    · rw [h2] at hne
      exact absurd rfl hne
    · rw [h2] at hne
      exact absurd rfl hne
    · exact ⟨h1, p, a, hp, hit, hs, by rw [h2]⟩


/-- Instance of C28: a short jump at `0x1000` over two bytes to a `push ebp` at
`0x1004` (address rewritten, 0 returned), the self-jump `eb fe` (bound reached,
descriptor kept) and the stub with an unreadable pointer (descriptor kept). -/
theorem hook_determine_start_writes_only_addr_witness :
    ((_hook_determine_start false lowReadable (image 0x1000 [0xeb, 0x02, 0x90, 0x90, 0x55])
          sampleHook).hook.addr ≠ sampleHook.addr
      ∧ (_hook_determine_start false lowReadable (image 0x1000 [0xeb, 0x02, 0x90, 0x90, 0x55])
          sampleHook).ret = 0
      ∧ ∃ p a, p < MAXRESOLVECNT
          ∧ resolveIter false lowReadable (image 0x1000 [0xeb, 0x02, 0x90, 0x90, 0x55]) p
              sampleHook.addr = some a
          ∧ resolveStep false lowReadable (image 0x1000 [0xeb, 0x02, 0x90, 0x90, 0x55]) a
              = ResolveStep.stop
          ∧ (_hook_determine_start false lowReadable
              (image 0x1000 [0xeb, 0x02, 0x90, 0x90, 0x55]) sampleHook).hook.addr = a)
    ∧ ((_hook_determine_start false lowReadable (image 0x1000 [0xeb, 0xfe]) sampleHook).ret = -1
      ∧ (_hook_determine_start false lowReadable (image 0x1000 [0xeb, 0xfe]) sampleHook).hook
          = sampleHook)
    ∧ (resolveStep false lowReadable stubImage sampleHook.addr
          = ResolveStep.unreadable [(0x1000, 6)]
      ∧ (_hook_determine_start false lowReadable stubImage sampleHook).hook = sampleHook) :=
  ⟨⟨by decide,
    (hook_determine_start_writes_only_addr false lowReadable
      (image 0x1000 [0xeb, 0x02, 0x90, 0x90, 0x55]) sampleHook).2.2.2 (by decide)⟩,
   ⟨by decide,
    (hook_determine_start_writes_only_addr false lowReadable (image 0x1000 [0xeb, 0xfe])
      sampleHook).2.1 (by decide)⟩,
   ⟨by decide,
    (hook_determine_start_writes_only_addr false lowReadable stubImage sampleHook).2.2.1
      0 sampleHook.addr [(0x1000, 6)] (by decide) rfl (by decide)⟩⟩

/-! ## C27: the two newest frames -/

theorem scanLoop_congr (C : MonitorCfg) (a b : List Nat)
    (hagree : ∀ i, 2 ≤ i → a.getD i 0 = b.getD i 0) (idx : Nat) (c : Counters) :
    scanLoop C a idx c = scanLoop C b idx c := by
  induction idx generalizing c with
  | zero => rfl
  | succ idx ih =>
    unfold scanLoop
    by_cases hc : 2 ≤ idx + 1 ∧ idx + 1 < C.RETADDRCNT
    · rw [if_pos hc, if_pos hc, hagree (idx + 1) hc.1]
      exact ih _
    · rw [if_neg hc, if_neg hc]

theorem scanLoop_low (C : MonitorCfg) (a : List Nat) (idx : Nat) (c : Counters)
    (hidx : idx ≤ 1) : scanLoop C a idx c = c := by
  cases idx with
  | zero => rfl
  | succ idx =>
    unfold scanLoop
    rw [if_neg (by omega)]

/-- C27: the result of `hook_in_monitor` does not depend on the two newest
entries of the trace: two traces of the same length that agree at every index
from 2 on give the same result; and every trace of length 1 or 2 gives 1. -/
theorem hook_in_monitor_ignores_newest_two (C : MonitorCfg) (a b : List Nat) :
    (a.length = b.length → (∀ i, 2 ≤ i → i < a.length → a.getD i 0 = b.getD i 0) →
        hook_in_monitor C a = hook_in_monitor C b)
    ∧ (a.length = 1 ∨ a.length = 2 → hook_in_monitor C a = 1) := by
  refine ⟨fun hlen hagree => ?_, fun hlen => ?_⟩
  · have hall : ∀ i, 2 ≤ i → a.getD i 0 = b.getD i 0 := by
      intro i hi
      by_cases hlt : i < a.length
      · exact hagree i hi hlt
      · rw [List.getD_eq_default _ _ (by omega), List.getD_eq_default _ _ (by omega)]
    unfold hook_in_monitor
    rw [← hlen, scanLoop_congr C a b hall]
  · unfold hook_in_monitor
    rw [if_neg (by omega), scanLoop_low C a _ _ (by omega)]
    decide


/-- Instance of C27: two traces of length 3 that differ in their two newest
entries and share the monitor frame at index 2 both give 0, and a trace of two
monitor frames gives 1. -/
theorem hook_in_monitor_ignores_newest_two_witness :
    ([0x400000, 0x77001000, 0x10000500].length = [0x10000600, 0x10001234, 0x10000500].length
      ∧ (∀ i, 2 ≤ i → i < [0x400000, 0x77001000, 0x10000500].length →
          [0x400000, 0x77001000, 0x10000500].getD i 0
            = [0x10000600, 0x10001234, 0x10000500].getD i 0)
      ∧ hook_in_monitor sampleCfg [0x400000, 0x77001000, 0x10000500]
          = hook_in_monitor sampleCfg [0x10000600, 0x10001234, 0x10000500]
      ∧ hook_in_monitor sampleCfg [0x400000, 0x77001000, 0x10000500] = 0)
    ∧ (([0x10000600, 0x10000500] : List Nat).length = 2
      ∧ hook_in_monitor sampleCfg [0x10000600, 0x10000500] = 1) :=
  ⟨⟨rfl, by decide,
    (hook_in_monitor_ignores_newest_two sampleCfg [0x400000, 0x77001000, 0x10000500]
      [0x10000600, 0x10001234, 0x10000500]).1 rfl (by decide),
    by decide⟩,
   ⟨rfl,
    (hook_in_monitor_ignores_newest_two sampleCfg [0x10000600, 0x10000500] []).2
      (Or.inr rfl)⟩⟩


/-! ## C24: the slots carved out of one page -/

/-- One call on a pointer inside the page at `base`: the bump pointer is either
reset, or advanced by `(size & ~7) + 8` with the slot after the next one still
ending inside the page. -/
theorem closeby_ptr_snd (base lp s : Nat) (hbase : base % 4096 = 0)
    (hs : s ≤ 4096) (h1 : base ≤ lp) (h2 : lp < base + 4096) :
    (_hook_alloc_closeby_ptr lp s).2 = 0
    ∨ ((_hook_alloc_closeby_ptr lp s).2 = lp + (s - s % 8 + 8)
        ∧ lp + 2 * (s - s % 8 + 8) < base + 4096) := by
  unfold _hook_alloc_closeby_ptr
  simp only
  split_ifs with hc
  · left; rfl
  · right
    norm_num at hc ⊢
    omega

theorem closebySlots_null (s n : Nat) : closebySlots s n 0 = [] := by
  cases n with
  | zero => rfl
  | succ n => simp [closebySlots]

theorem closebySlots_inv (base s : Nat) (hbase : base % 4096 = 0) (hnz : base ≠ 0)
    (hs : s ≤ 4096) (n : Nat) :
    ∀ lp, base ≤ lp → lp < base + 4096 → lp + s ≤ base + 4096 →
      ∀ i, i < (closebySlots s n lp).length →
        (closebySlots s n lp).getD i 0 = lp + i * (s - s % 8 + 8)
        ∧ lp + i * (s - s % 8 + 8) + s ≤ base + 4096 := by
  induction n with
  | zero =>
    intro lp _ _ _ i hi
    simp [closebySlots] at hi
  | succ n ih =>
    intro lp h1 h2 h3 i hi
    have hlp : lp ≠ 0 := by omega
    unfold closebySlots at hi ⊢
    rw [if_neg hlp] at hi ⊢
    cases i with
    | zero =>
      rw [closeby_ptr_fst]
      simp only [List.getD_cons_zero, Nat.zero_mul, Nat.add_zero]
      exact ⟨trivial, h3⟩
    | succ i =>
      rw [List.getD_cons_succ]
      rw [List.length_cons] at hi
      rcases closeby_ptr_snd base lp s hbase hs h1 h2 with h0 | ⟨hadv, hfit⟩
      · rw [h0, closebySlots_null] at hi
        simp at hi
      · rw [hadv] at hi ⊢
        have := ih (lp + (s - s % 8 + 8)) (by omega) (by omega) (by omega) i (by omega)
        have e : lp + (s - s % 8 + 8) + i * (s - s % 8 + 8)
            = lp + (i + 1) * (s - s % 8 + 8) := by
          rw [Nat.succ_mul]
          omega
        rw [e] at this
        exact this


/-- C24: starting from a freshly reserved page whose base is 4096-aligned (and
not `NULL`), for a fixed size `s ≤ 4096` and any number `n` of consecutive calls
of `_hook_alloc_closeby_ptr`: the `i`-th slot handed out starts at
`base + i * ((s & ~7) + 8)`, lies wholly inside the page, is 8-byte aligned, and
ends before every later slot starts; no more than 513 slots are handed out, so
the bump pointer is reset to `NULL` before a slot that would cross the page end
could be handed out. -/
theorem hook_alloc_closeby_ptr_slots (base s n : Nat) (hbase : base % 4096 = 0)
    (hnz : base ≠ 0) (hs : s ≤ 4096) :
    (∀ i, i < (closebySlots s n base).length →
        (closebySlots s n base).getD i 0 = base + i * (s - s % 8 + 8)
        ∧ base ≤ (closebySlots s n base).getD i 0
        ∧ (closebySlots s n base).getD i 0 + s ≤ base + 4096
        ∧ (closebySlots s n base).getD i 0 % 8 = 0)
    ∧ (∀ i j, i < j → j < (closebySlots s n base).length →
        (closebySlots s n base).getD i 0 + s < (closebySlots s n base).getD j 0)
    ∧ (closebySlots s n base).length ≤ 513 := by
  have inv := closebySlots_inv base s hbase hnz hs n base (le_refl _) (by omega) (by omega)
  refine ⟨fun i hi => ?_, fun i j hij hj => ?_, ?_⟩
  · obtain ⟨e, hin⟩ := inv i hi
    rw [e]
    refine ⟨rfl, by omega, hin, ?_⟩
    have h8 : (s - s % 8 + 8) % 8 = 0 := by omega
    obtain ⟨q, hq⟩ := Nat.dvd_of_mod_eq_zero h8
    rw [hq, ← Nat.mul_assoc, Nat.mul_comm i 8, Nat.mul_assoc]
    omega
  · obtain ⟨ei, -⟩ := inv i (by omega)
    obtain ⟨ej, -⟩ := inv j hj
    rw [ei, ej]
    have : (i + 1) * (s - s % 8 + 8) ≤ j * (s - s % 8 + 8) :=
      Nat.mul_le_mul_right _ (by omega)
    rw [Nat.succ_mul] at this
    omega
  · by_contra hlen
    obtain ⟨-, hin⟩ := inv 513 (by omega)
    have : 513 * 8 ≤ 513 * (s - s % 8 + 8) := Nat.mul_le_mul_left _ (by omega)
    omega

/-- Instance of C24: slots of 2000 bytes from the page at `0x30000000`; two
slots, 2008 bytes apart, are handed out, then the bump pointer is `NULL`. -/
theorem hook_alloc_closeby_ptr_slots_witness :
    closebySlots 2000 5 0x30000000 = [0x30000000, 0x300007d8]
    ∧ (_hook_alloc_closeby_ptr 0x300007d8 2000).2 = 0
    ∧ (∀ i, i < (closebySlots 2000 5 0x30000000).length →
        (closebySlots 2000 5 0x30000000).getD i 0 = 0x30000000 + i * (2000 - 2000 % 8 + 8)
        ∧ 0x30000000 ≤ (closebySlots 2000 5 0x30000000).getD i 0
        ∧ (closebySlots 2000 5 0x30000000).getD i 0 + 2000 ≤ 0x30000000 + 4096
        ∧ (closebySlots 2000 5 0x30000000).getD i 0 % 8 = 0)
    ∧ (∀ i j, i < j → j < (closebySlots 2000 5 0x30000000).length →
        (closebySlots 2000 5 0x30000000).getD i 0 + 2000
          < (closebySlots 2000 5 0x30000000).getD j 0)
    ∧ (closebySlots 2000 5 0x30000000).length ≤ 513 :=
  ⟨by decide, by decide,
   hook_alloc_closeby_ptr_slots 0x30000000 2000 5 (by decide) (by decide) (by decide)⟩


/-! ## C25: `_hook_copy_insns` and a failing decoder -/

/-- Whenever `_hook_copy_insns` returns a count, the count is at least 5. -/
theorem copyLoop_ok_ge_five (E : Env) (haddr fuel : Nat) (s s' : CopyState) (r : Nat)
    (hok : copyLoop E haddr fuel s = CopyResult.ok r s') : 5 ≤ r := by
  induction fuel generalizing s with
  | zero =>
    unfold copyLoop at hok
    split_ifs at hok with hlt
    cases hok
    omega
  | succ fuel ih =>
    unfold copyLoop at hok
    split_ifs at hok with hlt
    · cases hp : copyPass E s with
      | none => rw [hp] at hok; cases hok
      | some s1 =>
        rw [hp] at hok
        exact ih s1 hok
    · cases hok
      omega

/-- A pass over an instruction that is not one of the rewritten jump shapes, with
no unconditional jump seen so far, for which the decoder reports length 0:
nothing is copied and the source cursor does not move. -/
theorem copyPass_zero_length (E : Env) (s : CopyState)
    (h1 : rd s.asm.mem s.addr ≠ 0xe8) (h2 : rd s.asm.mem s.addr ≠ 0xe9)
    (h3 : rd s.asm.mem s.addr ≠ 0xeb)
    (h4 : ¬(0x70 ≤ rd s.asm.mem s.addr ∧ rd s.asm.mem s.addr < 0x80))
    (h5 : ¬(rd s.asm.mem s.addr = 0x0f ∧ 0x80 ≤ rd s.asm.mem (s.addr + 1)
      ∧ rd s.asm.mem (s.addr + 1) < 0x90))
    (hj : ¬(s.relative = 0 ∧ s.jmpaddr ≠ 0))
    (h0 : E.lde s.asm.mem s.addr = 0) :
    ∃ s', copyPass E s = some s' ∧ s'.asm = s.asm ∧ s'.addr = s.addr
      ∧ s'.relative = s.relative ∧ s'.jmpaddr = s.jmpaddr := by
  unfold copyPass
  rw [if_neg h1, if_neg h2, if_neg h3, if_neg h4, if_neg h5, if_neg hj, h0]
  exact ⟨_, rfl, rfl, rfl, rfl, rfl⟩

theorem copyLoop_zero_length (E : Env) (haddr fuel : Nat) (s : CopyState)
    (hlt : s.addr - haddr < 5)
    (h1 : rd s.asm.mem s.addr ≠ 0xe8) (h2 : rd s.asm.mem s.addr ≠ 0xe9)
    (h3 : rd s.asm.mem s.addr ≠ 0xeb)
    (h4 : ¬(0x70 ≤ rd s.asm.mem s.addr ∧ rd s.asm.mem s.addr < 0x80))
    (h5 : ¬(rd s.asm.mem s.addr = 0x0f ∧ 0x80 ≤ rd s.asm.mem (s.addr + 1)
      ∧ rd s.asm.mem (s.addr + 1) < 0x90))
    (hj : ¬(s.relative = 0 ∧ s.jmpaddr ≠ 0))
    (h0 : E.lde s.asm.mem s.addr = 0) :
    ∃ s', copyLoop E haddr fuel s = CopyResult.spin s' ∧ s'.asm = s.asm
      ∧ s'.addr = s.addr := by
  induction fuel generalizing s with
  | zero =>
    unfold copyLoop
    rw [if_pos hlt]
    exact ⟨s, rfl, rfl, rfl⟩
  | succ fuel ih =>
    unfold copyLoop
    rw [if_pos hlt]
    obtain ⟨s1, hp, ea, ead, er, ej⟩ := copyPass_zero_length E s h1 h2 h3 h4 h5 hj h0
    rw [hp]
    simp only
    obtain ⟨s2, hl, e2, e3⟩ := ih s1 (by rw [ead]; exact hlt) (by rw [ea, ead]; exact h1)
      (by rw [ea, ead]; exact h2) (by rw [ea, ead]; exact h3) (by rw [ea, ead]; exact h4)
      (by rw [ea, ead]; exact h5) (by rw [er, ej]; exact hj) (by rw [ea, ead]; exact h0)
    exact ⟨s2, hl, by rw [e2, ea], by rw [e3, ead]⟩

/-- C25 fails in the code: when the decoder reports length 0 for the instruction
at `h->addr` (an instruction that is none of the jump and call shapes the loop
treats itself), `_hook_copy_insns` copies nothing, leaves its source cursor where
it was and tests the loop condition again: for no number of passes does it return,
and the cursor is still at `h->addr` with the stub as on entry. -/
theorem hook_copy_insns_spins_on_decoder_failure (E : Env) (fuel : Nat) (h : hook_t)
    (a : Asm)
    (h1 : rd a.mem h.addr ≠ 0xe8) (h2 : rd a.mem h.addr ≠ 0xe9) (h3 : rd a.mem h.addr ≠ 0xeb)
    (h4 : ¬(0x70 ≤ rd a.mem h.addr ∧ rd a.mem h.addr < 0x80))
    (h5 : ¬(rd a.mem h.addr = 0x0f ∧ 0x80 ≤ rd a.mem (h.addr + 1)
      ∧ rd a.mem (h.addr + 1) < 0x90))
    (h0 : E.lde a.mem h.addr = 0) :
    ∃ s, _hook_copy_insns E fuel h a = CopyResult.spin s ∧ s.asm = a ∧ s.addr = h.addr := by
  unfold _hook_copy_insns
  exact copyLoop_zero_length E h.addr fuel
    { asm := a, addr := h.addr, jmpaddr := 0, relative := 0, spoff := 0 }
    (by simp) h1 h2 h3 h4 h5 (by simp) h0

/-- Instance of C25: `push ebp` at `0x1000` with a decoder that reports 0; after
1000 passes `_hook_copy_insns` has not returned, while `hook_create_stub` on the
same bytes returns -1. -/
theorem hook_copy_insns_spins_on_decoder_failure_witness :
    (rd plainImage sampleHook.addr = 0x55
      ∧ envNoDecoder.lde plainImage sampleHook.addr = 0)
    ∧ (∃ s, _hook_copy_insns envNoDecoder 1000 sampleHook
          { mem := plainImage, ptr := 0x31000, calls := [] } = CopyResult.spin s
        ∧ s.asm = { mem := plainImage, ptr := 0x31000, calls := [] }
        ∧ s.addr = sampleHook.addr)
    ∧ (hook_create_stub envNoDecoder plainImage 0x31000 0x1000 5).ret = some (-1) :=
  ⟨⟨by decide, rfl⟩,
   hook_copy_insns_spins_on_decoder_failure envNoDecoder 1000 sampleHook
     { mem := plainImage, ptr := 0x31000, calls := [] }
     (by decide) (by decide) (by decide) (by decide) (by decide) rfl,
   by decide⟩


/-! ## C26: argument marshalling -/

theorem wrBytes_append (xs ys : List Nat) (m : Mem) (a : Nat) :
    wrBytes m a (xs ++ ys) = wrBytes (wrBytes m a xs) (a + xs.length) ys := by
  induction xs generalizing m a with
  | nil => rfl
  | cons x xs ih =>
    show wrBytes (wr m a x) (a + 1) (xs ++ ys)
      = wrBytes (wrBytes (wr m a x) (a + 1) xs) (a + (xs.length + 1)) ys
    rw [ih, Nat.add_assoc, Nat.add_comm 1 xs.length]

theorem Asm.emit_append (a : Asm) (xs ys : List Nat) :
    (a.emit xs).emit ys = a.emit (xs ++ ys) := by
  unfold Asm.emit
  simp only [wrBytes_append, List.length_append, Nat.add_assoc]

theorem Asm.emit_ptr (a : Asm) (xs : List Nat) : (a.emit xs).ptr = a.ptr + xs.length := rfl

theorem pushArgument_eq (E : Env) (A : AsmEnv) (a : Asm) (idx arg : Nat) :
    pushArgument E A a idx arg = a.emit (pushCode E A a.ptr idx arg) := by
  unfold pushArgument pushCode
  split_ifs <;> rfl

/-- The stores of `_hook_call_method_arguments`: the four runs of `marshalCodes`
one after the other from the entry cursor on, then the pops of the 64-bit
build. -/
theorem hook_call_method_arguments_eq (E : Env) (A : AsmEnv) (a : Asm) (signature : Nat) :
    _hook_call_method_arguments E A a signature
      = a.emit ((marshalCodes E A a.ptr signature).flatten ++ fastcallPops E.x64) := by
  unfold _hook_call_method_arguments fastcallPops marshalCodes
  simp only [pushArgument_eq, Asm.emit_append, Asm.emit_ptr, List.length_append,
    Nat.add_assoc, List.flatten_cons, List.flatten_nil, List.append_nil, List.append_assoc]
  split_ifs
  · rfl
  · simp only [List.append_nil]

theorem AsmGrows.refl (a : Asm) : AsmGrows a a := ⟨le_refl _, fun _ _ => rfl⟩

theorem AsmGrows.trans {a b c : Asm} (hab : AsmGrows a b) (hbc : AsmGrows b c) :
    AsmGrows a c :=
  ⟨le_trans hab.1 hbc.1, fun x hx => by
    rw [hbc.2 x (lt_of_lt_of_le hx hab.1), hab.2 x hx]⟩

theorem asmGrows_emit (a : Asm) (code : List Nat) : AsmGrows a (a.emit code) :=
  ⟨Nat.le_add_right _ _, fun x hx => wrBytes_frame code a.mem a.ptr x (Or.inl hx)⟩

theorem asmGrows_call (E : Env) (a : Asm) (target : Nat) : AsmGrows a (a.call E target) :=
  ⟨Nat.le_add_right _ _, fun x hx => wrBytes_frame _ a.mem a.ptr x (Or.inl hx)⟩

theorem asmGrows_jump (E : Env) (a : Asm) (target : Nat) : AsmGrows a (a.jump E target) :=
  ⟨Nat.le_add_right _ _, fun x hx => wrBytes_frame _ a.mem a.ptr x (Or.inl hx)⟩

theorem asmGrows_arguments (E : Env) (A : AsmEnv) (a : Asm) (signature : Nat) :
    AsmGrows a (_hook_call_method_arguments E A a signature) := by
  rw [hook_call_method_arguments_eq]
  exact asmGrows_emit a _

theorem copyPass_grows (E : Env) (s s' : CopyState) (hp : copyPass E s = some s') :
    AsmGrows s.asm s'.asm ∧ s'.asm.calls = s.asm.calls := by
  unfold copyPass at hp
  split_ifs at hp
  all_goals first
    | (cases hp; exact ⟨AsmGrows.refl _, rfl⟩)
    | (cases hp; exact ⟨asmGrows_emit _ _, rfl⟩)

theorem copyLoop_grows (E : Env) (haddr fuel : Nat) (s s' : CopyState) (r : Nat)
    (hok : copyLoop E haddr fuel s = CopyResult.ok r s') :
    AsmGrows s.asm s'.asm ∧ s'.asm.calls = s.asm.calls := by
  induction fuel generalizing s with
  | zero =>
    unfold copyLoop at hok
    split_ifs at hok with hlt
    cases hok
    exact ⟨AsmGrows.refl _, rfl⟩
  | succ fuel ih =>
    unfold copyLoop at hok
    split_ifs at hok with hlt
    · cases hp : copyPass E s with
      | none => rw [hp] at hok; cases hok
      | some s1 =>
        rw [hp] at hok
        obtain ⟨g1, c1⟩ := copyPass_grows E s s1 hp
        obtain ⟨g2, c2⟩ := ih s1 hok
        exact ⟨g1.trans g2, by rw [c2, c1]⟩
    · cases hok
      exact ⟨AsmGrows.refl _, rfl⟩

/-- The prologue of `hook_insn`: the cursor starts at `h->func_stub`, exactly one
`asm_call` is made, at the call site and with target `h->handler`, and the bytes
it stored are still there when the prologue is complete. -/
theorem hookInsnPrologue_call (E : Env) (A : AsmEnv) (m : Mem) (h : hook_t)
    (signature : Nat) :
    (hookInsnPrologue E A m h signature).calls
        = [⟨EmitKind.call, (hookInsnCallSite E A m h signature).ptr, h.handler⟩]
    ∧ h.func_stub ≤ (hookInsnCallSite E A m h signature).ptr
    ∧ AsmGrows ((hookInsnCallSite E A m h signature).call E h.handler)
        (hookInsnPrologue E A m h signature) := by
  refine ⟨?_, ?_, ?_⟩
  · unfold hookInsnPrologue hookInsnCallSite
    simp only [hook_call_method_arguments_eq]
    split_ifs <;> rfl
  · unfold hookInsnCallSite
    simp only
    refine le_trans ?_ (asmGrows_arguments E A _ signature).1
    split_ifs
    · exact le_trans (Nat.le_add_right _ _) (le_trans (Nat.le_add_right _ _)
        (Nat.le_add_right _ _))
    · exact le_trans (Nat.le_add_right _ _) (Nat.le_add_right _ _)
  · unfold hookInsnPrologue hookInsnCallSite
    simp only
    split_ifs
    · exact (asmGrows_emit _ _).trans ((asmGrows_emit _ _).trans (asmGrows_emit _ _))
    · exact (asmGrows_emit _ _).trans (asmGrows_emit _ _)


/-- C23: after every successful `hook_insn(h, signature)` (a return value that is
not negative), `h->handler` equals `h->func_stub` and no other descriptor field
has changed; `asm_call` was invoked exactly once, at a position inside the stub
and with the handler address `h` held on entry as its target; and the bytes of
that call instruction are still in the stub when the function returns. -/
theorem hook_insn_handler_redirected (E : Env) (A : AsmEnv) (fuel : Nat) (m : Mem)
    (h : hook_t) (signature : Nat) (out : BuildOut)
    (hrun : hook_insn E A fuel m h signature = some out) (hok : 0 ≤ out.ret) :
    out.hook.handler = h.func_stub
    ∧ out.hook = { h with handler := h.func_stub }
    ∧ (∃ q, out.asm.calls
        = [⟨EmitKind.call, (hookInsnCallSite E A m h signature).ptr, h.handler⟩,
           ⟨EmitKind.jump, q, h.addr + out.ret.toNat⟩])
    ∧ h.func_stub ≤ (hookInsnCallSite E A m h signature).ptr
    ∧ (hookInsnCallSite E A m h signature).ptr
        + (E.asm_call (hookInsnCallSite E A m h signature).ptr h.handler).length
        ≤ out.asm.ptr
    ∧ (∀ i, i < (E.asm_call (hookInsnCallSite E A m h signature).ptr h.handler).length →
        out.asm.mem ((hookInsnCallSite E A m h signature).ptr + i)
          = (E.asm_call (hookInsnCallSite E A m h signature).ptr h.handler).getD i 0 % 256) := by
  obtain ⟨hcalls, hstub, hgrow⟩ := hookInsnPrologue_call E A m h signature
  unfold hook_insn at hrun
  split at hrun
  · cases hrun
  · simp only [Option.some.injEq] at hrun
    subst hrun
    exact absurd (show (0 : Int) ≤ -1 from hok) (by decide)
  · rename_i r s hcopy
    split_ifs at hrun with hj
    · simp only [Option.some.injEq] at hrun
      subst hrun
      exact absurd (show (0 : Int) ≤ -1 from hok) (by decide)
    · simp only [Option.some.injEq] at hrun
      unfold capacityCheck at hrun
      split_ifs at hrun with hcap
      · subst hrun
        exact absurd (show (0 : Int) ≤ -1 from hok) (by decide)
      · subst hrun
        unfold _hook_copy_insns at hcopy
        obtain ⟨g, c⟩ := copyLoop_grows E _ fuel _ s r hcopy
        have gall : AsmGrows ((hookInsnCallSite E A m h signature).call E h.handler)
            (s.asm.jump E (h.addr + r)) :=
          (hgrow.trans g).trans (asmGrows_jump E s.asm _)
        refine ⟨rfl, rfl, ⟨s.asm.ptr, ?_⟩, hstub, gall.1, fun i hi => ?_⟩
        · show s.asm.calls ++ [_] = _
          rw [c]
          simp only at hcalls ⊢
          rw [hcalls]
          simp
        · rw [gall.2 _ (by show _ < _ + _; omega)]
          exact wrBytes_get _ _ _ i hi


/-- Instance of C23: the instruction hook over `mov eax, 1` at `0x1000` with
handler `0x30000` and stub `0x31000`: `hook_insn` returns 5, the handler field is
`0x31000`, and the one call in the stub, at `0x31010`, targets `0x30000`. -/
theorem hook_insn_handler_redirected_witness :
    (hook_insn env32mov asm32 1 movImage sampleHook 0 = some insnSampleOut
      ∧ insnSampleOut.ret = 5
      ∧ (hookInsnCallSite env32mov asm32 movImage sampleHook 0).ptr = 0x31010)
    ∧ (insnSampleOut.hook.handler = sampleHook.func_stub
      ∧ insnSampleOut.hook = { sampleHook with handler := sampleHook.func_stub }
      ∧ (∃ q, insnSampleOut.asm.calls
          = [⟨EmitKind.call, (hookInsnCallSite env32mov asm32 movImage sampleHook 0).ptr,
                sampleHook.handler⟩,
             ⟨EmitKind.jump, q, sampleHook.addr + insnSampleOut.ret.toNat⟩])
      ∧ sampleHook.func_stub ≤ (hookInsnCallSite env32mov asm32 movImage sampleHook 0).ptr
      ∧ (hookInsnCallSite env32mov asm32 movImage sampleHook 0).ptr
          + (env32mov.asm_call (hookInsnCallSite env32mov asm32 movImage sampleHook 0).ptr
              sampleHook.handler).length
          ≤ insnSampleOut.asm.ptr
      ∧ (∀ i, i < (env32mov.asm_call
              (hookInsnCallSite env32mov asm32 movImage sampleHook 0).ptr
              sampleHook.handler).length →
          insnSampleOut.asm.mem
              ((hookInsnCallSite env32mov asm32 movImage sampleHook 0).ptr + i)
            = (env32mov.asm_call (hookInsnCallSite env32mov asm32 movImage sampleHook 0).ptr
                sampleHook.handler).getD i 0 % 256)) :=
  ⟨⟨by rfl, by decide, by decide⟩,
   hook_insn_handler_redirected env32mov asm32 1 movImage sampleHook 0 insnSampleOut
     (by rfl) (by decide)⟩

end Hooking
